import Mathlib

/-!
Verification of the bridge double-dummy solver core (Rust sources under
`src/`): bitboard card sets, hands, PBN parsing, the pattern cache tree,
the cutoff cache, move ordering, the three-layer alpha-beta search and the
MTD(f) driver.  Machine integers (`u64`, `usize`, `i8`, `u8`) are modelled
as `Nat`/`Int`; `u64` bit operations act on `Nat` values below `2 ^ 64`.
-/

namespace Bridge

/-! ### Bit-level helpers (u64 primitives)

`trailing_zeros`, `leading_zeros` and `count_ones` on `u64` are modelled by
fuel-bounded structural recursions (fuel 64), which the kernel can evaluate.
-/

def mask64 : Nat := 2 ^ 64 - 1

def bitlenAux : Nat → Nat → Nat
  | 0, _ => 0
  | fuel + 1, n => if n = 0 then 0 else bitlenAux fuel (n / 2) + 1

def ctzAux : Nat → Nat → Nat
  | 0, _ => 0
  | fuel + 1, n => if n % 2 = 1 then 0 else ctzAux fuel (n / 2) + 1

def popAux : Nat → Nat → Nat
  | 0, _ => 0
  | fuel + 1, n => if n = 0 then 0 else n % 2 + popAux fuel (n / 2)

/-- `u64::trailing_zeros` (64 on input 0). -/
def trailingZeros64 (n : Nat) : Nat := ctzAux 64 n

/-- `u64::leading_zeros` (64 on input 0). -/
def leadingZeros64 (n : Nat) : Nat := 64 - bitlenAux 64 n

/-- `u64::count_ones`. -/
def popcount64 (n : Nat) : Nat := popAux 64 n

/-! ### types.rs -/

def SPADE : Nat := 0
def HEART : Nat := 1
def DIAMOND : Nat := 2
def CLUB : Nat := 3
def NUM_SUITS : Nat := 4
def NOTRUMP : Nat := NUM_SUITS
def NUM_RANKS : Nat := 13
def TWO : Nat := 0
def TEN : Nat := 8
def JACK : Nat := 9
def QUEEN : Nat := 10
def KING : Nat := 11
def ACE : Nat := 12
def WEST : Nat := 0
def NORTH : Nat := 1
def EAST : Nat := 2
def SOUTH : Nat := 3
def NUM_SEATS : Nat := 4
def TOTAL_TRICKS : Nat := NUM_RANKS
def TOTAL_CARDS : Nat := NUM_RANKS * NUM_SUITS

/-- `is_ns`: seat & 1 != 0. -/
def is_ns (seat : Nat) : Bool := (seat &&& 1) != 0

def partner (seat : Nat) : Nat := (seat + 2) % NUM_SEATS

def left_hand_opp (seat : Nat) : Nat := (seat + 1) % NUM_SEATS

def right_hand_opp (seat : Nat) : Nat := (seat + 3) % NUM_SEATS

def next_seat (seat : Nat) : Nat := (seat + 1) % NUM_SEATS

/-- `char_to_rank` (after `to_ascii_uppercase`). -/
def charToRank (c : Char) : Option Nat :=
  let u := if 'a' ≤ c && c ≤ 'z' then Char.ofNat (c.toNat - 32) else c
  if u = '2' then some 0 else if u = '3' then some 1 else
  if u = '4' then some 2 else if u = '5' then some 3 else
  if u = '6' then some 4 else if u = '7' then some 5 else
  if u = '8' then some 6 else if u = '9' then some 7 else
  if u = 'T' || u = '1' then some TEN else if u = 'J' then some JACK else
  if u = 'Q' then some QUEEN else if u = 'K' then some KING else
  if u = 'A' then some ACE else none

/-- `char_to_seat` (after `to_ascii_uppercase`). -/
def charToSeat (c : Char) : Option Nat :=
  let u := if 'a' ≤ c && c ≤ 'z' then Char.ofNat (c.toNat - 32) else c
  if u = 'W' then some WEST else if u = 'N' then some NORTH else
  if u = 'E' then some EAST else if u = 'S' then some SOUTH else none

/-! ### cards.rs -/

def suit_of (card : Nat) : Nat := card / NUM_RANKS

def rank_of (card : Nat) : Nat := NUM_RANKS - 1 - card % NUM_RANKS

def card_of (suit rank : Nat) : Nat := suit * NUM_RANKS + (NUM_RANKS - 1 - rank)

def mask_of (suit : Nat) : Nat := 0x1FFF <<< (suit * NUM_RANKS)

/-- `lower_rank`: card1 has lower rank than card2 (higher bit index). -/
def lower_rank (card1 card2 : Nat) : Bool := decide (card2 < card1)

/-- `higher_rank`: card1 has higher rank than card2 (lower bit index). -/
def higher_rank (card1 card2 : Nat) : Bool := decide (card1 < card2)

/-- 52-bit card set held in a `u64`. -/
structure Cards where
  bits : Nat
deriving DecidableEq, Repr

instance : Inhabited Cards := ⟨⟨0⟩⟩

namespace Cards

def fromBits (b : Nat) : Cards := ⟨b⟩

def value (c : Cards) : Nat := c.bits

def size (c : Cards) : Nat := popcount64 c.bits

/-- `have`: bits & (1 << card) != 0.  (`have` is a Lean keyword.) -/
def hasCard (c : Cards) (card : Nat) : Bool := (c.bits &&& (1 <<< card)) != 0

def isEmpty (c : Cards) : Bool := c.bits == 0

def suit (c : Cards) (s : Nat) : Cards := ⟨c.bits &&& mask_of s⟩

/-- `top`: lowest bit index = highest rank (`trailing_zeros`). -/
def top (c : Cards) : Nat := trailingZeros64 c.bits

/-- `bottom`: `63 - leading_zeros`.  The `u64` subtraction underflows on the
empty set; this total model truncates at 0 there, while `bottomChecked`
below records the underflow.  All engine call sites pass non-empty sets. -/
def bottom (c : Cards) : Nat := 63 - leadingZeros64 c.bits

/-- The `63 - leading_zeros` subtraction with the underflow made explicit
(`none` corresponds to the debug-build panic on the empty set). -/
def bottomChecked (c : Cards) : Option Nat :=
  if 63 < leadingZeros64 c.bits then none else some (63 - leadingZeros64 c.bits)

/-- `slice(begin, end)`: bits & mask with
`mask = if end >= 64 { !0u64 } else { (1 << end) - (1 << begin) }`.
(Call sites all satisfy `begin ≤ end`, so the `u64` subtraction never wraps.) -/
def slice (c : Cards) (b e : Nat) : Cards :=
  let mask := if 64 ≤ e then mask64 else (1 <<< e) - (1 <<< b)
  ⟨c.bits &&& mask⟩

def union (c other : Cards) : Cards := ⟨c.bits ||| other.bits⟩

def intersect (c other : Cards) : Cards := ⟨c.bits &&& other.bits⟩

/-- `different`: bits & !other.bits (u64 complement). -/
def different (c other : Cards) : Cards := ⟨c.bits &&& (mask64 ^^^ other.bits)⟩

/-- `complement`: ((1 << TOTAL_CARDS) - 1) ^ bits. -/
def complement (c : Cards) : Cards := ⟨((1 <<< TOTAL_CARDS) - 1) ^^^ c.bits⟩

/-- `include`: self ∩ other = other. -/
def includeCards (c other : Cards) : Bool := (c.intersect other).bits == other.bits

def add (c : Cards) (card : Nat) : Cards := ⟨c.bits ||| (1 <<< card)⟩

def remove (c : Cards) (card : Nat) : Cards := ⟨c.bits &&& (mask64 ^^^ (1 <<< card))⟩

def addCards (c other : Cards) : Cards := ⟨c.bits ||| other.bits⟩

def removeCards (c other : Cards) : Cards := ⟨c.bits &&& (mask64 ^^^ other.bits)⟩

def clearSuit (c : Cards) (s : Nat) : Cards := ⟨c.bits &&& (mask64 ^^^ mask_of s)⟩

/-- Iteration from top (highest rank) to bottom: repeatedly take the lowest
set bit and clear it, as `CardsIterator` does. -/
def toListAux : Nat → Nat → List Nat
  | 0, _ => []
  | fuel + 1, bits =>
    if bits = 0 then [] else trailingZeros64 bits :: toListAux fuel (bits &&& (bits - 1))

def toList (c : Cards) : List Nat := toListAux 64 c.bits

/-- `points`: high-card points accumulated over the iteration. -/
def points (c : Cards) : Nat :=
  c.toList.foldl (fun acc card =>
    let r := rank_of card
    if TEN < r then acc + (r - TEN) else acc) 0

end Cards

/-! ### hands.rs -/

/-- Four hands, one per seat (W, N, E, S). -/
structure Hands where
  w : Cards
  n : Cards
  e : Cards
  s : Cards
deriving DecidableEq, Repr

instance : Inhabited Hands := ⟨⟨⟨0⟩, ⟨0⟩, ⟨0⟩, ⟨0⟩⟩⟩

namespace Hands

def empty : Hands := ⟨⟨0⟩, ⟨0⟩, ⟨0⟩, ⟨0⟩⟩

/-- `hands[seat]`.  Seats outside 0..3 panic in Rust; the engine only ever
indexes with values reduced mod 4. -/
def hand (h : Hands) (seat : Nat) : Cards :=
  match seat with
  | 0 => h.w
  | 1 => h.n
  | 2 => h.e
  | 3 => h.s
  | _ => ⟨0⟩

def setHand (h : Hands) (seat : Nat) (c : Cards) : Hands :=
  match seat with
  | 0 => { h with w := c }
  | 1 => { h with n := c }
  | 2 => { h with e := c }
  | 3 => { h with s := c }
  | _ => h

def allCards (h : Hands) : Cards :=
  (((h.hand WEST).union (h.hand NORTH)).union (h.hand EAST)).union (h.hand SOUTH)

def partnershipCards (h : Hands) (seat : Nat) : Cards :=
  (h.hand seat).union (h.hand (partner seat))

def opponentCards (h : Hands) (seat : Nat) : Cards :=
  (h.hand (left_hand_opp seat)).union (h.hand (right_hand_opp seat))

/-- `num_tricks`: the size of the West hand. -/
def numTricks (h : Hands) : Nat := (h.hand WEST).size

end Hands

/-! ### hands.rs : PBN parsing

Strings are modelled as `List Char` (the inputs are ASCII, so Rust's byte
slicing `&s[2..]` coincides with dropping two characters).
-/

/-- `str::split('.')`: separators are kept as empty segments. -/
def splitDotAux : List Char → List Char → List (List Char)
  | [], acc => [acc.reverse]
  | c :: rest, acc =>
    if c = '.' then acc.reverse :: splitDotAux rest []
    else splitDotAux rest (c :: acc)

def splitDot (s : List Char) : List (List Char) := splitDotAux s []

/-- `str::split_whitespace`: empty segments are dropped. -/
def splitWsAux : List Char → List Char → List (List Char)
  | [], acc => if acc.isEmpty then [] else [acc.reverse]
  | c :: rest, acc =>
    if c.isWhitespace then
      if acc.isEmpty then splitWsAux rest [] else acc.reverse :: splitWsAux rest []
    else splitWsAux rest (c :: acc)

def splitWs (s : List Char) : List (List Char) := splitWsAux s []

/-- Inner loop of `parse_hand`: one dot-separated suit group. -/
def parseSuitChars (suitIdx : Nat) : List Char → Cards → Option Cards
  | [], acc => some acc
  | c :: rest, acc =>
    if c = '-' then parseSuitChars suitIdx rest acc
    else match charToRank c with
      | none => none
      | some rank => parseSuitChars suitIdx rest (acc.add (card_of suitIdx rank))

/-- Loop of `parse_hand` over the enumerated suit groups. -/
def parseHandSuits : Nat → List (List Char) → Cards → Option Cards
  | _, [], acc => some acc
  | suitIdx, grp :: rest, acc =>
    match parseSuitChars suitIdx grp acc with
    | none => none
    | some acc2 => parseHandSuits (suitIdx + 1) rest acc2

/-- `parse_hand`: a single PBN hand, suits separated by dots in SHDC order. -/
def parse_hand (s : List Char) : Option Cards :=
  let suits := splitDot s
  if suits.length ≠ 4 then none
  else parseHandSuits 0 suits ⟨0⟩

/-- Loop of `from_pbn` assigning the four hand strings clockwise. -/
def assignHands (startSeat : Nat) : Nat → List (List Char) → Hands → Option Hands
  | _, [], h => some h
  | i, hs :: rest, h =>
    match parse_hand hs with
    | none => none
    | some c => assignHands startSeat (i + 1) rest (h.setHand ((startSeat + i) % NUM_SEATS) c)

/-- `Hands::from_pbn`. -/
def fromPbn (s : List Char) : Option Hands :=
  let seatRest : Option (Nat × List Char) :=
    match s with
    | c0 :: ':' :: rest =>
      match charToSeat c0 with
      | none => none
      | some seat => some (seat, rest)
    | _ => some (NORTH, s)
  match seatRest with
  | none => none
  | some (startSeat, rest) =>
    let handStrs := splitWs rest
    if handStrs.length ≠ 4 then none
    else assignHands startSeat 0 handStrs Hands.empty

/-! ### bridge_solver.rs : played cards, partial tricks, the solver facade -/

/-- `PlayedCard`: a card played to the current trick with its seat. -/
structure PlayedCard where
  card : Nat
  seat : Nat
deriving DecidableEq, Repr

/-- `PartialTrick`: the ordered plays of a partially played trick. -/
def PartialTrick := List PlayedCard

def PartialTrick.leader (pt : PartialTrick) : Option Nat :=
  (List.head? pt).map (fun p => p.seat)

def PartialTrick.leadSuit (pt : PartialTrick) : Option Nat :=
  (List.head? pt).map (fun p => suit_of p.card)

/-- Max over the four hand sizes, `unwrap_or(0)` (as computed by
`Solver::new_mid_trick` and `Search::new_with_partial_trick`). -/
def maxHandSize (h : Hands) : Nat :=
  ((List.range NUM_SEATS).map (fun s => (h.hand s).size)).foldl Nat.max 0

/-- The `Solver` record: hands, trump, initial leader, cached num_tricks. -/
structure Solver where
  hands : Hands
  trump : Nat
  initialLeader : Nat
  numTricks : Nat
deriving DecidableEq, Repr

/-- `Solver::new`. -/
def Solver.new (hands : Hands) (trump initialLeader : Nat) : Solver :=
  ⟨hands, trump, initialLeader, hands.numTricks⟩

/-- `Solver::new_mid_trick`. -/
def Solver.newMidTrick (hands : Hands) (trump : Nat) (pt : PartialTrick) : Option Solver :=
  if List.isEmpty pt || decide (3 < List.length pt) then none
  else
    match pt.leader with
    | none => none
    | some initialLeader => some ⟨hands, trump, initialLeader, maxHandSize hands⟩

/-! ### bridge_solver.rs : the MTD(f) driver loop

`mtdf_search_with_caches_and_partial` is a `while lower < upper` loop around
a null-window search; the search (with its caches and hands) is abstracted
here as a state-passing oracle `f : σ → Int → Int × σ`, exactly as the Rust
loop re-creates a `Search` over the same mutable state each iteration.
`i8` arithmetic is modelled as `Int` (all values involved fit in `i8`).
The loop needs no fuel in Rust; here fuel counts remaining iterations and
an exhausted loop returns `lower` (the theorems show the fuel is never
exhausted for a sound oracle). -/
def mtdfLoop {σ : Type} (f : σ → Int → Int × σ) :
    Nat → σ → Int → Int → Int → Int × σ
  | 0, st, lower, _, _ => (lower, st)
  | fuel + 1, st, lower, upper, g =>
    if lower < upper then
      let beta := if g = lower then g + 1 else g
      let r := f st beta
      if r.1 < beta then mtdfLoop f fuel r.2 lower r.1 r.1
      else mtdfLoop f fuel r.2 r.1 upper r.1
    else (lower, st)

/-- The same iteration written from the words of the spec: "continue until
`lower = upper`; return `lower`". -/
def mtdfSpecLoop {σ : Type} (f : σ → Int → Int × σ) :
    Nat → σ → Int → Int → Int → Int × σ
  | 0, st, lower, _, _ => (lower, st)
  | fuel + 1, st, lower, upper, g =>
    if lower ≠ upper then
      let beta := if g = lower then g + 1 else g
      let r := f st beta
      if r.1 < beta then mtdfSpecLoop f fuel r.2 lower r.1 r.1
      else mtdfSpecLoop f fuel r.2 r.1 upper r.1
    else (lower, st)

/-! ### pattern.rs : bit gather/scatter, shape, bounds, the pattern tree

The Rust `update`/`update_bounds` recursions run on a heap tree with index
loops and `Vec::swap_remove`; they are modelled with explicit fuel so that
every recursion is structural (kernel-evaluable).  Fuel exhaustion returns
the data unchanged; the theorems quantify over all fuels.
-/

/-- `u64::wrapping_neg`. -/
def wneg64 (m : Nat) : Nat := (2 ^ 64 - m % 2 ^ 64) % 2 ^ 64

/-- `u64` wrapping subtraction. -/
def sub64 (a b : Nat) : Nat := (a + (2 ^ 64 - b % 2 ^ 64)) % 2 ^ 64

/-- Loop of `pack_bits` (software PEXT: iterated low-bit isolation). -/
def packBitsAux : Nat → Nat → Nat → Nat → Nat → Nat
  | 0, _, _, _, packed => packed
  | fuel + 1, source, m, bit, packed =>
    if m = 0 then packed
    else
      let lowest := m &&& wneg64 m
      let packed2 := if source &&& lowest != 0 then packed ||| bit else packed
      packBitsAux fuel source (m &&& (m - 1)) (bit <<< 1) packed2

/-- `pack_bits`: extract the bits of `source` selected by `mask`, packed
into the low bits. -/
def pack_bits (source mask : Nat) : Nat :=
  if source = 0 then 0 else packBitsAux 64 source mask 1 0

/-- Loop of `unpack_bits` (software PDEP). -/
def unpackBitsAux : Nat → Nat → Nat → Nat → Nat → Nat
  | 0, _, _, _, unpacked => unpacked
  | fuel + 1, src, m, bit, unpacked =>
    if src = 0 || m = 0 then unpacked
    else if src &&& bit != 0 then
      unpackBitsAux fuel (src &&& (mask64 ^^^ bit)) (m &&& (m - 1)) (bit <<< 1)
        (unpacked ||| (m &&& wneg64 m))
    else unpackBitsAux fuel src (m &&& (m - 1)) (bit <<< 1) unpacked

/-- `unpack_bits`: scatter the low bits of `source` to the positions
selected by `mask`. -/
def unpack_bits (source mask : Nat) : Nat :=
  if source = 0 then 0 else unpackBitsAux 64 source mask 1 0

/-- `Shape`: 16 suit-length nibbles packed in a `u64`. -/
structure Shape where
  value : Nat
deriving DecidableEq, Repr

instance : Inhabited Shape := ⟨⟨0⟩⟩

def Shape.offset (seat suit : Nat) : Nat := 60 - (seat * NUM_SUITS + suit) * 4

def Shape.fromHands (h : Hands) : Shape :=
  ⟨(List.range NUM_SEATS).foldl (fun v seat =>
      (List.range NUM_SUITS).foldl (fun v2 suit =>
        v2 ||| (((h.hand seat).suit suit).size <<< Shape.offset seat suit)) v) 0⟩

/-- `Shape::play_cards`: four nibble decrements after a completed trick. -/
def Shape.playCards (sh : Shape) (seat c1 c2 c3 c4 : Nat) : Shape :=
  let v1 := sub64 sh.value (1 <<< Shape.offset seat (suit_of c1))
  let v2 := sub64 v1 (1 <<< Shape.offset ((seat + 1) % NUM_SEATS) (suit_of c2))
  let v3 := sub64 v2 (1 <<< Shape.offset ((seat + 2) % NUM_SEATS) (suit_of c3))
  let v4 := sub64 v3 (1 <<< Shape.offset ((seat + 3) % NUM_SEATS) (suit_of c4))
  ⟨v4⟩

/-- `Bounds`: proven trick range (i8 pair, modelled as `Int`). -/
structure Bounds where
  lower : Int
  upper : Int
deriving DecidableEq, BEq, Repr

instance : Inhabited Bounds := ⟨⟨0, 13⟩⟩

def Bounds.isEmpty (b : Bounds) : Bool := b.upper < b.lower

def Bounds.intersect (b other : Bounds) : Bounds :=
  ⟨max b.lower other.lower, min b.upper other.upper⟩

/-- `Bounds::cutoff`: lower ≥ beta ∨ upper < beta. -/
def Bounds.cutoff (b : Bounds) (beta : Int) : Bool := b.lower ≥ beta || b.upper < beta

/-- `Pattern`: a tree node holding relative hands, bounds, and children. -/
inductive Pattern where
  | mk (hands : Hands) (bounds : Bounds) (children : List Pattern)

def Pattern.hands : Pattern → Hands
  | .mk h _ _ => h

def Pattern.bounds : Pattern → Bounds
  | .mk _ b _ => b

def Pattern.children : Pattern → List Pattern
  | .mk _ _ c => c

def Pattern.withBounds : Pattern → Bounds → Pattern
  | .mk h _ c, b => .mk h b c

def Pattern.withChildren : Pattern → List Pattern → Pattern
  | .mk h b _, c => .mk h b c

/-- `Pattern::default()`: empty hands, bounds `(0, TOTAL_TRICKS)`. -/
instance : Inhabited Pattern := ⟨.mk Hands.empty ⟨0, 13⟩ []⟩

/-- `Pattern::new`. -/
def Pattern.new (h : Hands) (b : Bounds) : Pattern := .mk h b []

/-- `is_subset_of`: each of `p`'s hands includes the corresponding hand of
`q` (a pattern with more cards specified is the more specific one). -/
def Pattern.isSubsetOf (p q : Pattern) : Bool :=
  (p.hands.hand WEST).includeCards (q.hands.hand WEST) &&
  (p.hands.hand NORTH).includeCards (q.hands.hand NORTH) &&
  (p.hands.hand EAST).includeCards (q.hands.hand EAST) &&
  (p.hands.hand SOUTH).includeCards (q.hands.hand SOUTH)

def Pattern.handsEqual (p q : Pattern) : Bool :=
  (p.hands.hand WEST).bits == (q.hands.hand WEST).bits &&
  (p.hands.hand NORTH).bits == (q.hands.hand NORTH).bits &&
  (p.hands.hand EAST).bits == (q.hands.hand EAST).bits &&
  (p.hands.hand SOUTH).bits == (q.hands.hand SOUTH).bits

/-- `Vec::swap_remove(i)`: remove index `i`, moving the last element into
its place. -/
def swapRemove {α : Type} (l : List α) (i : Nat) : List α :=
  match l.getLast? with
  | none => l
  | some last => if i + 1 = l.length then l.dropLast else l.dropLast.set i last

/-- `Pattern::lookup` (tree and child-list recursion, fuelled). -/
def lookupList : Nat → Pattern → Int → List Pattern → Option Pattern
  | 0, _, _, _ => none
  | fuel + 1, newP, beta, children =>
    match children with
    | [] => none
    | child :: rest =>
      if newP.isSubsetOf child then
        if child.bounds.cutoff beta then some child
        else
          match lookupList fuel newP beta child.children with
          | some d => some d
          | none => lookupList fuel newP beta rest
      else lookupList fuel newP beta rest

def Pattern.lookup (fuel : Nat) (p newP : Pattern) (beta : Int) : Option Pattern :=
  lookupList fuel newP beta p.children

/-- `Pattern::update_bounds` together with its child-rebalancing `while`
loop, as a single fuelled dispatcher (`node` = `update_bounds` on one
pattern, `loop` = the `while i < children.len()` loop). -/
inductive UBCall where
  | node (p : Pattern) (nb : Bounds)
  | loop (b : Bounds) (children : List Pattern) (i : Nat)

inductive UBRes where
  | node (p : Pattern)
  | loop (children : List Pattern)

def ubRun : Nat → UBCall → UBRes
  | 0, .node p _ => .node p
  | 0, .loop _ cs _ => .loop cs
  | fuel + 1, .node p nb =>
    let ob := p.bounds
    let b := ob.intersect nb
    if b.isEmpty || b == ob then .node (p.withBounds b)
    else
      match ubRun fuel (.loop b p.children 0) with
      | .loop cs => .node (.mk p.hands b cs)
      | .node _ => .node (p.withBounds b)
  | fuel + 1, .loop b cs i =>
    if i < cs.length then
      let ci := cs.getD i default
      match ubRun fuel (.node ci b) with
      | .node ci2 =>
        if ci2.bounds == b then
          ubRun fuel (.loop b (swapRemove (cs.set i ci2) i ++ ci2.children) i)
        else ubRun fuel (.loop b (cs.set i ci2) (i + 1))
      | .loop _ => .loop cs
    else .loop cs

/-- `update_bounds` entry point. -/
def ubNode (fuel : Nat) (p : Pattern) (nb : Bounds) : Pattern :=
  match ubRun fuel (.node p nb) with
  | .node q => q
  | .loop _ => p

/-- The scan of `Pattern::update`'s `for` loop: index and branch (0 =
hands_equal, 1 = new ⊑ child, 2 = child ⊑ new) of the first related child. -/
def findRelated (newP : Pattern) : List Pattern → Nat → Option (Nat × Nat)
  | [], _ => none
  | child :: rest, i =>
    if newP.handsEqual child then some (i, 0)
    else if newP.isSubsetOf child then some (i, 1)
    else if child.isSubsetOf newP then some (i, 2)
    else findRelated newP rest (i + 1)

/-- The `while j < self.children.len()` loop in `Pattern::update`'s absorb
branch. -/
def absorbLoop (ubFuel : Nat) : Nat → Pattern → List Pattern → Nat → Pattern × List Pattern
  | 0, newP, cs, _ => (newP, cs)
  | fuel + 1, newP, cs, j =>
    if j < cs.length then
      let cj := cs.getD j default
      if cj.isSubsetOf newP then
        let cj2 := ubNode ubFuel cj newP.bounds
        let cs2 := swapRemove (cs.set j cj2) j
        if !(cj2.bounds == newP.bounds) then
          absorbLoop ubFuel fuel (newP.withChildren (newP.children ++ [cj2])) cs2 j
        else if newP.children.isEmpty then
          absorbLoop ubFuel fuel (newP.withChildren cj2.children) cs2 j
        else
          absorbLoop ubFuel fuel (newP.withChildren (newP.children ++ cj2.children)) cs2 j
      else absorbLoop ubFuel fuel newP cs (j + 1)
    else (newP, cs)

/-- `Pattern::update`.  `fuel` bounds the recursion depth into children
(matching `child.update(new_pattern)`); `update_bounds` calls get the same
fuel. -/
def Pattern.update : Nat → Pattern → Pattern → Pattern
  | 0, selfP, _ => selfP
  | fuel + 1, selfP, newP =>
    match findRelated newP selfP.children 0 with
    | none => selfP.withChildren (selfP.children ++ [newP])
    | some (i, 0) =>
      let child := selfP.children.getD i default
      selfP.withChildren (selfP.children.set i (ubNode fuel child newP.bounds))
    | some (i, 1) =>
      let child := selfP.children.getD i default
      let nb := newP.bounds.intersect child.bounds
      if !nb.isEmpty && !(nb == child.bounds) then
        selfP.withChildren
          (selfP.children.set i (Pattern.update fuel child (newP.withBounds nb)))
      else selfP
    | some (i, _) =>
      let child := selfP.children.getD i default
      let child2 := ubNode fuel child newP.bounds
      let newP2 :=
        if !(child2.bounds == newP.bounds) then
          newP.withChildren (newP.children ++ [child2])
        else newP.withChildren (newP.children ++ child2.children)
      let cs2 := swapRemove (selfP.children.set i child2) i
      let res := absorbLoop fuel (cs2.length + 1) newP2 cs2 i
      selfP.withChildren (res.2 ++ [res.1])

/-- Pointwise inclusion of one `Hands` in another (the relation used by
`Pattern::is_subset_of`): every card of `sub` is in the corresponding hand
of `sup`. -/
def handsIncl (sup sub : Hands) : Bool :=
  (sup.hand WEST).includeCards (sub.hand WEST) &&
  (sup.hand NORTH).includeCards (sub.hand NORTH) &&
  (sup.hand EAST).includeCards (sub.hand EAST) &&
  (sup.hand SOUTH).includeCards (sub.hand SOUTH)

/-- The hands invariant of the pattern tree: every child's hands include
(are a superset of) its parent's hands, seat by seat, recursively. -/
inductive SupersetInv : Pattern → Prop where
  | node (h : Hands) (b : Bounds) (cs : List Pattern)
      (hsub : ∀ c ∈ cs, handsIncl c.hands h = true)
      (hrec : ∀ c ∈ cs, SupersetInv c) : SupersetInv (.mk h b cs)

/-- Pattern trees reachable from the empty root (`Pattern::default`, as
held by a freshly reset `ShapeEntry`) by `Pattern::update` calls with
freshly constructed (childless) patterns, as the search performs them. -/
inductive ReachableP : Pattern → Prop where
  | root : ReachableP (.mk Hands.empty ⟨0, 13⟩ [])
  | step (t : Pattern) (fuel : Nat) (h : Hands) (b : Bounds) :
      ReachableP t → ReachableP (Pattern.update fuel t (Pattern.new h b))

/-- `Pattern::get_rank_winners`: unpack the relative cards of the pattern
back into actual cards per suit. -/
def Pattern.getRankWinners (p : Pattern) (allCards : Cards) : Cards :=
  let relativeRankWinners := p.hands.allCards
  (List.range NUM_SUITS).foldl (fun rw suit =>
    let relSuit := relativeRankWinners.suit suit
    if relSuit.isEmpty then rw
    else
      let packed := relSuit.value >>> (suit * NUM_RANKS)
      let unpacked := unpack_bits packed (allCards.suit suit).value
      rw.union ⟨unpacked⟩) ⟨0⟩

/-- `RelativeHands`: hands compressed per suit against the remaining cards. -/
structure RelativeHands where
  hands : Hands
deriving DecidableEq, Repr

instance : Inhabited RelativeHands := ⟨⟨Hands.empty⟩⟩

/-- `RelativeHands::convert_suit`. -/
def RelativeHands.convertSuit (rh : RelativeHands) (h : Hands) (suit : Nat)
    (allSuitCards : Cards) : RelativeHands :=
  ⟨(List.range NUM_SEATS).foldl (fun acc seat =>
      let handSuit := (h.hand seat).suit suit
      let packed := pack_bits handSuit.value allSuitCards.value
      let cleared := (acc.hand seat).clearSuit suit
      acc.setHand seat (cleared.union ⟨packed <<< (suit * NUM_RANKS)⟩)) rh.hands⟩

/-- `RelativeHands::compute`. -/
def RelativeHands.compute (rh : RelativeHands) (h : Hands) (allCards : Cards) : RelativeHands :=
  (List.range NUM_SUITS).foldl (fun acc suit =>
    acc.convertSuit h suit (allCards.suit suit)) rh

/-- Loop of `RelativeHands::update` (recomputes each changed suit). -/
def RelativeHands.updateAux : Nat → RelativeHands → Hands → Cards → Cards → RelativeHands
  | 0, rh, _, _, _ => rh
  | fuel + 1, rh, h, remaining, newAll =>
    if remaining.isEmpty then rh
    else
      let card := remaining.top
      let suit := suit_of card
      RelativeHands.updateAux fuel (rh.convertSuit h suit (newAll.suit suit)) h
        (remaining.clearSuit suit) newAll

/-- `RelativeHands::update`. -/
def RelativeHands.update (rh : RelativeHands) (h : Hands) (prevAll newAll : Cards) :
    RelativeHands :=
  RelativeHands.updateAux 64 rh h (prevAll.different newAll) newAll

/-- `u64::trailing_ones`. -/
def trailingOnes64 (n : Nat) : Nat := trailingZeros64 (mask64 ^^^ n)

/-- `relative_card_in_suit` (pattern.rs). -/
def relative_card_in_suit (card : Nat) (allSuitCards : Cards) : Nat :=
  card_of (suit_of card) (ACE - (allSuitCards.slice 0 card).size)

/-- The seat loop of `compute_pattern_hands` (first seat whose relative hand
holds the relative bottom winner; extends it over touching cards). -/
def cphFindSeat (relativeHands : Hands) (suit relBottom : Nat) : List Nat → Nat
  | [] => relBottom
  | seat :: rest =>
    let relHand := (relativeHands.hand seat).suit suit
    if relHand.hasCard relBottom then
      let suitValue := relHand.value >>> (suit * NUM_RANKS)
      let shift := relBottom - suit * NUM_RANKS + 1
      let arb1 :=
        if shift < 64 then relBottom + trailingOnes64 (suitValue >>> shift) else relBottom
      let allRel := relativeHands.allCards.suit suit
      if arb1 = allRel.bottom then
        let idx := arb1 - suit * NUM_RANKS
        if 0 < idx then
          let below := suitValue &&& ((1 <<< idx) - 1)
          arb1 - (64 - leadingZeros64 below)
        else arb1
      else arb1
    else cphFindSeat relativeHands suit relBottom rest

/-- `compute_pattern_hands`: filter relative hands down to rank-relevant
cards; returns the pattern hands and the extended actual rank winners. -/
def compute_pattern_hands (relativeHands : Hands) (allCards rankWinners : Cards) :
    Hands × Cards :=
  let acc := (List.range NUM_SUITS).foldl (fun (acc : Cards × Cards) suit =>
    let rwSuit := rankWinners.suit suit
    if rwSuit.isEmpty then acc
    else
      let bottomWinner := rwSuit.bottom
      let relBottom := relative_card_in_suit bottomWinner (allCards.suit suit)
      let arb := cphFindSeat relativeHands suit relBottom [0, 1, 2, 3]
      let relWinners := (Cards.fromBits (mask_of suit)).slice 0 (arb + 1)
      let packed := relWinners.value >>> (suit * NUM_RANKS)
      let unpacked := unpack_bits packed (allCards.suit suit).value
      (acc.1.union relWinners, acc.2.union ⟨unpacked⟩)) (⟨0⟩, ⟨0⟩)
  let patternHands := (List.range NUM_SEATS).foldl (fun (ph : Hands) seat =>
    ph.setHand seat ((relativeHands.hand seat).intersect acc.1)) Hands.empty
  (patternHands, acc.2)

/-- `ShapeEntry`: hash key plus root pattern. -/
structure ShapeEntry where
  hash : Nat
  pattern : Pattern

instance : Inhabited ShapeEntry := ⟨⟨0, default⟩⟩

/-- `ShapeEntry::reset`. -/
def ShapeEntry.reset (hash : Nat) : ShapeEntry := ⟨hash, default⟩

/-- `ShapeEntry::lookup`: root pattern first, then the children. -/
def ShapeEntry.lookup (fuel : Nat) (e : ShapeEntry) (newP : Pattern) (beta : Int) :
    Option (Hands × Bounds) :=
  if e.pattern.bounds.cutoff beta && newP.isSubsetOf e.pattern then
    some (e.pattern.hands, e.pattern.bounds)
  else
    match e.pattern.lookup fuel newP beta with
    | some matched => some (matched.hands, matched.bounds)
    | none => none

/-- Hash constants (`hash_rand`). -/
def HASH_RAND0 : Nat := 0x9b8b4567327b23c7
def HASH_RAND1 : Nat := 0x643c986966334873

/-- `PatternCache`: direct-mapped table of shape entries. -/
structure PatternCacheS where
  entries : List ShapeEntry
  mask : Nat

/-- `PatternCache::new(bits)`. -/
def PatternCacheS.new (bits : Nat) : PatternCacheS :=
  ⟨List.replicate (2 ^ bits) default, 2 ^ bits - 1⟩

/-- `PatternCache::hash`. -/
def PatternCacheS.hash (shape seat : Nat) : Nat :=
  (((shape + HASH_RAND0) % 2 ^ 64) * ((seat + HASH_RAND1) % 2 ^ 64)) % 2 ^ 64

/-- `PatternCache::index`: top bits of the hash. -/
def PatternCacheS.index (pc : PatternCacheS) (hash : Nat) : Nat :=
  (hash >>> (64 - trailingZeros64 (pc.mask + 1))) &&& pc.mask

/-- `PatternCache::lookup`. -/
def PatternCacheS.lookup (pc : PatternCacheS) (shape seat : Nat) : Option ShapeEntry :=
  let hash := PatternCacheS.hash shape seat
  let entry := pc.entries.getD (pc.index hash) default
  if entry.hash == hash then some entry else none

/-- `PatternCache::get_or_create`: the slot index, with the entry reset on a
key mismatch (collision replacement is unconditional). -/
def PatternCacheS.getOrCreate (pc : PatternCacheS) (shape seat : Nat) : Nat × PatternCacheS :=
  let hash := PatternCacheS.hash shape seat
  let idx := pc.index hash
  let entry := pc.entries.getD idx default
  if entry.hash != hash then (idx, ⟨pc.entries.set idx (ShapeEntry.reset hash), pc.mask⟩)
  else (idx, pc)

/-! ### search.rs : cutoff cache -/

/-- `CutoffEntry`: hash plus four per-seat best-card slots (255 = empty). -/
structure CutoffEntry where
  hash : Nat
  card : List Nat
deriving DecidableEq, Repr

def cutoffEntryDefault : CutoffEntry := ⟨0, [255, 255, 255, 255]⟩

instance : Inhabited CutoffEntry := ⟨cutoffEntryDefault⟩

/-- `CutoffCache`: linear-probing hash table. -/
structure CutoffCacheS where
  entries : List CutoffEntry
  bits : Nat
  mask : Nat
  probeDistance : Nat
  loadCount : Nat

/-- `CutoffCache::new(bits)`. -/
def CutoffCacheS.new (bits : Nat) : CutoffCacheS :=
  ⟨List.replicate (2 ^ bits) cutoffEntryDefault, bits, 2 ^ bits - 1, 0, 0⟩

/-- `CutoffCache::index`: hash >> (64 - bits). -/
def CutoffCacheS.index (c : CutoffCacheS) (hash : Nat) : Nat := hash >>> (64 - c.bits)

/-- Probe loop of `CutoffCache::lookup` (`for d in 0..probe_distance`). -/
def cutoffLookupAux (entries : List CutoffEntry) (mask base hash seat : Nat) :
    Nat → Nat → Option Nat
  | 0, _ => none
  | rem + 1, d =>
    let entry := entries.getD ((base + d) &&& mask) cutoffEntryDefault
    if entry.hash == hash then
      if entry.card.getD seat 255 ≠ 255 then some (entry.card.getD seat 255) else none
    else if entry.hash == 0 then none
    else cutoffLookupAux entries mask base hash seat rem (d + 1)

/-- `CutoffCache::lookup`. -/
def CutoffCacheS.lookup (c : CutoffCacheS) (hash seat : Nat) : Option Nat :=
  cutoffLookupAux c.entries c.mask (c.index hash) hash seat c.probeDistance 0

/-- Probe loop of `CutoffCache::store` (`for d in 0..`; an empty slot exists
because the table is resized at 75% load). -/
def cutoffStoreAux (hash seat card base : Nat) : Nat → Nat → CutoffCacheS → CutoffCacheS
  | 0, _, c => c
  | rem + 1, d, c =>
    let idx := (base + d) &&& c.mask
    let entry := c.entries.getD idx cutoffEntryDefault
    if entry.hash == hash then
      { c with entries := c.entries.set idx { entry with card := entry.card.set seat card } }
    else if entry.hash == 0 then
      { c with
        probeDistance := max c.probeDistance (d + 1)
        loadCount := c.loadCount + 1
        entries := c.entries.set idx ⟨hash, ([255, 255, 255, 255].set seat card)⟩ }
    else cutoffStoreAux hash seat card base rem (d + 1) c

/-- `CutoffCache::store`, including `resize` (re-inserting every set slot of
the old table); the fuel bounds the resize chain. -/
def cutoffStore : Nat → CutoffCacheS → Nat → Nat → Nat → CutoffCacheS
  | 0, c, _, _, _ => c
  | fuel + 1, c, hash, seat, card =>
    let size := c.mask + 1
    let c1 :=
      if size * 3 / 4 ≤ c.loadCount then
        c.entries.foldl (fun acc entry =>
          if entry.hash ≠ 0 then
            (List.range 4).foldl (fun acc2 seat2 =>
              let cd := entry.card.getD seat2 255
              if cd ≠ 255 then cutoffStore fuel acc2 entry.hash seat2 cd else acc2) acc
          else acc) (CutoffCacheS.new (c.bits + 1))
      else c
    cutoffStoreAux hash seat card (c1.index hash) (c1.mask + 2) 0 c1

/-! ### bridge_solver.rs : move ordering

`OrderedCards` (a fixed 13-slot array plus count in Rust) is modelled as a
`List Nat` with `add` appending at the end.
-/

/-- `OrderedCards::add_reversed`: emit from bottom (lowest rank) upwards. -/
def toListRevAux : Nat → Nat → List Nat
  | 0, _ => []
  | fuel + 1, bits =>
    if bits = 0 then []
    else
      let c := Cards.bottom ⟨bits⟩
      c :: toListRevAux fuel (Cards.remove ⟨bits⟩ c).bits

def Cards.toListRev (c : Cards) : List Nat := toListRevAux 64 c.bits

/-- Stable insertion (descending by suit length) used by `add_discards`'
`sort_by(|a, b| b.1.cmp(&a.1))` (slice sort is stable). -/
def insertDesc (x : Nat × Nat) : List (Nat × Nat) → List (Nat × Nat)
  | [] => [x]
  | y :: rest => if x.2 ≤ y.2 then y :: insertDesc x rest else x :: y :: rest

def sortDesc (l : List (Nat × Nat)) : List (Nat × Nat) :=
  l.foldl (fun acc x => insertDesc x acc) []

/-- `add_discards`: bottom card of each non-trump suit, longest suits
first, then the remaining cards. -/
def addDiscards (ordered : List Nat) (playable : Cards) (trump : Nat) : List Nat :=
  let step := (List.range 4).foldl (fun (acc : List (Nat × Nat) × Cards) suit =>
    if suit = trump then acc
    else
      let suitCards := acc.2.suit suit
      if suitCards.isEmpty then acc
      else
        let bottom := suitCards.bottom
        let remainingInSuit := (acc.2.suit suit).size
        (acc.1 ++ [(bottom, remainingInSuit)], acc.2.remove bottom)) ([], playable)
  (ordered ++ (sortDesc step.1).map (fun d => d.1)) ++ step.2.toList

/-- The per-suit classification accumulator of `order_leads`. -/
structure LeadAcc where
  ruff : Cards
  good : Cards
  high : Cards
  normal : Cards
  bad : Cards
  trumpLeads : Cards

/-- One suit of `order_leads`' classification loop. -/
def orderLeadsSuit (playable : Cards) (hands : Hands) (seat trump : Nat)
    (allCards : Cards) (acc : LeadAcc) (suit : Nat) : LeadAcc :=
  let pdHand := hands.hand (partner seat)
  let lhoHand := hands.hand (left_hand_opp seat)
  let rhoHand := hands.hand (right_hand_opp seat)
  let partnershipCards := (hands.hand seat).union pdHand
  let isSuitContract := trump < NOTRUMP
  let mySuit := playable.suit suit
  if mySuit.isEmpty then acc
  else if isSuitContract && (suit == trump) then
    let t1 := acc.trumpLeads.add mySuit.top
    { acc with trumpLeads := if 1 < mySuit.size then t1.add mySuit.bottom else t1 }
  else if isSuitContract &&
      ((0 < (lhoHand.suit trump).size && (lhoHand.suit suit).isEmpty) ||
       (0 < (rhoHand.suit trump).size && (rhoHand.suit suit).isEmpty)) then
    acc
  else
    let pdSuit := pdHand.suit suit
    let lhoSuit := lhoHand.suit suit
    let rhoSuit := rhoHand.suit suit
    let allSuit := allCards.suit suit
    if allSuit.isEmpty then acc
    else
      let a := allSuit.top
      let allMinusA := allSuit.different ⟨1 <<< a⟩
      let k := if !allMinusA.isEmpty then allMinusA.top else a
      let allMinusAk := allMinusA.different ⟨1 <<< k⟩
      let q := if !allMinusAk.isEmpty then allMinusAk.top else k
      let allMinusAkq := allMinusAk.different ⟨1 <<< q⟩
      let j := if !allMinusAkq.isEmpty then allMinusAkq.top else q
      let allMinusAkqj := allMinusAkq.different ⟨1 <<< j⟩
      let t := if !allMinusAkqj.isEmpty then allMinusAkqj.top else j
      let ourSuits := mySuit.union pdSuit
      let qj := (Cards.fromBits 0).add q |>.add j
      let jt := (Cards.fromBits 0).add j |>.add t
      if 2 ≤ pdSuit.size && 2 ≤ lhoSuit.size &&
          ((pdSuit.hasCard k && lhoSuit.hasCard a) ||
           (pdSuit.hasCard a && lhoSuit.hasCard k &&
             (pdSuit.hasCard q || ourSuits.includeCards qj)) ||
           (pdSuit.hasCard k && lhoSuit.hasCard q &&
             (pdSuit.hasCard j || ourSuits.includeCards jt))) then
        let g1 := acc.good.add mySuit.top
        { acc with good := if 1 < mySuit.size then g1.add mySuit.bottom else g1 }
      else if 2 ≤ mySuit.size && 2 ≤ rhoSuit.size &&
          ((mySuit.hasCard a && rhoSuit.hasCard k) ||
           (mySuit.hasCard k && rhoSuit.hasCard a && !partnershipCards.hasCard q)) then
        if isSuitContract then
          let b1 := acc.bad.add mySuit.top
          { acc with bad := if 1 < mySuit.size then b1.add mySuit.bottom else b1 }
        else acc
      else
        let akq := ((Cards.fromBits 0).add a).add k |>.add q
        if !lhoSuit.isEmpty && !rhoSuit.isEmpty &&
            2 ≤ (partnershipCards.intersect akq).size then
          let h1 := acc.high.add mySuit.top
          { acc with high := if 1 < mySuit.size then h1.add mySuit.bottom else h1 }
        else if isSuitContract && pdSuit.isEmpty && !lhoSuit.isEmpty && !rhoSuit.isEmpty &&
            0 < (pdHand.suit trump).size &&
            (pdHand.suit trump).size ≤ (playable.suit trump).size &&
            mySuit.bottom ≠ a then
          { acc with ruff := acc.ruff.add mySuit.bottom }
        else
          let n1 := acc.normal.add mySuit.top
          { acc with normal := if 1 < mySuit.size then n1.add mySuit.bottom else n1 }

/-- `order_leads`. -/
def order_leads (playable : Cards) (hands : Hands) (seat trump : Nat)
    (allCards : Cards) : List Nat :=
  let isSuitContract := trump < NOTRUMP
  let acc := (List.range NUM_SUITS).foldl
    (orderLeadsSuit playable hands seat trump allCards)
    ⟨⟨0⟩, ⟨0⟩, ⟨0⟩, ⟨0⟩, ⟨0⟩, ⟨0⟩⟩
  let ordered0 : List Nat := []
  let remaining0 := playable
  let (ordered1, remaining1) :=
    if isSuitContract then (ordered0 ++ acc.ruff.toList, remaining0.removeCards acc.ruff)
    else (ordered0, remaining0)
  let ordered2 := ordered1 ++ acc.good.toList
  let remaining2 := remaining1.removeCards acc.good
  let ordered3 := ordered2 ++ acc.high.toList
  let remaining3 := remaining2.removeCards acc.high
  let ordered4 := ordered3 ++ acc.normal.toList
  let remaining4 := remaining3.removeCards acc.normal
  let (ordered5, remaining5) :=
    if isSuitContract then
      (ordered4 ++ acc.bad.toList ++ acc.trumpLeads.toList,
       (remaining4.removeCards acc.bad).removeCards acc.trumpLeads)
    else (ordered4, remaining4)
  ordered5 ++ remaining5.toList

/-- `order_follows`. -/
def order_follows (playable : Cards) (hands : Hands)
    (seat trump leadSuit winningSeat winningCard cardInTrick : Nat)
    (winsOver : Nat → Nat → Bool) : List Nat :=
  let pdSuit := (hands.hand (partner seat)).suit leadSuit
  let lhoSuit := (hands.hand (left_hand_opp seat)).suit leadSuit
  let trickEnding := cardInTrick == 3
  let secondSeat := cardInTrick == 1
  let mySuit := playable.suit leadSuit
  if !mySuit.isEmpty then
    -- Following suit.
    if !winsOver mySuit.top winningCard then playable.toListRev
    else if winningSeat == partner seat &&
        (trickEnding || lhoSuit.isEmpty || higher_rank winningCard lhoSuit.top ||
         (lhoSuit.slice 0 winningCard).bits == (lhoSuit.slice 0 mySuit.top).bits) then
      playable.toListRev
    else if secondSeat && !pdSuit.isEmpty && higher_rank pdSuit.top winningCard &&
        (let combined := pdSuit.union mySuit
         (!lhoSuit.isEmpty && higher_rank lhoSuit.top combined.top &&
            (lhoSuit.slice 0 pdSuit.top).bits == (lhoSuit.slice 0 mySuit.top).bits) ||
         (lhoSuit.isEmpty || higher_rank pdSuit.top lhoSuit.top)) then
      playable.toListRev
    else
      let higherCards := mySuit.slice 0 winningCard
      let lowerCards := mySuit.different higherCards
      let part1 :=
        if trickEnding || lhoSuit.isEmpty || higher_rank higherCards.bottom lhoSuit.top then
          higherCards.toListRev
        else higherCards.toList
      part1 ++ lowerCards.toListRev
  else
    -- Ruff or discard.
    let isSuitContract := trump < NOTRUMP
    let myTrumps := if isSuitContract then playable.suit trump else ⟨0⟩
    if !myTrumps.isEmpty then
      let lhoHasTrumps := !((hands.hand (left_hand_opp seat)).suit trump).isEmpty
      let partnerWinning := winningSeat == partner seat
      if partnerWinning &&
          (trickEnding || (!lhoSuit.isEmpty && winsOver winningCard lhoSuit.top)) then
        addDiscards [] playable trump
      else if suit_of winningCard == trump then
        if winningSeat ≠ partner seat && winsOver myTrumps.top winningCard then
          let higherTrumps := myTrumps.slice myTrumps.top winningCard
          addDiscards higherTrumps.toListRev (playable.different higherTrumps) trump
        else addDiscards [] playable trump
      else if trickEnding || !lhoSuit.isEmpty || !lhoHasTrumps then
        addDiscards [myTrumps.bottom] (playable.different ⟨1 <<< myTrumps.bottom⟩) trump
      else addDiscards myTrumps.toListRev (playable.different myTrumps) trump
    else addDiscards [] playable trump

/-! ### play.rs and search.rs : search state and pure helpers -/

/-- `get_playable_cards`: must follow suit if possible. -/
def get_playable_cards (hands : Hands) (seat : Nat) (leadSuit : Option Nat) : Cards :=
  let hand := hands.hand seat
  match leadSuit with
  | some suit =>
    let suitCards := hand.suit suit
    if !suitCards.isEmpty then suitCards else hand
  | none => hand

/-- `SearchResult`. -/
structure SearchResultS where
  nsTricks : Nat
  rankWinners : Cards
deriving Repr

/-- `PlayState` (per-depth state). -/
structure PlayState where
  nsTricksWon : Nat
  seatToPlay : Nat
  cardPlayed : Nat
  winningPlay : Nat
deriving Repr

def PlayState.init : PlayState := ⟨0, 0, 0, 0⟩

/-- `Trick` (per-trick state). -/
structure Trick where
  allCards : Cards
  leadSuit : Nat
  shape : Shape
  relativeHands : RelativeHands
deriving Repr

def Trick.init : Trick := ⟨⟨0⟩, 0, ⟨0⟩, ⟨Hands.empty⟩⟩

/-- The `Search` engine state: hands (mutated in place by play/unplay), the
per-depth and per-trick arrays (modelled as total functions), both caches,
the node counter, and the three debug toggles (process-wide atomics in
Rust, explicit state here). -/
structure SearchState where
  hands : Hands
  trump : Nat
  numTricks : Nat
  plays : List PlayState
  tricks : List Trick
  cutoffCache : CutoffCacheS
  patternCache : PatternCacheS
  startDepth : Nat
  nodeCount : Nat
  noPruning : Bool
  noTT : Bool
  noRankSkip : Bool

/-- `plays[i]` (arrays modelled as lists; the engine indexes in range). -/
def SearchState.play (st : SearchState) (i : Nat) : PlayState := st.plays.getD i PlayState.init

/-- `tricks[i]`. -/
def SearchState.trick (st : SearchState) (i : Nat) : Trick := st.tricks.getD i Trick.init

/-- `hash_cutoff_index` (wrapping u64 arithmetic). -/
def hash_cutoff_index (key0 key1 : Nat) : Nat :=
  (((key0 + HASH_RAND0) % 2 ^ 64) * ((key1 + HASH_RAND1) % 2 ^ 64)) % 2 ^ 64

/-- `build_cutoff_index_debug`: (hash, key0, key1). -/
def build_cutoff_index (hands : Hands)
    (seatToPlay cardInTrick leadSuit winningCard winningSeat trump : Nat)
    (allCards : Cards) : Nat × Nat × Nat :=
  let kk : Nat × Nat :=
    if cardInTrick = 0 then ((hands.hand seatToPlay).value, 0)
    else if !((hands.hand seatToPlay).suit leadSuit).isEmpty then
      ((allCards.suit leadSuit).value, 1 <<< winningCard)
    else if trump = NOTRUMP then ((hands.hand seatToPlay).value, 1 <<< winningSeat)
    else ((hands.hand seatToPlay).value, 1 <<< winningCard)
  let key1 := kk.2 ||| (1 <<< (TOTAL_CARDS + cardInTrick))
  (hash_cutoff_index kk.1 key1, kk.1, key1)

/-- `Search::wins_over` (the `_lead_suit` argument is unused in Rust). -/
def winsOverT (trump c1 c2 : Nat) : Bool :=
  if suit_of c1 = suit_of c2 then higher_rank c1 c2
  else if trump < NOTRUMP && suit_of c1 == trump then true
  else false

/-- `Search::collect_last_trick`. -/
def collectLastTrick (st : SearchState) (depth : Nat) : SearchResultS :=
  let nsTricksWon := (st.play depth).nsTricksWon
  let seatToPlay := (st.play depth).seatToPlay
  let start : Nat × Nat := ((st.hands.hand seatToPlay).top, seatToPlay)
  let win := [1, 2, 3].foldl (fun (w : Nat × Nat) i =>
    let seat := (seatToPlay + i) % NUM_SEATS
    let card := (st.hands.hand seat).top
    if winsOverT st.trump card w.1 then (card, seat) else w) start
  let nsTricks := if is_ns win.2 then nsTricksWon + 1 else nsTricksWon
  let winningSuit := suit_of win.1
  let hasSameSuit := [0, 1, 2, 3].any (fun i =>
    let seat := (seatToPlay + i) % NUM_SEATS
    let card := (st.hands.hand seat).top
    card ≠ win.1 && suit_of card == winningSuit)
  ⟨nsTricks, if hasSameSuit then (Cards.fromBits 0).add win.1 else ⟨0⟩⟩

/-- `Search::is_equivalent`. -/
def isEquivalent (card : Nat) (triedSuit myHand allCards : Cards) : Bool :=
  if triedSuit.isEmpty then false
  else
    let suit := suit_of card
    let allSuit := allCards.suit suit
    let mySuit := myHand.suit suit
    let above := triedSuit.slice 0 card
    let fromAbove :=
      if !above.isEmpty then
        let closestAbove := above.bottom
        (allSuit.slice (closestAbove + 1) card).bits ==
          (mySuit.slice (closestAbove + 1) card).bits
      else false
    if fromAbove then true
    else
      let below := triedSuit.slice (card + 1) (NUM_SUITS * NUM_RANKS)
      if !below.isEmpty then
        let closestBelow := below.top
        (allSuit.slice (card + 1) closestBelow).bits ==
          (mySuit.slice (card + 1) closestBelow).bits
      else false

/-- `Search::suit_fast_tricks` (pd_entry passed by value; returns the
tricks and the updated flag). -/
def suit_fast_tricks (mySuit : Cards) (myWinners : Nat) (pdSuit : Cards)
    (pdWinners : Nat) (pdEntry : Bool) : Nat × Bool :=
  let pdEntry2 :=
    if !pdSuit.isEmpty && decide (0 < myWinners) && higher_rank mySuit.top pdSuit.bottom
    then true else pdEntry
  if pdWinners = 0 then (myWinners, pdEntry2)
  else if myWinners = 0 then (if !mySuit.isEmpty then pdWinners else 0, pdEntry2)
  else if !pdSuit.isEmpty && lower_rank mySuit.top pdSuit.bottom then (pdWinners, pdEntry2)
  else if !pdSuit.isEmpty && higher_rank mySuit.bottom pdSuit.top then (myWinners, pdEntry2)
  else
    let adjustedPdWinners :=
      if pdWinners = pdSuit.size && 0 < pdWinners then pdWinners - 1 else pdWinners
    (min mySuit.size (myWinners + adjustedPdWinners), pdEntry2)

/-- Consecutive-top-trump counting loop (with break), shared by the
our-side and opponent top-trump estimators. -/
def topTrumpLoop (both : Cards) (maxT : Nat) : List Nat → Nat → Cards → Nat × Cards
  | [], sure, rw => (sure, rw)
  | card :: rest, sure, rw =>
    if both.hasCard card && decide (sure < maxT) then
      topTrumpLoop both maxT rest (sure + 1) (rw.add card)
    else (sure, rw)

/-- `Search::top_trump_tricks_our_side`. -/
def topTrumpTricksOurSide (st : SearchState) (seat : Nat) (allCards : Cards) : Nat × Cards :=
  let myTrumps := (st.hands.hand seat).suit st.trump
  let pdTrumps := (st.hands.hand (partner seat)).suit st.trump
  let allTrumps := allCards.suit st.trump
  if myTrumps.bits = allTrumps.bits then (myTrumps.size, ⟨0⟩)
  else if pdTrumps.bits = allTrumps.bits then (pdTrumps.size, ⟨0⟩)
  else
    let bothTrumps := myTrumps.union pdTrumps
    let maxTrumpTricks := max myTrumps.size pdTrumps.size
    topTrumpLoop bothTrumps maxTrumpTricks allTrumps.toList 0 ⟨0⟩

/-- While loops truncating a suit holding to `max_suit_winners`. -/
def truncateTo : Nat → Cards → Nat → Cards
  | 0, c, _ => c
  | fuel + 1, c, maxW =>
    if maxW < c.size then truncateTo fuel (c.remove c.bottom) maxW else c

/-- Winner-counting loop of `fast_tricks_from_seat` (with break):
returns (my_winners, pd_winners, rank_winners, pd_rank_winners). -/
def winnersLoop (mySuit pdSuit : Cards) (myMax pdMax : Nat) :
    List Nat → Nat → Nat → Cards → Cards → Nat × Nat × Cards × Cards
  | [], myW, pdW, rw, pdRw => (myW, pdW, rw, pdRw)
  | card :: rest, myW, pdW, rw, pdRw =>
    if mySuit.hasCard card then
      winnersLoop mySuit pdSuit myMax pdMax rest (myW + 1) pdW
        (if myW + 1 ≤ myMax then rw.add card else rw) pdRw
    else if pdSuit.hasCard card then
      winnersLoop mySuit pdSuit myMax pdMax rest myW (pdW + 1) rw
        (if pdW + 1 ≤ pdMax then pdRw.add card else pdRw)
    else (myW, pdW, rw, pdRw)

/-- Accumulator of `fast_tricks_from_seat`'s suit loop. -/
structure FastAcc where
  myTricks : Nat
  pdTricks : Nat
  myEntry : Bool
  pdEntry : Bool
  rankWinners : Cards
  pdRankWinners : Cards

/-- One suit of `fast_tricks_from_seat`. -/
def fastTricksSuit (st : SearchState) (seat : Nat) (allCards : Cards)
    (acc : FastAcc) (suit : Nat) : FastAcc :=
  if st.trump < NOTRUMP && suit == st.trump then acc
  else
    let myHand := st.hands.hand seat
    let pdHand := st.hands.hand (partner seat)
    let lhoHand := st.hands.hand (left_hand_opp seat)
    let rhoHand := st.hands.hand (right_hand_opp seat)
    let mySuit0 := myHand.suit suit
    let pdSuit0 := pdHand.suit suit
    let lhoSuit := lhoHand.suit suit
    let rhoSuit := rhoHand.suit suit
    let allSuit := allCards.suit suit
    if mySuit0.isEmpty && pdSuit0.isEmpty then acc
    else
      let myMaxRankWinners := max (max pdSuit0.size lhoSuit.size) rhoSuit.size
      let pdMaxRankWinners := max (max mySuit0.size lhoSuit.size) rhoSuit.size
      let (mySuit, pdSuit) :=
        if st.trump < NOTRUMP then
          let m0 := st.numTricks
          let m1 := if !((lhoHand.suit st.trump).isEmpty) then lhoSuit.size else m0
          let m2 := if !((rhoHand.suit st.trump).isEmpty) then min m1 rhoSuit.size else m1
          (truncateTo 64 mySuit0 m2, truncateTo 64 pdSuit0 m2)
        else (mySuit0, pdSuit0)
      let wl := winnersLoop mySuit pdSuit myMaxRankWinners pdMaxRankWinners
        allSuit.toList 0 0 acc.rankWinners acc.pdRankWinners
      let myW := wl.1
      let pdW := wl.2.1
      let t1 := suit_fast_tricks mySuit myW pdSuit pdW acc.myEntry
      let t2 := suit_fast_tricks pdSuit pdW mySuit myW acc.pdEntry
      { myTricks := acc.myTricks + t1.1
        pdTricks := acc.pdTricks + t2.1
        myEntry := t1.2
        pdEntry := t2.2
        rankWinners := wl.2.2.1
        pdRankWinners := wl.2.2.2 }

/-- `Search::fast_tricks_from_seat`. -/
def fastTricksFromSeat (st : SearchState) (seat : Nat) (allCards : Cards) : Nat × Cards :=
  let trumpPart : Nat × Cards :=
    if st.trump < NOTRUMP then topTrumpTricksOurSide st seat allCards else (0, ⟨0⟩)
  let acc0 : FastAcc := ⟨0, 0, false, false, trumpPart.2, ⟨0⟩⟩
  let acc := (List.range NUM_SUITS).foldl (fastTricksSuit st seat allCards) acc0
  let (sideSuitTricks, rankWinners) :=
    if acc.pdEntry then (max acc.myTricks acc.pdTricks, acc.rankWinners.union acc.pdRankWinners)
    else (acc.myTricks, acc.rankWinners)
  (min (trumpPart.1 + sideSuitTricks) (st.hands.hand seat).size, rankWinners)

/-- `Search::fast_tricks`. -/
def fastTricks (st : SearchState) (depth : Nat) : Nat × Cards :=
  let seatToPlay := (st.play depth).seatToPlay
  let allCards := st.hands.allCards
  let trickIdx := depth / 4
  let maxTricks := st.numTricks - trickIdx
  let r := fastTricksFromSeat st seatToPlay allCards
  (min r.1 maxTricks, r.2)

/-- `Search::top_trump_tricks_opponent`. -/
def topTrumpTricksOpponent (st : SearchState) (depth : Nat) : Nat × Cards :=
  let seatToPlay := (st.play depth).seatToPlay
  let lhoTrumps := (st.hands.hand (left_hand_opp seatToPlay)).suit st.trump
  let rhoTrumps := (st.hands.hand (right_hand_opp seatToPlay)).suit st.trump
  let allTrumps := st.hands.allCards.suit st.trump
  if lhoTrumps.bits = allTrumps.bits then (lhoTrumps.size, ⟨0⟩)
  else if rhoTrumps.bits = allTrumps.bits then (rhoTrumps.size, ⟨0⟩)
  else
    let bothTrumps := lhoTrumps.union rhoTrumps
    let maxTrumpTricks := max lhoTrumps.size rhoTrumps.size
    topTrumpLoop bothTrumps maxTrumpTricks allTrumps.toList 0 ⟨0⟩

/-- `Search::slow_trump_tricks_opponent` (the member version; `leading` is
false at its only call site).  The "KQ behind A" pattern is elided in the
C++ reference by a boolean coercion bug; the Rust port keeps it elided, as
does this model. -/
def slowTrumpTricksOpponent (st : SearchState) (depth : Nat) : Nat × Cards :=
  let seatToPlay := (st.play depth).seatToPlay
  let allTrumps := st.hands.allCards.suit st.trump
  if allTrumps.size < 3 then (0, ⟨0⟩)
  else
    let myTrumps := (st.hands.hand (left_hand_opp seatToPlay)).suit st.trump
    let pdTrumps := (st.hands.hand (right_hand_opp seatToPlay)).suit st.trump
    let lhoTrumps := (st.hands.hand (partner seatToPlay)).suit st.trump
    let rhoTrumps := (st.hands.hand seatToPlay).suit st.trump
    let a := allTrumps.top
    let remaining := allTrumps.remove a
    if remaining.isEmpty then (0, ⟨0⟩)
    else
      let k := remaining.top
      let remaining2 := remaining.remove k
      let q := if !remaining2.isEmpty then remaining2.top else 64
      let numTricks := st.numTricks - depth / 4
      let akWinners := ((Cards.fromBits 0).add a).add k
      let pdHasKStrictly := pdTrumps.hasCard k && decide (1 < pdTrumps.size)
      let myHasKStrictly := myTrumps.hasCard k && decide (1 < myTrumps.size)
      let leading := false
      if (pdHasKStrictly && lhoTrumps.hasCard a) ||
          (myHasKStrictly && rhoTrumps.hasCard a && (!leading || decide (3 ≤ numTricks))) then
        (1, akWinners)
      else if decide (q < 64) && decide (5 ≤ allTrumps.size) then
        let akqWinners := akWinners.add q
        let pdHasQWithLength := pdTrumps.hasCard q && decide (3 ≤ pdTrumps.size)
        let myHasQWithLength := myTrumps.hasCard q && decide (3 ≤ myTrumps.size)
        let lhoHasAk := lhoTrumps.hasCard a && lhoTrumps.hasCard k
        let rhoHasAk := rhoTrumps.hasCard a && rhoTrumps.hasCard k
        if (pdHasQWithLength && lhoHasAk) ||
            (myHasQWithLength && rhoHasAk && (!leading || decide (4 ≤ numTricks))) then
          (1, akqWinners)
        else (0, ⟨0⟩)
      else (0, ⟨0⟩)

/-- The per-suit loop of `slow_tricks_opponent` (`none` = the early return
when the playing side holds a suit's top card). -/
def slowNTLoop (myHand : Cards) (mySideCards : Cards) (allCards : Cards) :
    List Nat → Cards → Option Cards
  | [], rw => some rw
  | suit :: rest, rw =>
    if (myHand.suit suit).isEmpty then slowNTLoop myHand mySideCards allCards rest rw
    else
      let allSuit := allCards.suit suit
      if allSuit.isEmpty then slowNTLoop myHand mySideCards allCards rest rw
      else
        let top := allSuit.top
        if mySideCards.hasCard top then none
        else slowNTLoop myHand mySideCards allCards rest (rw.add top)

/-- `Search::slow_tricks_opponent` (the NT estimator). -/
def slowTricksOpponent (st : SearchState) (depth : Nat) : Nat × Cards :=
  let seatToPlay := (st.play depth).seatToPlay
  let lhoHand := st.hands.hand (left_hand_opp seatToPlay)
  let rhoHand := st.hands.hand (right_hand_opp seatToPlay)
  let myHand := st.hands.hand seatToPlay
  let pdHand := st.hands.hand (partner seatToPlay)
  let mySideCards := myHand.union pdHand
  let allCards := st.hands.allCards
  match slowNTLoop myHand mySideCards allCards [0, 1, 2, 3] ⟨0⟩ with
  | none => (0, ⟨0⟩)
  | some rankWinners =>
    if rankWinners.isEmpty then (0, ⟨0⟩)
    else if lhoHand.includeCards rankWinners || rhoHand.includeCards rankWinners then
      (rankWinners.size, rankWinners)
    else (1, rankWinners)

/-! ### search.rs : the three search layers

The recursion `search_with_cache → search_at_trick_start →
evaluate_playable_cards → play_card_and_search → search_with_cache` is tied
with fuel that bounds the recursion depth (at most `4·num_tricks + 1 ≤ 53`
in any reachable position); the downstream layers take the next-depth
search as an explicit `recurse` argument.
-/

def PATTERN_FUEL : Nat := 4096
def CUTOFF_STORE_FUEL : Nat := 64

/-- `Search::order_cards_static`: dispatch to `order_leads`/`order_follows`
using the per-depth state. -/
def orderCardsStatic (st : SearchState) (depth : Nat) (playable : Cards) : List Nat :=
  let trickIdx := depth / 4
  let cardInTrick := depth % 4
  let seatToPlay := (st.play depth).seatToPlay
  let allCards := (st.trick trickIdx).allCards
  if cardInTrick = 0 then
    order_leads playable st.hands seatToPlay st.trump allCards
  else
    let leadSuit := (st.trick trickIdx).leadSuit
    let winningPlayIdx := (st.play (depth - 1)).winningPlay
    let winningSeat := (st.play winningPlayIdx).seatToPlay
    let winningCard := (st.play winningPlayIdx).cardPlayed
    let winsOver := fun c1 c2 =>
      if suit_of c1 = suit_of c2 then decide (c1 < c2)
      else if suit_of c1 == st.trump then true
      else false
    order_follows playable st.hands seatToPlay st.trump leadSuit winningSeat winningCard
      cardInTrick winsOver

/-- `Search::play_card_and_search`: record the play, remove the card from
the hand, update the winning play, recurse, accumulate the trick's rank
winner at trick end, then restore the hand. -/
def playCardAndSearch (recurse : Nat → Int → SearchState → SearchResultS × SearchState)
    (depth card : Nat) (beta : Int) (st : SearchState) : SearchResultS × SearchState :=
  let trickIdx := depth / 4
  let cardInTrick := depth % 4
  let seatToPlay := (st.play depth).seatToPlay
  let st1 := { st with plays := st.plays.set depth ({ st.play depth with cardPlayed := card }) }
  let st2 := { st1 with hands :=
        st1.hands.setHand seatToPlay ((st1.hands.hand seatToPlay).remove card) }
  let st3 :=
    if cardInTrick = 0 then
      { st2 with
        tricks := st2.tricks.set trickIdx ({ st2.trick trickIdx with leadSuit := suit_of card })
        plays := st2.plays.set depth ({ st2.play depth with winningPlay := depth }) }
    else
      let currentWinnerIdx := (st2.play (depth - 1)).winningPlay
      let currentWinnerCard := (st2.play currentWinnerIdx).cardPlayed
      if winsOverT st2.trump card currentWinnerCard then
        { st2 with plays := st2.plays.set depth ({ st2.play depth with winningPlay := depth }) }
      else
        let plays2 := st2.plays.set depth ({ st2.play depth with winningPlay := currentWinnerIdx })
        { st2 with plays := plays2 }
  let rec0 := recurse (depth + 1) beta st3
  let result := rec0.1
  let st4 := rec0.2
  let result2 :=
    if cardInTrick = 3 then
      let winningPlayIdx := (st4.play depth).winningPlay
      let winningCard := (st4.play winningPlayIdx).cardPlayed
      let winningSuit := suit_of winningCard
      let trickStart := depth - 3
      let hasSameSuit := (List.range 4).any (fun k =>
        let d := trickStart + k
        d ≠ winningPlayIdx && suit_of ((st4.play d).cardPlayed) == winningSuit)
      if hasSameSuit then { result with rankWinners := result.rankWinners.add winningCard }
      else result
    else result
  let st5 := { st4 with hands :=
        st4.hands.setHand seatToPlay ((st4.hands.hand seatToPlay).add card) }
  (result2, st5)

/-- The card loop of `Search::evaluate_playable_cards` (rank-skip,
equivalence skip, play/recurse/unplay, null-window update, cutoff store,
lazy re-ordering of the remaining playable cards). -/
def evalLoop (recurse : Nat → Int → SearchState → SearchResultS × SearchState)
    (depth : Nat) (beta : Int) (maximizing : Bool) (cutoffHash : Nat)
    (cutoffCard : Option Nat) (myHand allCards : Cards) :
    Nat → List Nat → Cards → Nat → Nat → Cards → Cards → List Nat → SearchState →
    SearchResultS × SearchState
  | 0, _, _, _, best, _, rankWinners, _, st => (⟨best, rankWinners⟩, st)
  | fuel + 1, ordered, remainingPlayable, i, best, tried, rankWinners, minRel, st =>
    if i < ordered.length then
      let card := ordered.getD i 0
      let suit := suit_of card
      let rank := rank_of card
      if !st.noRankSkip && decide (rank < minRel.getD suit 0) then
        let tried2 := tried.add card
        let op : List Nat × Cards :=
          if !remainingPlayable.isEmpty then
            (ordered ++ orderCardsStatic st depth remainingPlayable, ⟨0⟩)
          else (ordered, remainingPlayable)
        evalLoop recurse depth beta maximizing cutoffHash cutoffCard myHand allCards
          fuel op.1 op.2 (i + 1) best tried2 rankWinners minRel st
      else if isEquivalent card (tried.suit suit) myHand allCards then
        let tried2 := tried.add card
        let op : List Nat × Cards :=
          if !remainingPlayable.isEmpty then
            (ordered ++ orderCardsStatic st depth remainingPlayable, ⟨0⟩)
          else (ordered, remainingPlayable)
        evalLoop recurse depth beta maximizing cutoffHash cutoffCard myHand allCards
          fuel op.1 op.2 (i + 1) best tried2 rankWinners minRel st
      else
        let tried2 := tried.add card
        let br := playCardAndSearch recurse depth card beta st
        let score := br.1.nsTricks
        let branchRankWinners := br.1.rankWinners
        let st2 := br.2
        let best2 :=
          if maximizing then (if best < score then score else best)
          else (if score < best then score else best)
        let isCutoff :=
          if maximizing then decide ((best2 : Int) ≥ beta) else decide ((best2 : Int) < beta)
        if isCutoff then
          let st3 :=
            if cutoffCard ≠ some card && !st2.noTT then
              { st2 with cutoffCache :=
                  cutoffStore CUTOFF_STORE_FUEL st2.cutoffCache cutoffHash (st2.play depth).seatToPlay card }
            else st2
          (⟨best2, branchRankWinners⟩, st3)
        else
          let rankWinners2 := rankWinners.addCards branchRankWinners
          let suitRankWinners := branchRankWinners.suit suit
          let minRel2 :=
            if suitRankWinners.isEmpty then minRel.set suit NUM_RANKS
            else
              let bottomRank := rank_of suitRankWinners.bottom
              if rank < bottomRank then minRel.set suit (max (minRel.getD suit 0) bottomRank)
              else minRel
          let op : List Nat × Cards :=
            if !remainingPlayable.isEmpty then
              (ordered ++ orderCardsStatic st2 depth remainingPlayable, ⟨0⟩)
            else (ordered, remainingPlayable)
          evalLoop recurse depth beta maximizing cutoffHash cutoffCard myHand allCards
            fuel op.1 op.2 (i + 1) best2 tried2 rankWinners2 minRel2 st2
    else (⟨best, rankWinners⟩, st)

/-- `Search::evaluate_playable_cards`. -/
def evaluatePlayableCards (recurse : Nat → Int → SearchState → SearchResultS × SearchState)
    (depth : Nat) (beta : Int) (st0 : SearchState) : SearchResultS × SearchState :=
  let st := { st0 with nodeCount := st0.nodeCount + 1 }
  let trickIdx := depth / 4
  let cardInTrick := depth % 4
  let nsTricksWon := (st.play depth).nsTricksWon
  let seatToPlay := (st.play depth).seatToPlay
  let maximizing := is_ns seatToPlay
  let leadSuit : Option Nat :=
    if cardInTrick = 0 then none else some ((st.trick trickIdx).leadSuit)
  let playable := get_playable_cards st.hands seatToPlay leadSuit
  if playable.isEmpty then (⟨nsTricksWon, ⟨0⟩⟩, st)
  else
    let ws : Nat × Nat :=
      if 0 < cardInTrick then
        let winningPlayIdx := (st.play (depth - 1)).winningPlay
        ((st.play winningPlayIdx).cardPlayed, (st.play winningPlayIdx).seatToPlay)
      else (0, 0)
    let allCards := (st.trick trickIdx).allCards
    let bci := build_cutoff_index st.hands seatToPlay cardInTrick (leadSuit.getD 0)
      ws.1 ws.2 st.trump allCards
    let cutoffHash := bci.1
    let cutoffCard := if !st.noTT then st.cutoffCache.lookup cutoffHash seatToPlay else none
    let orc : List Nat × Cards :=
      match cutoffCard with
      | some cc =>
        if playable.hasCard cc then ([cc], playable.remove cc)
        else (orderCardsStatic st depth playable, ⟨0⟩)
      | none => (orderCardsStatic st depth playable, ⟨0⟩)
    let myHand := st.hands.hand seatToPlay
    let best0 := if maximizing then 0 else st.numTricks
    evalLoop recurse depth beta maximizing cutoffHash cutoffCard myHand allCards
      64 orc.1 orc.2 0 best0 ⟨0⟩ ⟨0⟩ [0, 0, 0, 0] st

/-- `Search::search_at_trick_start`: fast/slow-trick pruning, then the card
loop. -/
def searchAtTrickStart (recurse : Nat → Int → SearchState → SearchResultS × SearchState)
    (depth : Nat) (beta : Int) (st : SearchState) : SearchResultS × SearchState :=
  let trickIdx := depth / 4
  let nsTricksWon := (st.play depth).nsTricksWon
  let seatToPlay := (st.play depth).seatToPlay
  let remaining := st.numTricks - trickIdx
  if !st.noPruning then
    let ft := fastTricks st depth
    let fast := ft.1
    if is_ns seatToPlay && decide ((nsTricksWon + fast : Int) ≥ beta) then
      (⟨nsTricksWon + fast, ft.2⟩, st)
    else if !is_ns seatToPlay && decide (((nsTricksWon + remaining - fast : Nat) : Int) < beta) then
      (⟨nsTricksWon + remaining - fast, ft.2⟩, st)
    else
      let allCards := st.hands.allCards
      let hasTrumps := st.trump < NOTRUMP && !(allCards.suit st.trump).isEmpty
      let sl : Nat × Cards :=
        if hasTrumps then
          let top := topTrumpTricksOpponent st depth
          if 0 < top.1 then top else slowTrumpTricksOpponent st depth
        else slowTricksOpponent st depth
      let slow := sl.1
      if 0 < slow then
        if is_ns seatToPlay then
          if decide (((nsTricksWon + remaining - slow : Nat) : Int) < beta) then
            (⟨nsTricksWon + remaining - slow, sl.2⟩, st)
          else evaluatePlayableCards recurse depth beta st
        else
          if decide ((nsTricksWon + slow : Int) ≥ beta) then
            (⟨nsTricksWon + slow, sl.2⟩, st)
          else evaluatePlayableCards recurse depth beta st
      else evaluatePlayableCards recurse depth beta st
  else evaluatePlayableCards recurse depth beta st

/-- `Search::search_with_cache`: trick boundaries, early bounds, the last
trick, shape/relative-hands maintenance, and the pattern cache. -/
def searchWithCache : Nat → Nat → Int → SearchState → SearchResultS × SearchState
  | 0, _, _, st => (⟨0, ⟨0⟩⟩, st)
  | fuel + 1, depth, beta, st0 =>
    let trickIdx := depth / 4
    let cardInTrick := depth % 4
    if cardInTrick ≠ 0 then
      let prev := st0.play (depth - 1)
      let ps := { st0.play depth with
                  nsTricksWon := prev.nsTricksWon
                  seatToPlay := next_seat prev.seatToPlay }
      let st := { st0 with plays := st0.plays.set depth ps }
      evaluatePlayableCards (searchWithCache fuel) depth beta st
    else
      let st1 :=
        if 0 < depth then
          let prev := st0.play (depth - 1)
          let prevWinnerSeat := (st0.play prev.winningPlay).seatToPlay
          let nsWon := if is_ns prevWinnerSeat then 1 else 0
          let ps := { st0.play depth with
                      nsTricksWon := prev.nsTricksWon + nsWon
                      seatToPlay := prevWinnerSeat }
          { st0 with plays := st0.plays.set depth ps }
        else st0
      let nsTricksWon := (st1.play depth).nsTricksWon
      let seatToPlay := (st1.play depth).seatToPlay
      if decide ((nsTricksWon : Int) ≥ beta) then (⟨nsTricksWon, ⟨0⟩⟩, st1)
      else
        let remaining := st1.numTricks - trickIdx
        if decide (((nsTricksWon + remaining : Nat) : Int) < beta) then
          (⟨nsTricksWon + remaining, ⟨0⟩⟩, st1)
        else if remaining = 1 then (collectLastTrick st1 depth, st1)
        else
          let allCards := st1.hands.allCards
          let st2 := { st1 with
            tricks := st1.tricks.set trickIdx ({ st1.trick trickIdx with allCards := allCards }) }
          let st3 :=
            if depth = 0 then
              let tk := { st2.trick trickIdx with
                          shape := Shape.fromHands st2.hands
                          relativeHands :=
                            ((st2.trick trickIdx).relativeHands).compute st2.hands allCards }
              { st2 with tricks := st2.tricks.set trickIdx tk }
            else
              let prevTrickIdx := trickIdx - 1
              let prevAllCards := (st2.trick prevTrickIdx).allCards
              let prevStart := prevTrickIdx * 4
              let c1 := (st2.play prevStart).cardPlayed
              let c2 := (st2.play (prevStart + 1)).cardPlayed
              let c3 := (st2.play (prevStart + 2)).cardPlayed
              let c4 := (st2.play (prevStart + 3)).cardPlayed
              let prevLeader := (st2.play prevStart).seatToPlay
              let shape := ((st2.trick prevTrickIdx).shape).playCards prevLeader c1 c2 c3 c4
              let rel := ((st2.trick prevTrickIdx).relativeHands).update st2.hands
                prevAllCards allCards
              let tk := { st2.trick trickIdx with shape := shape, relativeHands := rel }
              { st2 with tricks := st2.tricks.set trickIdx tk }
          let shapeValue := ((st3.trick trickIdx).shape).value
          let relBeta := beta - (nsTricksWon : Int)
          let newPattern := Pattern.new ((st3.trick trickIdx).relativeHands).hands
            ⟨0, (remaining : Int)⟩
          let hit : Option (Hands × Bounds) :=
            if !st3.noTT then
              match st3.patternCache.lookup shapeValue seatToPlay with
              | some entry => entry.lookup PATTERN_FUEL newPattern relBeta
              | none => none
            else none
          match hit with
          | some mb =>
            let rankWinners := (Pattern.new mb.1 mb.2).getRankWinners allCards
            let adjLower := mb.2.lower + (nsTricksWon : Int)
            let adjUpper := mb.2.upper + (nsTricksWon : Int)
            if adjLower ≥ beta then (⟨adjLower.toNat, rankWinners⟩, st3)
            else if adjUpper < beta then (⟨adjUpper.toNat, rankWinners⟩, st3)
            else
              -- pattern_cutoff = true: no store after the search
              searchAtTrickStart (searchWithCache fuel) depth beta st3
          | none =>
            let r := searchAtTrickStart (searchWithCache fuel) depth beta st3
            let result := r.1
            let st4 := r.2
            if !st4.noTT then
              let relativeTricks : Int := (result.nsTricks : Int) - (nsTricksWon : Int)
              let bounds : Bounds :=
                if decide ((result.nsTricks : Int) < beta) then ⟨0, relativeTricks⟩
                else ⟨relativeTricks, (remaining : Int)⟩
              let ph := compute_pattern_hands ((st4.trick trickIdx).relativeHands).hands
                allCards result.rankWinners
              let newPattern2 := Pattern.new ph.1 bounds
              let gc := st4.patternCache.getOrCreate shapeValue seatToPlay
              let entry := gc.2.entries.getD gc.1 default
              let entry2 := { entry with pattern := entry.pattern.update PATTERN_FUEL newPattern2 }
              let st5 := { st4 with patternCache := ⟨gc.2.entries.set gc.1 entry2, gc.2.mask⟩ }
              (⟨result.nsTricks, ph.2⟩, st5)
            else (result, st4)

/-- `Search::search`: run from the start depth with the given beta. -/
def SEARCH_FUEL : Nat := 64

def searchRun (st : SearchState) (beta : Int) : Nat × SearchState :=
  let r := searchWithCache SEARCH_FUEL st.startDepth beta st
  (r.1.nsTricks, r.2)

/-! ### search.rs : Search construction, bridge_solver.rs : solver facade -/

/-- Debug toggles (process-wide atomics in Rust). -/
structure Flags where
  noPruning : Bool
  noTT : Bool
  noRankSkip : Bool

def Flags.off : Flags := ⟨false, false, false⟩

/-- The partial-trick initialisation loop of `new_with_partial_trick`:
threads (plays, winning_play, winning_card) over the enumerated plays. -/
def setupPartialPlays (trump : Nat) :
    List PlayedCard → Nat → List PlayState → Nat → Nat →
    List PlayState × Nat × Nat
  | [], _, plays, wp, wc => (plays, wp, wc)
  | played :: rest, i, plays, wp, wc =>
    if i = 0 then
      let plays2 := plays.set 0 ⟨0, played.seat, played.card, 0⟩
      setupPartialPlays trump rest 1 plays2 0 played.card
    else
      let cardWins :=
        if suit_of played.card = suit_of wc then higher_rank played.card wc
        else if trump < NOTRUMP then suit_of played.card == trump
        else false
      let wp2 := if cardWins then i else wp
      let wc2 := if cardWins then played.card else wc
      let plays2 := plays.set i ⟨0, played.seat, played.card, wp2⟩
      setupPartialPlays trump rest (i + 1) plays2 wp2 wc2

/-- `Search::new_with_partial_trick`. -/
def newWithPartialTrick (hands : Hands) (trump initialLeader : Nat)
    (cutoffCache : CutoffCacheS) (patternCache : PatternCacheS)
    (partialTrick : Option PartialTrick) (flags : Flags) (nodeCount : Nat) : SearchState :=
  let numTricks := maxHandSize hands
  let plays0 : List PlayState := List.replicate TOTAL_CARDS PlayState.init
  let tricks0 : List Trick := List.replicate TOTAL_TRICKS Trick.init
  let base : SearchState :=
    { hands := hands, trump := trump, numTricks := numTricks, plays := plays0
      tricks := tricks0, cutoffCache := cutoffCache, patternCache := patternCache
      startDepth := 0, nodeCount := nodeCount
      noPruning := flags.noPruning, noTT := flags.noTT, noRankSkip := flags.noRankSkip }
  match partialTrick with
  | none =>
    { base with plays := plays0.set 0 ({ PlayState.init with seatToPlay := initialLeader }) }
  | some [] =>
    { base with plays := plays0.set 0 ({ PlayState.init with seatToPlay := initialLeader }) }
  | some (p0 :: rest) =>
    let pt := p0 :: rest
    let leadSuit := suit_of p0.card
    let allCards := pt.foldl (fun (acc : Cards) played => acc.add played.card) hands.allCards
    let fullHands := pt.foldl (fun (acc : Hands) played =>
      acc.setHand played.seat ((acc.hand played.seat).add played.card)) hands
    let trick0 : Trick :=
      { allCards := allCards, leadSuit := leadSuit
        shape := Shape.fromHands fullHands
        relativeHands := (Trick.init.relativeHands).compute fullHands allCards }
    let spp := setupPartialPlays trump pt 0 plays0 0 0
    let nextDepth := pt.length
    let lastSeat := (pt.getLast (by simp)).seat
    let plays2 := spp.1.set nextDepth ⟨0, next_seat lastSeat, 0, spp.2.1⟩
    { base with
      tricks := tricks0.set 0 trick0
      plays := plays2
      startDepth := nextDepth }

/-- `Solver::guess_tricks`. -/
def guessTricks (sol : Solver) : Nat :=
  let numTricks := sol.numTricks
  let nsPoints := (sol.hands.hand NORTH).points + (sol.hands.hand SOUTH).points
  let ewPoints := (sol.hands.hand EAST).points + (sol.hands.hand WEST).points
  if sol.trump ≥ NOTRUMP then
    if nsPoints * 2 < ewPoints then 0
    else if nsPoints < ewPoints then numTricks / 2 + 1
    else numTricks
  else
    let nTrumps := ((sol.hands.hand NORTH).suit sol.trump).size
    let sTrumps := ((sol.hands.hand SOUTH).suit sol.trump).size
    let eTrumps := ((sol.hands.hand EAST).suit sol.trump).size
    let wTrumps := ((sol.hands.hand WEST).suit sol.trump).size
    let nsMaxTrumps := max nTrumps sTrumps
    let ewMaxTrumps := max eTrumps wTrumps
    if nsPoints < ewPoints &&
        (nsMaxTrumps < ewMaxTrumps ||
         (nsMaxTrumps = ewMaxTrumps && nTrumps + sTrumps < eTrumps + wTrumps)) then 0
    else numTricks

def MTDF_FUEL : Nat := 32

/-- The state threaded through the MTD(f) driver: the local copy of the
hands, both caches, and the node counter. -/
structure SolveSt where
  hands : Hands
  cutoff : CutoffCacheS
  pattern : PatternCacheS
  nodeCount : Nat

/-- One null-window search as the MTD(f) oracle: build a `Search` over the
current state and run it. -/
def solveOracle (sol : Solver) (partialTrick : Option PartialTrick) (flags : Flags)
    (s : SolveSt) (beta : Int) : Int × SolveSt :=
  let st := newWithPartialTrick s.hands sol.trump sol.initialLeader s.cutoff s.pattern
    partialTrick flags s.nodeCount
  let r := searchRun st beta
  ((r.1 : Int), ⟨r.2.hands, r.2.cutoffCache, r.2.patternCache, r.2.nodeCount⟩)

/-- `Solver::solve_with_caches_and_partial` (+ the inner
`mtdf_search_with_caches_and_partial`): resets the node counter, computes
the guess, iterates null-window searches, returns `lower` and the final
caches and node count. -/
def Solver.solveWithCachesAndPartial (flags : Flags) (sol : Solver)
    (cutoffCache : CutoffCacheS) (patternCache : PatternCacheS)
    (partialTrick : Option PartialTrick) : Nat × SolveSt :=
  let numTricks := sol.numTricks
  let guess := guessTricks sol
  let r := mtdfLoop (solveOracle sol partialTrick flags) MTDF_FUEL
    ⟨sol.hands, cutoffCache, patternCache, 0⟩ 0 (numTricks : Int) (guess : Int)
  (r.1.toNat, r.2)

/-- `Solver::solve_with_caches`. -/
def Solver.solveWithCaches (flags : Flags) (sol : Solver)
    (cutoffCache : CutoffCacheS) (patternCache : PatternCacheS) : Nat × SolveSt :=
  Solver.solveWithCachesAndPartial flags sol cutoffCache patternCache none

/-- `Solver::solve_mid_trick`. -/
def Solver.solveMidTrick (flags : Flags) (sol : Solver)
    (cutoffCache : CutoffCacheS) (patternCache : PatternCacheS)
    (partialTrick : PartialTrick) : Nat × SolveSt :=
  Solver.solveWithCachesAndPartial flags sol cutoffCache patternCache (some partialTrick)

/-! ## Theorems -/

/-! ### Bit-level lemmas -/

theorem land_two_pow_ne_zero (n k : Nat) : n &&& 2 ^ k ≠ 0 ↔ n.testBit k = true := by
  constructor
  · intro h
    by_contra hb
    apply h
    apply Nat.eq_of_testBit_eq
    intro j
    rw [Nat.testBit_and, Nat.zero_testBit]
    rcases eq_or_ne k j with rfl | hjk
    · simp [Bool.eq_false_iff.mpr hb]
    · simp [Nat.testBit_two_pow_of_ne hjk]
  · intro h hz
    have h2 := congrArg (fun m => m.testBit k) hz
    simp only [Nat.testBit_and, Nat.zero_testBit] at h2
    rw [h, Nat.testBit_two_pow_self] at h2
    simp at h2

theorem hasCard_iff_testBit (c : Cards) (k : Nat) :
    c.hasCard k = true ↔ c.bits.testBit k = true := by
  unfold Cards.hasCard
  rw [Nat.one_shiftLeft, bne_iff_ne]
  exact land_two_pow_ne_zero c.bits k

theorem hasCard_eq_testBit (c : Cards) (k : Nat) : c.hasCard k = c.bits.testBit k := by
  rw [Bool.eq_iff_iff]
  exact hasCard_iff_testBit c k

theorem testBit_pow_sub_pow (b e k : Nat) (hbe : b ≤ e) :
    (2 ^ e - 2 ^ b).testBit k = (decide (b ≤ k) && decide (k < e)) := by
  have hb1 : 1 ≤ 2 ^ (e - b) := Nat.one_le_two_pow
  have hpow : 2 ^ b * 2 ^ (e - b) = 2 ^ e := by
    rw [← pow_add]
    congr 1
    omega
  have hsplit : 2 ^ e - 2 ^ b = 2 ^ b * (2 ^ (e - b) - 1) := by
    obtain ⟨m, hm⟩ := Nat.exists_eq_add_of_le hb1
    rw [hm] at hpow
    rw [hm]
    rw [Nat.mul_add, Nat.mul_one] at hpow
    have hm1 : 1 + m - 1 = m := by omega
    rw [hm1]
    omega
  rw [hsplit, Nat.testBit_mul_pow_two, Nat.testBit_two_pow_sub_one]
  have h1 : decide (k ≥ b) = decide (b ≤ k) := rfl
  rw [h1]
  by_cases hk : b ≤ k
  · rw [decide_eq_true hk, Bool.true_and, Bool.true_and]
    exact decide_eq_decide.mpr (by omega)
  · rw [decide_eq_false hk, Bool.false_and, Bool.false_and]

theorem slice_bits (c : Cards) (b e : Nat) (he : e < 64) :
    (c.slice b e).bits = c.bits &&& (2 ^ e - 2 ^ b) := by
  have hmask : ¬ (64 ≤ e) := by omega
  simp only [Cards.slice, hmask, if_false, Nat.one_shiftLeft]

theorem slice_hasCard (c : Cards) (b e k : Nat) (hbe : b ≤ e) (he : e < 64) :
    (c.slice b e).hasCard k = (c.hasCard k && decide (b ≤ k) && decide (k < e)) := by
  rw [hasCard_eq_testBit, slice_bits c b e he, Nat.testBit_and,
    testBit_pow_sub_pow b e k hbe, hasCard_eq_testBit, Bool.and_assoc]

theorem bitlenAux_zero (fuel : Nat) : bitlenAux fuel 0 = 0 := by
  cases fuel <;> simp [bitlenAux]

theorem ctzAux_spec : ∀ (fuel n : Nat), n ≠ 0 → n < 2 ^ fuel →
    n.testBit (ctzAux fuel n) = true ∧ ∀ j, j < ctzAux fuel n → n.testBit j = false := by
  intro fuel
  induction fuel with
  | zero =>
    intro n h0 hlt
    omega
  | succ f ih =>
    intro n h0 hlt
    by_cases hodd : n % 2 = 1
    · refine ⟨?_, ?_⟩
      · simp [ctzAux, hodd, Nat.testBit_zero]
      · intro j hj
        simp [ctzAux, hodd] at hj
    · have h2 : n / 2 ≠ 0 := by omega
      have hlt2 : n / 2 < 2 ^ f := by
        rw [Nat.pow_succ] at hlt
        omega
      obtain ⟨ht, hmin⟩ := ih (n / 2) h2 hlt2
      have hc : ctzAux (f + 1) n = ctzAux f (n / 2) + 1 := by
        simp [ctzAux, hodd]
      refine ⟨?_, ?_⟩
      · rw [hc, Nat.testBit_succ]
        exact ht
      · intro j hj
        rw [hc] at hj
        cases j with
        | zero => simp [Nat.testBit_zero, hodd]
        | succ j2 =>
          rw [Nat.testBit_succ]
          exact hmin j2 (by omega)

theorem bitlenAux_spec : ∀ (fuel n : Nat), n ≠ 0 → n < 2 ^ fuel →
    1 ≤ bitlenAux fuel n ∧ bitlenAux fuel n ≤ fuel ∧
    n.testBit (bitlenAux fuel n - 1) = true ∧
    ∀ j, bitlenAux fuel n ≤ j → n.testBit j = false := by
  intro fuel
  induction fuel with
  | zero =>
    intro n h0 hlt
    omega
  | succ f ih =>
    intro n h0 hlt
    have hb : bitlenAux (f + 1) n = bitlenAux f (n / 2) + 1 := by
      simp [bitlenAux, h0]
    by_cases h2 : n / 2 = 0
    · have hn1 : n = 1 := by omega
      subst hn1
      rw [hb, h2, bitlenAux_zero]
      refine ⟨by omega, by omega, by simp [Nat.testBit_zero], ?_⟩
      intro j hj
      exact Nat.testBit_lt_two_pow (by calc 1 < 2 ^ 1 := by omega
                                         _ ≤ 2 ^ j := Nat.pow_le_pow_right (by omega) hj)
    · have hlt2 : n / 2 < 2 ^ f := by
        rw [Nat.pow_succ] at hlt
        omega
      obtain ⟨hge, hle, ht, hmax⟩ := ih (n / 2) h2 hlt2
      rw [hb]
      refine ⟨by omega, by omega, ?_, ?_⟩
      · have : bitlenAux f (n / 2) + 1 - 1 = (bitlenAux f (n / 2) - 1) + 1 := by omega
        rw [this, Nat.testBit_succ]
        exact ht
      · intro j hj
        cases j with
        | zero => omega
        | succ j2 =>
          rw [Nat.testBit_succ]
          exact hmax j2 (by omega)

/-! ### C9 : Cards::slice -/

/-- C9, counterexample: the claim as frozen quantifies over all `begin ≤
end`; at `begin = 1, end = 64` the mask branch `end >= 64` returns `!0u64`
and `slice` keeps card 0, which is outside `[1, 64)`. -/
theorem slice_claim_counterexample :
    ¬ (∀ (c : Cards) (b e : Nat), b ≤ e → ∀ k,
        ((c.slice b e).hasCard k = true ↔ (c.hasCard k = true ∧ b ≤ k ∧ k < e))) := by
  intro h
  have h0 := (h ⟨1⟩ 1 64 (by omega) 0).mp (by decide)
  exact absurd h0.2.1 (by omega)

/-- C9 (amended): for `begin ≤ end < 64` — which covers every card index,
in particular all call sites — `slice(begin, end)` keeps exactly the cards
with bit indices in `[begin, end)`; and `slice(0, card)` keeps exactly the
cards strictly higher in rank than `card` (lower bit index).  When
`end ≥ 64` the mask is `!0u64` and the whole set is returned regardless of
`begin`. -/
theorem slice_range_amended :
    (∀ (c : Cards) (b e k : Nat), b ≤ e → e < 64 →
      ((c.slice b e).hasCard k = true ↔ (c.hasCard k = true ∧ b ≤ k ∧ k < e)))
  ∧ (∀ (c : Cards) (card k : Nat), card < 64 →
      ((c.slice 0 card).hasCard k = true ↔
        (c.hasCard k = true ∧ higher_rank k card = true)))
  ∧ (∀ (c : Cards) (b e : Nat), 64 ≤ e → c.bits < 2 ^ 64 → c.slice b e = c) := by
  refine ⟨?_, ?_, ?_⟩
  · intro c b e k hbe he
    rw [slice_hasCard c b e k hbe he]
    simp only [Bool.and_eq_true, decide_eq_true_eq, and_assoc]
  · intro c card k hcard
    rw [slice_hasCard c 0 card k (by omega) hcard]
    unfold higher_rank
    simp only [Bool.and_eq_true, decide_eq_true_eq]
    constructor
    · rintro ⟨⟨h1, _⟩, h3⟩
      exact ⟨h1, h3⟩
    · rintro ⟨h1, h3⟩
      exact ⟨⟨h1, by omega⟩, h3⟩
  · intro c b e he hlt
    obtain ⟨bits⟩ := c
    have hmask : bits &&& mask64 = bits := by
      apply Nat.eq_of_testBit_eq
      intro j
      rw [Nat.testBit_and]
      have hm : mask64 = 2 ^ 64 - 1 := rfl
      rw [hm, Nat.testBit_two_pow_sub_one]
      by_cases hj : j < 64
      · simp [hj]
      · have hf : Nat.testBit bits j = false :=
          Nat.testBit_lt_two_pow
            (lt_of_lt_of_le hlt (Nat.pow_le_pow_right (by omega) (by omega)))
        simp [hf, hj]
    simp only [Cards.slice, he, if_true]
    rw [hmask]

/-- C9, witness for the amended theorem. -/
theorem slice_range_amended_witness :
    ((Cards.mk 6).slice 1 3).hasCard 2 = true ∧
    ((Cards.mk 6).slice 0 3).hasCard 1 = true := by
  constructor
  · exact (slice_range_amended.1 ⟨6⟩ 1 3 2 (by omega) (by omega)).mpr (by decide)
  · exact (slice_range_amended.2.1 ⟨6⟩ 3 1 (by omega)).mpr (by decide)

/-! ### C10 : Cards::top / Cards::bottom -/

/-- C10: for a non-empty `u64` card set, `top` is the lowest set bit index
(the highest rank) and `bottom` the highest set bit index (the lowest
rank); on the empty set `top` returns 64 (out of range) and the
`63 - leading_zeros` computation of `bottom` underflows (`bottomChecked`
returns `none`, the debug-build panic). -/
theorem top_bottom_partiality (c : Cards) (hlt : c.bits < 2 ^ 64) :
    (c.bits ≠ 0 →
      (c.hasCard c.top = true ∧ (∀ j, j < c.top → c.hasCard j = false) ∧
       c.hasCard c.bottom = true ∧ (∀ j, c.bottom < j → c.hasCard j = false) ∧
       c.bottomChecked = some c.bottom))
  ∧ (c.bits = 0 → c.top = 64 ∧ c.bottomChecked = none) := by
  constructor
  · intro h0
    obtain ⟨htop, hmin⟩ := ctzAux_spec 64 c.bits h0 hlt
    obtain ⟨hge, hle, hbit, hmax⟩ := bitlenAux_spec 64 c.bits h0 hlt
    have htopdef : c.top = ctzAux 64 c.bits := rfl
    have hbotdef : c.bottom = bitlenAux 64 c.bits - 1 := by
      unfold Cards.bottom leadingZeros64
      omega
    refine ⟨?_, ?_, ?_, ?_, ?_⟩
    · rw [hasCard_iff_testBit, htopdef]
      exact htop
    · intro j hj
      rw [htopdef] at hj
      have := hmin j hj
      cases hcc : c.hasCard j with
      | true => rw [hasCard_iff_testBit] at hcc; rw [hcc] at this; cases this
      | false => rfl
    · rw [hasCard_iff_testBit, hbotdef]
      exact hbit
    · intro j hj
      rw [hbotdef] at hj
      have := hmax j (by omega)
      cases hcc : c.hasCard j with
      | true => rw [hasCard_iff_testBit] at hcc; rw [hcc] at this; cases this
      | false => rfl
    · unfold Cards.bottomChecked Cards.bottom leadingZeros64
      have : ¬ (63 < 64 - bitlenAux 64 c.bits) := by omega
      simp [this]
  · intro h0
    constructor
    · unfold Cards.top trailingZeros64
      rw [h0]
      decide
    · unfold Cards.bottomChecked leadingZeros64
      rw [h0, bitlenAux_zero]
      decide

/-- C10, witness: the set {bit 3, bit 10} and the empty set. -/
theorem top_bottom_partiality_witness :
    ((Cards.mk (2 ^ 3 + 2 ^ 10)).hasCard (Cards.mk (2 ^ 3 + 2 ^ 10)).top = true ∧
     (Cards.mk (2 ^ 3 + 2 ^ 10)).bottomChecked = some (Cards.mk (2 ^ 3 + 2 ^ 10)).bottom) ∧
    ((Cards.mk 0).top = 64 ∧ (Cards.mk 0).bottomChecked = none) := by
  constructor
  · have h := (top_bottom_partiality ⟨2 ^ 3 + 2 ^ 10⟩ (by norm_num)).1 (by norm_num)
    exact ⟨h.1, h.2.2.2.2⟩
  · exact (top_bottom_partiality ⟨0⟩ (by norm_num)).2 rfl

/-! ### C6 : Hands::num_tricks -/

/-- C6, counterexample: `Hands::num_tricks` returns the West hand's size,
so on a mid-trick `Hands` where West has already played (here West empty,
North holding one card) it is 0 while the max over seats is 1. -/
theorem num_tricks_counterexample :
    Hands.numTricks ⟨⟨0⟩, ⟨1⟩, ⟨0⟩, ⟨0⟩⟩ = 0 ∧
    maxHandSize ⟨⟨0⟩, ⟨1⟩, ⟨0⟩, ⟨0⟩⟩ = 1 ∧
    Hands.numTricks ⟨⟨0⟩, ⟨1⟩, ⟨0⟩, ⟨0⟩⟩ ≠ maxHandSize ⟨⟨0⟩, ⟨1⟩, ⟨0⟩, ⟨0⟩⟩ := by
  refine ⟨by decide, by decide, by decide⟩

/-- C6 (amended): `Hands::num_tricks` returns the West hand's size; it
equals the max over the four seats exactly when West's hand is maximal (in
particular on complete deals, where all four sizes are equal); the
mid-trick constructor `Solver::new_mid_trick` does not use
`Hands::num_tricks` but computes the max over the four seats directly. -/
theorem num_tricks_amended :
    (∀ h : Hands, h.numTricks = (h.hand WEST).size)
  ∧ (∀ h : Hands, (∀ s, s < NUM_SEATS → (h.hand s).size ≤ (h.hand WEST).size) →
      h.numTricks = maxHandSize h)
  ∧ (∀ (h : Hands) (trump : Nat) (pt : PartialTrick) (sol : Solver),
      Solver.newMidTrick h trump pt = some sol → sol.numTricks = maxHandSize h) := by
  refine ⟨fun h => rfl, ?_, ?_⟩
  · intro h hmax
    have h0 := hmax 0 (by decide)
    have h1 := hmax 1 (by decide)
    have h2 := hmax 2 (by decide)
    have h3 := hmax 3 (by decide)
    have hW : h.hand WEST = h.hand 0 := rfl
    rw [hW] at h0 h1 h2 h3
    have hrange : List.range NUM_SEATS = [0, 1, 2, 3] := rfl
    unfold maxHandSize Hands.numTricks
    rw [hrange, hW]
    simp only [List.map_cons, List.map_nil, List.foldl_cons, List.foldl_nil]
    have hmx : ∀ a b : Nat, b ≤ a → Nat.max a b = a := fun a b hh => Nat.max_eq_left hh
    have hz : ∀ b : Nat, Nat.max 0 b = b := fun b => Nat.max_eq_right (Nat.zero_le b)
    rw [hz, hmx _ _ h1, hmx _ _ h2, hmx _ _ h3]
  · intro h trump pt sol hsol
    unfold Solver.newMidTrick at hsol
    by_cases hc : (List.isEmpty pt || decide (3 < List.length pt)) = true
    · rw [if_pos hc] at hsol
      cases hsol
    · rw [if_neg hc] at hsol
      cases hpt : pt.leader with
      | none => rw [hpt] at hsol; cases hsol
      | some l => rw [hpt] at hsol; cases hsol; rfl

/-- C6, witness for the amended theorem: a one-card-per-seat deal and a
one-card partial trick. -/
theorem num_tricks_amended_witness :
    Hands.numTricks ⟨⟨1⟩, ⟨2⟩, ⟨4⟩, ⟨8⟩⟩ = maxHandSize ⟨⟨1⟩, ⟨2⟩, ⟨4⟩, ⟨8⟩⟩ ∧
    Solver.numTricks ⟨⟨⟨1⟩, ⟨2⟩, ⟨4⟩, ⟨8⟩⟩, NOTRUMP, WEST, 1⟩ =
      maxHandSize ⟨⟨1⟩, ⟨2⟩, ⟨4⟩, ⟨8⟩⟩ := by
  constructor
  · exact num_tricks_amended.2.1 ⟨⟨1⟩, ⟨2⟩, ⟨4⟩, ⟨8⟩⟩ (by decide)
  · exact num_tricks_amended.2.2 ⟨⟨1⟩, ⟨2⟩, ⟨4⟩, ⟨8⟩⟩ NOTRUMP [⟨0, WEST⟩]
      ⟨⟨⟨1⟩, ⟨2⟩, ⟨4⟩, ⟨8⟩⟩, NOTRUMP, WEST, 1⟩ (by decide)

/-! ### C7 : Hands::from_pbn -/

/-- C7, counterexample: `from_pbn` succeeds on the one-card-per-seat test
deal `N:A... K... 2... 3...` (used by the repository's own tests), where
North holds 1 card, not 13, and only 4 cards exist in total. -/
theorem from_pbn_claim_counterexample :
    fromPbn ['N', ':', 'A', '.', '.', '.', ' ', 'K', '.', '.', '.', ' ',
             '2', '.', '.', '.', ' ', '3', '.', '.', '.'] =
      some ⟨⟨2 ^ 11⟩, ⟨1⟩, ⟨2⟩, ⟨2 ^ 12⟩⟩ ∧
    (Hands.hand ⟨⟨2 ^ 11⟩, ⟨1⟩, ⟨2⟩, ⟨2 ^ 12⟩⟩ NORTH).size = 1 ∧
    (Hands.allCards ⟨⟨2 ^ 11⟩, ⟨1⟩, ⟨2⟩, ⟨2 ^ 12⟩⟩).size = 4 := by
  refine ⟨by decide, by decide, by decide⟩

/-- C7 (amended): `from_pbn` validates only the format (four
whitespace-separated hands, each with four dot-separated groups of valid
rank characters); it does not enforce the 52-card/13-per-seat invariant.
On a full standard deal string (here the repository's own test deal) the
parsed hands do hold 13 cards per seat, 52 distinct cards in total. -/
theorem from_pbn_amended :
    (Option.map (fun h : Hands =>
        ((h.hand WEST).size, (h.hand NORTH).size, (h.hand EAST).size,
         (h.hand SOUTH).size, h.allCards.size))
      (fromPbn
        ['N', ':', 'A', 'K', 'Q', 'T', '3', '.', 'J', '6', '.', 'K', 'J', '4', '2',
         '.', '9', '5', ' ',
         '6', '5', '2', '.', 'A', 'K', '4', '2', '.', 'A', 'Q', '8', '7', '.', 'T',
         '4', ' ',
         'J', '7', '4', '.', 'Q', 'T', '9', '5', '.', 'T', '.', 'A', 'K', '8', '6',
         '3', ' ',
         '9', '8', '.', '8', '7', '3', '.', '9', '6', '5', '3', '.', 'Q', 'J', '7',
         '2'])) =
      some (13, 13, 13, 13, 52) := by
  decide

/-! ### C8 : Solver::new_mid_trick validation -/

/-- C8: `Solver::new_mid_trick` returns `None` exactly when the partial
trick has 0 plays or more than 3 plays; every partial trick with 1–3 plays
yields a solver.  (The solve entry points themselves return a plain trick
count with no failure channel.) -/
theorem new_mid_trick_validation :
    ∀ (h : Hands) (trump : Nat) (pt : PartialTrick),
      Solver.newMidTrick h trump pt = none ↔ (pt.length = 0 ∨ 4 ≤ pt.length) := by
  intro h trump pt
  unfold Solver.newMidTrick
  cases pt with
  | nil => simp [PartialTrick.leader]
  | cons p rest =>
    by_cases hlen : 3 < (p :: rest).length
    · have hc : (List.isEmpty (p :: rest) || decide (3 < List.length (p :: rest))) = true := by
        simp only [List.length_cons] at hlen
        simp only [List.isEmpty_cons, Bool.false_or, decide_eq_true_eq, List.length_cons]
        omega
      rw [if_pos hc]
      constructor
      · intro _
        right
        simp only [List.length_cons] at hlen ⊢
        omega
      · intro _
        rfl
    · have hc : ¬ ((List.isEmpty (p :: rest) || decide (3 < List.length (p :: rest))) = true) := by
        simp only [List.length_cons] at hlen
        simp only [List.isEmpty_cons, Bool.false_or, decide_eq_true_eq, List.length_cons]
        omega
      rw [if_neg hc]
      have hld : PartialTrick.leader (p :: rest) = some p.seat := rfl
      rw [hld]
      constructor
      · intro hcontra
        cases hcontra
      · intro hor
        exfalso
        simp only [List.length_cons] at hlen hor
        rcases hor with h0 | h4
        · omega
        · omega

/-! ### C2 : the MTD(f) driver -/

/-- Main MTD(f) invariant: with a sound null-window oracle for a true
value `t` (fail-low results are upper bounds ≥ t; results ≥ beta are lower
bounds ≤ t), both the code loop (`while lower < upper`) and the spec's
loop (`until lower = upper`) converge to `t`, shrinking `[lower, upper]`
every iteration. -/
theorem mtdfLoop_correct {σ : Type} (f : σ → Int → Int × σ) (t : Int)
    (hf : ∀ (s : σ) (b : Int),
      ((f s b).1 < b → t ≤ (f s b).1) ∧ (b ≤ (f s b).1 → (f s b).1 ≤ t)) :
    ∀ (fuel : Nat) (s : σ) (lower upper g : Int),
      lower ≤ t → t ≤ upper → lower ≤ g → g ≤ upper →
      (upper - lower).toNat < fuel →
      (mtdfLoop f fuel s lower upper g).1 = t ∧
      (mtdfSpecLoop f fuel s lower upper g).1 = t := by
  intro fuel
  induction fuel with
  | zero =>
    intro s lower upper g h1 h2 h3 h4 hm
    omega
  | succ fl ih =>
    intro s lower upper g h1 h2 h3 h4 hm
    by_cases hlt : lower < upper
    · have hne : lower ≠ upper := by omega
      simp only [mtdfLoop, mtdfSpecLoop, if_pos hlt, if_pos hne]
      set beta := if g = lower then g + 1 else g with hbeta
      have hbl : lower < beta := by
        by_cases hg : g = lower
        · rw [hbeta, if_pos hg]
          omega
        · rw [hbeta, if_neg hg]
          omega
      have hbu : beta ≤ upper := by
        by_cases hg : g = lower
        · rw [hbeta, if_pos hg]
          omega
        · rw [hbeta, if_neg hg]
          omega
      obtain ⟨hlo, hhi⟩ := hf s beta
      by_cases hv : (f s beta).1 < beta
      · have hub : t ≤ (f s beta).1 := hlo hv
        simp only [if_pos hv]
        exact ih (f s beta).2 lower (f s beta).1 (f s beta).1 h1 hub (by omega) le_rfl
          (by omega)
      · have hlb : (f s beta).1 ≤ t := hhi (by omega)
        simp only [if_neg hv]
        exact ih (f s beta).2 (f s beta).1 upper (f s beta).1 hlb h2 le_rfl (by omega)
          (by omega)
    · have heq : lower = upper := by omega
      subst heq
      refine ⟨?_, ?_⟩
      · simp only [mtdfLoop]
        rw [if_neg (lt_irrefl lower)]
        show lower = t
        omega
      · simp only [mtdfSpecLoop]
        rw [if_neg (by omega : ¬ lower ≠ lower)]
        show lower = t
        omega

/-- C2: the MTD(f) driver computes the NS trick count by the stated
null-window iteration.  For any stateful oracle (the searches over the
evolving caches) sound for a value `t ∈ [0, num_tricks]` and any initial
guess in `[0, num_tricks]`, the loop translated from the code returns `t`,
and agrees with the loop written from the spec's words ("until lower =
upper; return lower"). -/
theorem mtdf_driver_correct {σ : Type} (f : σ → Int → Int × σ) (t : Int)
    (numTricks guess : Nat) (s : σ) (fuel : Nat)
    (hguess : guess ≤ numTricks)
    (ht0 : 0 ≤ t) (ht1 : t ≤ (numTricks : Int))
    (hf : ∀ (s2 : σ) (b : Int),
      ((f s2 b).1 < b → t ≤ (f s2 b).1) ∧ (b ≤ (f s2 b).1 → (f s2 b).1 ≤ t))
    (hfuel : numTricks < fuel) :
    (mtdfLoop f fuel s 0 (numTricks : Int) (guess : Int)).1 = t ∧
    (mtdfSpecLoop f fuel s 0 (numTricks : Int) (guess : Int)).1 = t :=
  mtdfLoop_correct f t hf fuel s 0 numTricks guess ht0 ht1
    (by exact_mod_cast Nat.zero_le guess) (by exact_mod_cast hguess) (by omega)

/-- C2, witness: a constant sound oracle with value 7 on a 13-trick
window, guess 13. -/
theorem mtdf_driver_correct_witness :
    (mtdfLoop (fun (s : Unit) (_ : Int) => ((7 : Int), s)) 14 () 0 13 13).1 = 7 ∧
    (mtdfSpecLoop (fun (s : Unit) (_ : Int) => ((7 : Int), s)) 14 () 0 13 13).1 = 7 :=
  mtdf_driver_correct (fun s _ => ((7 : Int), s)) 7 13 13 () 14 (by omega) (by omega)
    (by omega) (fun _ _ => ⟨fun _ => le_refl 7, fun _ => le_refl 7⟩) (by omega)

/-! ### C4 : the pattern tree -/

theorem includeCards_iff (a b : Cards) :
    a.includeCards b = true ↔
      ∀ k, b.bits.testBit k = true → a.bits.testBit k = true := by
  unfold Cards.includeCards Cards.intersect
  rw [beq_iff_eq]
  constructor
  · intro h k hk
    have h' : a.bits &&& b.bits = b.bits := h
    have h2 : (a.bits.testBit k && b.bits.testBit k) = b.bits.testBit k := by
      rw [← Nat.testBit_and, h']
    rw [hk, Bool.and_true] at h2
    exact h2
  · intro h
    apply Nat.eq_of_testBit_eq
    intro k
    rw [Nat.testBit_and]
    cases hb : b.bits.testBit k with
    | false => simp
    | true => simp [h k hb]

theorem includeCards_refl (a : Cards) : a.includeCards a = true := by
  rw [includeCards_iff]
  intro k h
  exact h

theorem includeCards_trans {a b c : Cards} (hab : a.includeCards b = true)
    (hbc : b.includeCards c = true) : a.includeCards c = true := by
  rw [includeCards_iff] at hab hbc ⊢
  intro k hk
  exact hab k (hbc k hk)

theorem includeCards_emptyset (x : Cards) : x.includeCards ⟨0⟩ = true := by
  unfold Cards.includeCards Cards.intersect
  rw [Nat.and_zero]
  rfl

theorem handsIncl_parts {sup sub : Hands} :
    handsIncl sup sub = true ↔
      ((sup.hand WEST).includeCards (sub.hand WEST) = true ∧
       (sup.hand NORTH).includeCards (sub.hand NORTH) = true ∧
       (sup.hand EAST).includeCards (sub.hand EAST) = true ∧
       (sup.hand SOUTH).includeCards (sub.hand SOUTH) = true) := by
  unfold handsIncl
  simp [Bool.and_eq_true, and_assoc]

theorem handsIncl_trans {a b c : Hands} (hab : handsIncl a b = true)
    (hbc : handsIncl b c = true) : handsIncl a c = true := by
  rw [handsIncl_parts] at hab hbc ⊢
  exact ⟨includeCards_trans hab.1 hbc.1, includeCards_trans hab.2.1 hbc.2.1,
    includeCards_trans hab.2.2.1 hbc.2.2.1, includeCards_trans hab.2.2.2 hbc.2.2.2⟩

theorem handsIncl_empty (hh : Hands) : handsIncl hh Hands.empty = true := by
  rw [handsIncl_parts]
  have e0 : Hands.empty.hand WEST = ⟨0⟩ := rfl
  have e1 : Hands.empty.hand NORTH = ⟨0⟩ := rfl
  have e2 : Hands.empty.hand EAST = ⟨0⟩ := rfl
  have e3 : Hands.empty.hand SOUTH = ⟨0⟩ := rfl
  rw [e0, e1, e2, e3]
  exact ⟨includeCards_emptyset _, includeCards_emptyset _, includeCards_emptyset _,
    includeCards_emptyset _⟩

theorem isSubsetOf_eq (p q : Pattern) :
    Pattern.isSubsetOf p q = handsIncl p.hands q.hands := rfl

theorem supersetInv_parts {p : Pattern} (h : SupersetInv p) :
    (∀ c ∈ p.children, handsIncl c.hands p.hands = true) ∧
    (∀ c ∈ p.children, SupersetInv c) := by
  cases h with
  | node h0 b0 cs0 hs hr => exact ⟨hs, hr⟩

theorem supersetInv_mk' (p : Pattern)
    (hs : ∀ c ∈ p.children, handsIncl c.hands p.hands = true)
    (hr : ∀ c ∈ p.children, SupersetInv c) : SupersetInv p := by
  cases p with
  | mk h0 b0 cs0 => exact .node h0 b0 cs0 hs hr

theorem supersetInv_new (h : Hands) (b : Bounds) : SupersetInv (Pattern.new h b) :=
  .node h b [] (by simp) (by simp)

theorem withBounds_hands (p : Pattern) (b : Bounds) : (p.withBounds b).hands = p.hands := by
  cases p
  rfl

theorem withBounds_children (p : Pattern) (b : Bounds) :
    (p.withBounds b).children = p.children := by
  cases p
  rfl

theorem withChildren_hands (p : Pattern) (cs : List Pattern) :
    (p.withChildren cs).hands = p.hands := by
  cases p
  rfl

theorem withChildren_children (p : Pattern) (cs : List Pattern) :
    (p.withChildren cs).children = cs := by
  cases p
  rfl

theorem supersetInv_withBounds {p : Pattern} (h : SupersetInv p) (b : Bounds) :
    SupersetInv (p.withBounds b) := by
  obtain ⟨hs, hr⟩ := supersetInv_parts h
  apply supersetInv_mk'
  · rw [withBounds_children, withBounds_hands]
    exact hs
  · rw [withBounds_children]
    exact hr

theorem getD_mem {α : Type} (l : List α) (i : Nat) (d : α) (h : i < l.length) :
    l.getD i d ∈ l := by
  rw [List.getD_eq_getElem?_getD, List.getElem?_eq_getElem h, Option.getD_some]
  exact List.getElem_mem h

theorem swapRemove_subset {α : Type} (l : List α) (i : Nat) :
    ∀ c ∈ swapRemove l i, c ∈ l := by
  intro c hc
  unfold swapRemove at hc
  split at hc
  · exact hc
  · rename_i last hl
    split at hc
    · exact List.dropLast_subset l hc
    · rcases List.mem_or_eq_of_mem_set hc with h2 | h2
      · exact List.dropLast_subset l h2
      · rw [h2]
        exact List.mem_of_mem_getLast? hl

theorem ubRun_inv (fuel : Nat) :
    (∀ (p : Pattern) (nb : Bounds), SupersetInv p →
      ∃ q, ubRun fuel (.node p nb) = .node q ∧ q.hands = p.hands ∧ SupersetInv q) ∧
    (∀ (b : Bounds) (cs : List Pattern) (i : Nat) (H : Hands),
      (∀ c ∈ cs, handsIncl c.hands H = true ∧ SupersetInv c) →
      ∃ cs2, ubRun fuel (.loop b cs i) = .loop cs2 ∧
        ∀ c ∈ cs2, handsIncl c.hands H = true ∧ SupersetInv c) := by
  induction fuel with
  | zero =>
    constructor
    · intro p nb hp
      exact ⟨p, rfl, rfl, hp⟩
    · intro b cs i H hcs
      exact ⟨cs, rfl, hcs⟩
  | succ fl ih =>
    obtain ⟨ihn, ihl⟩ := ih
    constructor
    · intro p nb hp
      simp only [ubRun]
      by_cases hc : ((p.bounds.intersect nb).isEmpty || (p.bounds.intersect nb == p.bounds)) = true
      · rw [if_pos hc]
        exact ⟨p.withBounds (p.bounds.intersect nb), rfl, withBounds_hands p _,
          supersetInv_withBounds hp _⟩
      · rw [if_neg hc]
        obtain ⟨hps, hpr⟩ := supersetInv_parts hp
        obtain ⟨cs2, heq, hprops⟩ := ihl (p.bounds.intersect nb) p.children 0 p.hands
          (fun c hm => ⟨hps c hm, hpr c hm⟩)
        rw [heq]
        exact ⟨.mk p.hands (p.bounds.intersect nb) cs2, rfl, rfl,
          .node _ _ _ (fun c hm => (hprops c hm).1) (fun c hm => (hprops c hm).2)⟩
    · intro b cs i H hcs
      simp only [ubRun]
      by_cases hi : i < cs.length
      · rw [if_pos hi]
        have hci := hcs (cs.getD i default) (getD_mem cs i default hi)
        obtain ⟨ci2, heqn, hh, hinv⟩ := ihn (cs.getD i default) b hci.2
        simp only [heqn]
        by_cases hb2 : (ci2.bounds == b) = true
        · rw [if_pos hb2]
          apply ihl b (swapRemove (cs.set i ci2) i ++ ci2.children) i H
          intro c hm
          rcases List.mem_append.mp hm with h2 | h2
          · have h3 := swapRemove_subset _ _ c h2
            rcases List.mem_or_eq_of_mem_set h3 with h4 | h4
            · exact hcs c h4
            · subst h4
              refine ⟨?_, hinv⟩
              rw [hh]
              exact hci.1
          · obtain ⟨hcs2, hcr2⟩ := supersetInv_parts hinv
            refine ⟨handsIncl_trans (hcs2 c h2) ?_, hcr2 c h2⟩
            rw [hh]
            exact hci.1
        · rw [if_neg hb2]
          apply ihl b (cs.set i ci2) (i + 1) H
          intro c hm
          rcases List.mem_or_eq_of_mem_set hm with h4 | h4
          · exact hcs c h4
          · subst h4
            refine ⟨?_, hinv⟩
            rw [hh]
            exact hci.1
      · rw [if_neg hi]
        exact ⟨cs, rfl, hcs⟩

theorem ubNode_inv (fuel : Nat) (p : Pattern) (nb : Bounds) (hp : SupersetInv p) :
    (ubNode fuel p nb).hands = p.hands ∧ SupersetInv (ubNode fuel p nb) := by
  obtain ⟨q, heq, hh, hq⟩ := (ubRun_inv fuel).1 p nb hp
  unfold ubNode
  rw [heq]
  exact ⟨hh, hq⟩

theorem findRelated_spec (newP : Pattern) :
    ∀ (l : List Pattern) (i0 i tag : Nat),
      findRelated newP l i0 = some (i, tag) →
      i0 ≤ i ∧ i - i0 < l.length ∧
      ((tag = 0 ∧ newP.handsEqual (l.getD (i - i0) default) = true) ∨
       (tag = 1 ∧ newP.isSubsetOf (l.getD (i - i0) default) = true) ∨
       (tag = 2 ∧ (l.getD (i - i0) default).isSubsetOf newP = true)) := by
  intro l
  induction l with
  | nil =>
    intro i0 i tag h
    simp [findRelated] at h
  | cons child rest ih =>
    intro i0 i tag h
    simp only [findRelated] at h
    by_cases h1 : newP.handsEqual child = true
    · rw [if_pos h1] at h
      simp only [Option.some.injEq, Prod.mk.injEq] at h
      obtain ⟨rfl, rfl⟩ := h
      refine ⟨le_refl _, by simp, Or.inl ⟨rfl, ?_⟩⟩
      rw [Nat.sub_self]
      exact h1
    · rw [if_neg h1] at h
      by_cases h2 : newP.isSubsetOf child = true
      · rw [if_pos h2] at h
        simp only [Option.some.injEq, Prod.mk.injEq] at h
        obtain ⟨rfl, rfl⟩ := h
        refine ⟨le_refl _, by simp, Or.inr (Or.inl ⟨rfl, ?_⟩)⟩
        rw [Nat.sub_self]
        exact h2
      · rw [if_neg h2] at h
        by_cases h3 : child.isSubsetOf newP = true
        · rw [if_pos h3] at h
          simp only [Option.some.injEq, Prod.mk.injEq] at h
          obtain ⟨rfl, rfl⟩ := h
          refine ⟨le_refl _, by simp, Or.inr (Or.inr ⟨rfl, ?_⟩)⟩
          rw [Nat.sub_self]
          exact h3
        · rw [if_neg h3] at h
          obtain ⟨hle, hlt, hrel⟩ := ih (i0 + 1) i tag h
          have hk : i - i0 = (i - (i0 + 1)) + 1 := by omega
          refine ⟨by omega, ?_, ?_⟩
          · simp only [List.length_cons]
            omega
          · rw [hk, List.getD_cons_succ]
            exact hrel

theorem absorbLoop_inv (ubFuel : Nat) :
    ∀ (fuel : Nat) (newP : Pattern) (cs : List Pattern) (j : Nat) (H : Hands),
      SupersetInv newP →
      (∀ c ∈ cs, handsIncl c.hands H = true ∧ SupersetInv c) →
      (absorbLoop ubFuel fuel newP cs j).1.hands = newP.hands ∧
      SupersetInv (absorbLoop ubFuel fuel newP cs j).1 ∧
      ∀ c ∈ (absorbLoop ubFuel fuel newP cs j).2,
        handsIncl c.hands H = true ∧ SupersetInv c := by
  intro fuel
  induction fuel with
  | zero =>
    intro newP cs j H hn hcs
    exact ⟨rfl, hn, hcs⟩
  | succ fl ih =>
    intro newP cs j H hn hcs
    simp only [absorbLoop]
    by_cases hj : j < cs.length
    · rw [if_pos hj]
      by_cases hsub : (cs.getD j default).isSubsetOf newP = true
      · rw [if_pos hsub]
        have hci := hcs (cs.getD j default) (getD_mem cs j default hj)
        obtain ⟨hubh, hubi⟩ := ubNode_inv ubFuel (cs.getD j default) newP.bounds hci.2
        have hc2n : handsIncl (ubNode ubFuel (cs.getD j default) newP.bounds).hands
            newP.hands = true := by
          rw [hubh]
          rw [isSubsetOf_eq] at hsub
          exact hsub
        have hmem2 : ∀ c ∈ swapRemove
            (cs.set j (ubNode ubFuel (cs.getD j default) newP.bounds)) j,
            handsIncl c.hands H = true ∧ SupersetInv c := by
          intro c hm
          have h3 := swapRemove_subset _ _ c hm
          rcases List.mem_or_eq_of_mem_set h3 with h4 | h4
          · exact hcs c h4
          · subst h4
            refine ⟨?_, hubi⟩
            rw [hubh]
            exact hci.1
        by_cases hbne :
            (!((ubNode ubFuel (cs.getD j default) newP.bounds).bounds == newP.bounds)) = true
        · rw [if_pos hbne]
          have hn2 : SupersetInv
              (newP.withChildren (newP.children ++
                [ubNode ubFuel (cs.getD j default) newP.bounds])) := by
            apply supersetInv_mk'
            · rw [withChildren_children, withChildren_hands]
              intro c hm
              rcases List.mem_append.mp hm with h2 | h2
              · exact (supersetInv_parts hn).1 c h2
              · rw [List.mem_singleton.mp h2]
                exact hc2n
            · rw [withChildren_children]
              intro c hm
              rcases List.mem_append.mp hm with h2 | h2
              · exact (supersetInv_parts hn).2 c h2
              · rw [List.mem_singleton.mp h2]
                exact hubi
          have hres := ih (newP.withChildren (newP.children ++
            [ubNode ubFuel (cs.getD j default) newP.bounds]))
            (swapRemove (cs.set j (ubNode ubFuel (cs.getD j default) newP.bounds)) j)
            j H hn2 hmem2
          refine ⟨?_, hres.2.1, hres.2.2⟩
          rw [hres.1, withChildren_hands]
        · rw [if_neg hbne]
          by_cases hne : newP.children.isEmpty = true
          · rw [if_pos hne]
            have hn2 : SupersetInv
                (newP.withChildren (ubNode ubFuel (cs.getD j default) newP.bounds).children) := by
              apply supersetInv_mk'
              · rw [withChildren_children, withChildren_hands]
                intro c hm
                exact handsIncl_trans ((supersetInv_parts hubi).1 c hm) hc2n
              · rw [withChildren_children]
                intro c hm
                exact (supersetInv_parts hubi).2 c hm
            have hres := ih (newP.withChildren
              (ubNode ubFuel (cs.getD j default) newP.bounds).children)
              (swapRemove (cs.set j (ubNode ubFuel (cs.getD j default) newP.bounds)) j)
              j H hn2 hmem2
            refine ⟨?_, hres.2.1, hres.2.2⟩
            rw [hres.1, withChildren_hands]
          · rw [if_neg hne]
            have hn2 : SupersetInv
                (newP.withChildren (newP.children ++
                  (ubNode ubFuel (cs.getD j default) newP.bounds).children)) := by
              apply supersetInv_mk'
              · rw [withChildren_children, withChildren_hands]
                intro c hm
                rcases List.mem_append.mp hm with h2 | h2
                · exact (supersetInv_parts hn).1 c h2
                · exact handsIncl_trans ((supersetInv_parts hubi).1 c h2) hc2n
              · rw [withChildren_children]
                intro c hm
                rcases List.mem_append.mp hm with h2 | h2
                · exact (supersetInv_parts hn).2 c h2
                · exact (supersetInv_parts hubi).2 c h2
            have hres := ih (newP.withChildren (newP.children ++
              (ubNode ubFuel (cs.getD j default) newP.bounds).children))
              (swapRemove (cs.set j (ubNode ubFuel (cs.getD j default) newP.bounds)) j)
              j H hn2 hmem2
            refine ⟨?_, hres.2.1, hres.2.2⟩
            rw [hres.1, withChildren_hands]
      · rw [if_neg hsub]
        exact ih newP cs (j + 1) H hn hcs
    · rw [if_neg hj]
      exact ⟨rfl, hn, hcs⟩

theorem update_absorb_step (fl : Nat) (selfP newP2 : Pattern) (cs2 : List Pattern) (i : Nat)
    (hn2 : SupersetInv newP2)
    (hincl2 : handsIncl newP2.hands selfP.hands = true)
    (hcs2 : ∀ c ∈ cs2, handsIncl c.hands selfP.hands = true ∧ SupersetInv c) :
    (selfP.withChildren ((absorbLoop fl (cs2.length + 1) newP2 cs2 i).2 ++
        [(absorbLoop fl (cs2.length + 1) newP2 cs2 i).1])).hands = selfP.hands ∧
    SupersetInv (selfP.withChildren ((absorbLoop fl (cs2.length + 1) newP2 cs2 i).2 ++
        [(absorbLoop fl (cs2.length + 1) newP2 cs2 i).1])) := by
  obtain ⟨hh1, hinv1, hmem⟩ := absorbLoop_inv fl (cs2.length + 1) newP2 cs2 i selfP.hands hn2 hcs2
  constructor
  · rw [withChildren_hands]
  · apply supersetInv_mk'
    · rw [withChildren_children, withChildren_hands]
      intro c hm
      rcases List.mem_append.mp hm with h2 | h2
      · exact (hmem c h2).1
      · rw [List.mem_singleton.mp h2, hh1]
        exact hincl2
    · rw [withChildren_children]
      intro c hm
      rcases List.mem_append.mp hm with h2 | h2
      · exact (hmem c h2).2
      · rw [List.mem_singleton.mp h2]
        exact hinv1

theorem update_inv : ∀ (fuel : Nat) (selfP newP : Pattern),
    SupersetInv selfP → SupersetInv newP → handsIncl newP.hands selfP.hands = true →
    (Pattern.update fuel selfP newP).hands = selfP.hands ∧
    SupersetInv (Pattern.update fuel selfP newP) := by
  intro fuel
  induction fuel with
  | zero =>
    intro selfP newP hs hn hincl
    exact ⟨rfl, hs⟩
  | succ fl ih =>
    intro selfP newP hs hn hincl
    rcases hfr : findRelated newP selfP.children 0 with _ | ⟨i, tag⟩
    · simp only [Pattern.update, hfr]
      constructor
      · rw [withChildren_hands]
      · apply supersetInv_mk'
        · rw [withChildren_children, withChildren_hands]
          intro c hm
          rcases List.mem_append.mp hm with h2 | h2
          · exact (supersetInv_parts hs).1 c h2
          · rw [List.mem_singleton.mp h2]
            exact hincl
        · rw [withChildren_children]
          intro c hm
          rcases List.mem_append.mp hm with h2 | h2
          · exact (supersetInv_parts hs).2 c h2
          · rw [List.mem_singleton.mp h2]
            exact hn
    · obtain ⟨-, hlt, hrel⟩ := findRelated_spec newP selfP.children 0 i tag hfr
      rw [Nat.sub_zero] at hlt hrel
      have hchild := (supersetInv_parts hs).1 (selfP.children.getD i default)
        (getD_mem selfP.children i default hlt)
      have hchildInv := (supersetInv_parts hs).2 (selfP.children.getD i default)
        (getD_mem selfP.children i default hlt)
      rcases tag with _ | (_ | n)
      · simp only [Pattern.update, hfr]
        obtain ⟨hubh, hubi⟩ :=
          ubNode_inv fl (selfP.children.getD i default) newP.bounds hchildInv
        constructor
        · rw [withChildren_hands]
        · apply supersetInv_mk'
          · rw [withChildren_children, withChildren_hands]
            intro c hm
            rcases List.mem_or_eq_of_mem_set hm with h4 | h4
            · exact (supersetInv_parts hs).1 c h4
            · subst h4
              rw [hubh]
              exact hchild
          · rw [withChildren_children]
            intro c hm
            rcases List.mem_or_eq_of_mem_set hm with h4 | h4
            · exact (supersetInv_parts hs).2 c h4
            · subst h4
              exact hubi
      · have hsub1 : newP.isSubsetOf (selfP.children.getD i default) = true := by
          rcases hrel with ⟨h01, -⟩ | ⟨-, hr⟩ | ⟨h21, -⟩
          · exact absurd h01 (by omega)
          · exact hr
          · exact absurd h21 (by omega)
        simp only [Pattern.update, hfr]
        by_cases hc :
            (!(newP.bounds.intersect (selfP.children.getD i default).bounds).isEmpty &&
             !(newP.bounds.intersect (selfP.children.getD i default).bounds ==
               (selfP.children.getD i default).bounds)) = true
        · rw [if_pos hc]
          have hupd := ih (selfP.children.getD i default)
            (newP.withBounds (newP.bounds.intersect (selfP.children.getD i default).bounds))
            hchildInv (supersetInv_withBounds hn _)
            (by
              rw [withBounds_hands]
              rw [isSubsetOf_eq] at hsub1
              exact hsub1)
          constructor
          · rw [withChildren_hands]
          · apply supersetInv_mk'
            · rw [withChildren_children, withChildren_hands]
              intro c hm
              rcases List.mem_or_eq_of_mem_set hm with h4 | h4
              · exact (supersetInv_parts hs).1 c h4
              · subst h4
                rw [hupd.1]
                exact hchild
            · rw [withChildren_children]
              intro c hm
              rcases List.mem_or_eq_of_mem_set hm with h4 | h4
              · exact (supersetInv_parts hs).2 c h4
              · subst h4
                exact hupd.2
        · rw [if_neg hc]
          exact ⟨rfl, hs⟩
      · have hsub2 : (selfP.children.getD i default).isSubsetOf newP = true := by
          rcases hrel with ⟨h01, -⟩ | ⟨h11, -⟩ | ⟨-, hr⟩
          · exact absurd h01 (by omega)
          · exact absurd h11 (by omega)
          · exact hr
        simp only [Pattern.update, hfr]
        obtain ⟨hubh, hubi⟩ :=
          ubNode_inv fl (selfP.children.getD i default) newP.bounds hchildInv
        have hc2n : handsIncl (ubNode fl (selfP.children.getD i default) newP.bounds).hands
            newP.hands = true := by
          rw [hubh]
          rw [isSubsetOf_eq] at hsub2
          exact hsub2
        have hmem2 : ∀ c ∈ swapRemove
            (selfP.children.set i (ubNode fl (selfP.children.getD i default) newP.bounds)) i,
            handsIncl c.hands selfP.hands = true ∧ SupersetInv c := by
          intro c hm
          have h3 := swapRemove_subset _ _ c hm
          rcases List.mem_or_eq_of_mem_set h3 with h4 | h4
          · exact ⟨(supersetInv_parts hs).1 c h4, (supersetInv_parts hs).2 c h4⟩
          · subst h4
            refine ⟨?_, hubi⟩
            rw [hubh]
            exact hchild
        by_cases hb :
            (!((ubNode fl (selfP.children.getD i default) newP.bounds).bounds ==
               newP.bounds)) = true
        · rw [if_pos hb]
          apply update_absorb_step
          · apply supersetInv_mk'
            · rw [withChildren_children, withChildren_hands]
              intro c hm
              rcases List.mem_append.mp hm with h2 | h2
              · exact (supersetInv_parts hn).1 c h2
              · rw [List.mem_singleton.mp h2]
                exact hc2n
            · rw [withChildren_children]
              intro c hm
              rcases List.mem_append.mp hm with h2 | h2
              · exact (supersetInv_parts hn).2 c h2
              · rw [List.mem_singleton.mp h2]
                exact hubi
          · rw [withChildren_hands]
            exact hincl
          · exact hmem2
        · rw [if_neg hb]
          apply update_absorb_step
          · apply supersetInv_mk'
            · rw [withChildren_children, withChildren_hands]
              intro c hm
              rcases List.mem_append.mp hm with h2 | h2
              · exact (supersetInv_parts hn).1 c h2
              · exact handsIncl_trans ((supersetInv_parts hubi).1 c h2) hc2n
            · rw [withChildren_children]
              intro c hm
              rcases List.mem_append.mp hm with h2 | h2
              · exact (supersetInv_parts hn).2 c h2
              · exact (supersetInv_parts hubi).2 c h2
          · rw [withChildren_hands]
            exact hincl
          · exact hmem2

theorem reachable_inv : ∀ t : Pattern, ReachableP t → SupersetInv t ∧ t.hands = Hands.empty := by
  intro t h
  induction h with
  | root =>
    refine ⟨.node _ _ _ ?_ ?_, rfl⟩ <;> simp
  | step t fuel hh b ht iht =>
    obtain ⟨hinv, hemp⟩ := iht
    have hupd := update_inv fuel t (Pattern.new hh b) hinv (supersetInv_new hh b)
      (by
        rw [hemp]
        exact handsIncl_empty _)
    exact ⟨hupd.2, by rw [hupd.1, hemp]⟩

/-- C4, counterexample: inserting a childless pattern with one West card and
bounds `(0, 13)` into the empty root produces a reachable tree whose child's
hands are NOT a subset of the parent's (the parent's hands are empty), and
whose child's bounds equal the parent's bounds rather than being strictly
tighter. -/
theorem pattern_claim_counterexample :
    ∃ t : Pattern, ReachableP t ∧ ∃ c ∈ t.children,
      handsIncl t.hands c.hands = false ∧ c.bounds = t.bounds := by
  refine ⟨Pattern.update 1 (.mk Hands.empty ⟨0, 13⟩ [])
      (Pattern.new ⟨⟨1⟩, ⟨0⟩, ⟨0⟩, ⟨0⟩⟩ ⟨0, 13⟩),
    ReachableP.step _ 1 _ _ ReachableP.root,
    Pattern.new ⟨⟨1⟩, ⟨0⟩, ⟨0⟩, ⟨0⟩⟩ ⟨0, 13⟩, ?_, ?_, rfl⟩
  · have hch : (Pattern.update 1 (.mk Hands.empty ⟨0, 13⟩ [])
        (Pattern.new ⟨⟨1⟩, ⟨0⟩, ⟨0⟩, ⟨0⟩⟩ ⟨0, 13⟩)).children =
        [Pattern.new ⟨⟨1⟩, ⟨0⟩, ⟨0⟩, ⟨0⟩⟩ ⟨0, 13⟩] := rfl
    rw [hch]
    exact List.mem_singleton.mpr rfl
  · rfl

/-- C4 (amended): in every pattern tree reachable from the empty root by
`Pattern::update` calls with freshly constructed patterns, each child's hands
are a SUPERSET of its parent's hands (each seat's hand in the parent is
included in the corresponding seat's hand in the child — the code's
`is_subset_of(new, child)` reads "new's hands include child's"), recursively
at every level.  The bounds relation claimed by the spec does not hold: child
bounds need not be strictly tighter than the parent's. -/
theorem pattern_child_superset_amended (t : Pattern) (ht : ReachableP t) : SupersetInv t :=
  (reachable_inv t ht).1

/-- C4, witness: a concrete reachable two-node tree satisfies the superset
invariant. -/
theorem pattern_child_superset_witness :
    SupersetInv (Pattern.update 2 (.mk Hands.empty ⟨0, 13⟩ [])
      (Pattern.new ⟨⟨1⟩, ⟨2⟩, ⟨4⟩, ⟨8⟩⟩ ⟨2, 5⟩)) :=
  pattern_child_superset_amended _ (ReachableP.step _ 2 _ _ ReachableP.root)

/-! ### C5 : rank-skip refinement -/

theorem maxHandSize_ones (h : Hands)
    (h0 : (h.hand WEST).size = 1) (h1 : (h.hand NORTH).size = 1)
    (h2 : (h.hand EAST).size = 1) (h3 : (h.hand SOUTH).size = 1) :
    maxHandSize h = 1 := by
  have h0' : (h.hand 0).size = 1 := h0
  have h1' : (h.hand 1).size = 1 := h1
  have h2' : (h.hand 2).size = 1 := h2
  have h3' : (h.hand 3).size = 1 := h3
  unfold maxHandSize
  have hr : List.range NUM_SEATS = [0, 1, 2, 3] := rfl
  rw [hr]
  simp only [List.map, List.foldl]
  rw [h0', h1', h2', h3']
  decide

theorem nwpt_play_zero (h : Hands) (t l : Nat) (cc : CutoffCacheS) (pc : PatternCacheS)
    (f : Flags) (n : Nat) :
    (newWithPartialTrick h t l cc pc none f n).play 0 =
      { PlayState.init with seatToPlay := l } := rfl

theorem search_one_trick (fuel : Nat) (st : SearchState)
    (hp0 : (st.play 0).nsTricksWon = 0) (hnum : st.numTricks = 1) :
    searchWithCache (fuel + 1) 0 1 st = (collectLastTrick st 0, st) := by
  simp only [searchWithCache]
  norm_num [hp0, hnum]

theorem mtdfLoop_succ {σ : Type} (f : σ → Int → Int × σ) (fuel : Nat) (st : σ)
    (lower upper g : Int) :
    mtdfLoop f (fuel + 1) st lower upper g =
      if lower < upper then
        (if (f st (if g = lower then g + 1 else g)).1 < (if g = lower then g + 1 else g) then
          mtdfLoop f fuel (f st (if g = lower then g + 1 else g)).2 lower
            (f st (if g = lower then g + 1 else g)).1 (f st (if g = lower then g + 1 else g)).1
        else
          mtdfLoop f fuel (f st (if g = lower then g + 1 else g)).2
            (f st (if g = lower then g + 1 else g)).1 upper
            (f st (if g = lower then g + 1 else g)).1)
      else (lower, st) := rfl

theorem mtdfLoop_one_trick {σ : Type} (f : σ → Int → Int × σ) (s : σ) (g : Int)
    (hg : g = 0 ∨ g = 1) (v : Int) (s1 : σ) (hf : f s 1 = (v, s1)) (hv : v = 0 ∨ v = 1) :
    mtdfLoop f MTDF_FUEL s 0 1 g = (v, s1) := by
  have hbeta : (if g = 0 then g + 1 else g) = 1 := by
    rcases hg with rfl | rfl <;> norm_num
  have h1 : mtdfLoop f MTDF_FUEL s 0 1 g =
      if (f s 1).1 < 1 then mtdfLoop f 31 (f s 1).2 0 (f s 1).1 (f s 1).1
      else mtdfLoop f 31 (f s 1).2 (f s 1).1 1 (f s 1).1 := by
    show mtdfLoop f (31 + 1) s 0 1 g = _
    rw [mtdfLoop_succ, if_pos (by norm_num : (0 : Int) < 1), hbeta]
  rw [h1, hf]
  rcases hv with rfl | rfl
  · rw [if_pos (by norm_num : (((0 : Int), s1) : Int × σ).1 < 1)]
    show mtdfLoop f (30 + 1) s1 0 0 0 = ((0 : Int), s1)
    rw [mtdfLoop_succ, if_neg (lt_irrefl (0 : Int))]
  · rw [if_neg (by norm_num : ¬(((1 : Int), s1) : Int × σ).1 < 1)]
    show mtdfLoop f (30 + 1) s1 1 1 1 = ((1 : Int), s1)
    rw [mtdfLoop_succ, if_neg (lt_irrefl (1 : Int))]

theorem collectLastTrick_zero_one (st : SearchState)
    (hp0 : (st.play 0).nsTricksWon = 0) :
    (collectLastTrick st 0).nsTricks = 0 ∨ (collectLastTrick st 0).nsTricks = 1 := by
  unfold collectLastTrick
  simp only [hp0]
  split
  · right
    rfl
  · left
    rfl

theorem collectLastTrick_fields (st st' : SearchState) (d : Nat)
    (hh : st.hands = st'.hands) (ht : st.trump = st'.trump) (hp : st.plays = st'.plays) :
    collectLastTrick st d = collectLastTrick st' d := by
  unfold collectLastTrick SearchState.play
  rw [hh, ht, hp]

theorem guessTricks_one (sol : Solver) (hnum : sol.numTricks = 1) :
    guessTricks sol = 0 ∨ guessTricks sol = 1 := by
  unfold guessTricks
  rw [hnum]
  dsimp only
  split
  · split
    · left
      rfl
    · split
      · right
        rfl
      · right
        rfl
  · split
    · left
      rfl
    · right
      rfl

theorem solve_one_trick_eq (f : Flags) (h : Hands) (trump leader : Nat)
    (cc : CutoffCacheS) (pc : PatternCacheS)
    (h0 : (h.hand WEST).size = 1) (h1 : (h.hand NORTH).size = 1)
    (h2 : (h.hand EAST).size = 1) (h3 : (h.hand SOUTH).size = 1) :
    Solver.solveWithCaches f (Solver.new h trump leader) cc pc =
      ((collectLastTrick (newWithPartialTrick h trump leader cc pc none f 0) 0).nsTricks,
       ⟨h, cc, pc, 0⟩) := by
  have hmax : maxHandSize h = 1 := maxHandSize_ones h h0 h1 h2 h3
  have hnum : (Solver.new h trump leader).numTricks = 1 := h0
  have hst0num : (newWithPartialTrick h trump leader cc pc none f 0).numTricks = 1 := by
    show maxHandSize h = 1
    exact hmax
  have hsp0 : (newWithPartialTrick h trump leader cc pc none f 0).play 0 =
      { PlayState.init with seatToPlay := leader } := nwpt_play_zero h trump leader cc pc f 0
  have hsw : searchWithCache SEARCH_FUEL 0 1 (newWithPartialTrick h trump leader cc pc none f 0) =
      (collectLastTrick (newWithPartialTrick h trump leader cc pc none f 0) 0,
       newWithPartialTrick h trump leader cc pc none f 0) :=
    search_one_trick 63 _ (by rw [hsp0]; rfl) hst0num
  have hrun : searchRun (newWithPartialTrick h trump leader cc pc none f 0) 1 =
      ((collectLastTrick (newWithPartialTrick h trump leader cc pc none f 0) 0).nsTricks,
       newWithPartialTrick h trump leader cc pc none f 0) := by
    unfold searchRun
    have hsd : (newWithPartialTrick h trump leader cc pc none f 0).startDepth = 0 := rfl
    dsimp only
    rw [hsd, hsw]
  have horacle : solveOracle (Solver.new h trump leader) none f ⟨h, cc, pc, 0⟩ 1 =
      (((collectLastTrick (newWithPartialTrick h trump leader cc pc none f 0) 0).nsTricks : Int),
       ⟨h, cc, pc, 0⟩) := by
    unfold solveOracle
    dsimp only [Solver.new]
    rw [hrun]
    rfl
  have hct := collectLastTrick_zero_one (newWithPartialTrick h trump leader cc pc none f 0)
    (by rw [hsp0]; rfl)
  have hg01 : (((guessTricks (Solver.new h trump leader) : Nat) : Int) = 0 ∨
      ((guessTricks (Solver.new h trump leader) : Nat) : Int) = 1) := by
    rcases guessTricks_one (Solver.new h trump leader) hnum with hc | hc <;> rw [hc]
    · left
      rfl
    · right
      rfl
  have hv01 : (((collectLastTrick (newWithPartialTrick h trump leader cc pc none f 0)
      0).nsTricks : Int) = 0 ∨
      ((collectLastTrick (newWithPartialTrick h trump leader cc pc none f 0)
      0).nsTricks : Int) = 1) := by
    rcases hct with hc | hc <;> rw [hc]
    · left
      rfl
    · right
      rfl
  have hloop := mtdfLoop_one_trick (solveOracle (Solver.new h trump leader) none f)
    ⟨h, cc, pc, 0⟩ ((guessTricks (Solver.new h trump leader) : Nat) : Int) hg01 _ _ horacle hv01
  have hhands : (Solver.new h trump leader).hands = h := rfl
  unfold Solver.solveWithCaches Solver.solveWithCachesAndPartial
  dsimp only
  rw [hnum, Nat.cast_one, hhands, hloop, Int.toNat_natCast]

/-- C5, counterexample: on the one-card deal (W ♠4, N ♠A, E ♠K, S ♥A — bits
11, 0, 1, 12), solving at notrump with the rank-skip optimization disabled
and enabled gives the same trick count AND the same node count (both zero):
the disabled search does not explore strictly more nodes. -/
theorem rank_skip_claim_counterexample :
    ¬ (∀ (h : Hands) (trump leader : Nat) (cc : CutoffCacheS) (pc : PatternCacheS),
        (Solver.solveWithCaches ⟨false, false, true⟩ (Solver.new h trump leader) cc pc).1 =
          (Solver.solveWithCaches Flags.off (Solver.new h trump leader) cc pc).1 ∧
        (Solver.solveWithCaches Flags.off (Solver.new h trump leader) cc pc).2.nodeCount <
          (Solver.solveWithCaches ⟨false, false, true⟩
            (Solver.new h trump leader) cc pc).2.nodeCount) := by
  intro hall
  exact absurd (hall ⟨⟨2 ^ 11⟩, ⟨1⟩, ⟨2⟩, ⟨2 ^ 12⟩⟩ NOTRUMP WEST (CutoffCacheS.new 1)
    (PatternCacheS.new 1)) (by decide)

/-- C5 (amended): disabling the rank-skip optimization leaves the NS trick
count unchanged, but the node count is NOT strictly greater in general: on
every deal where each seat holds exactly one card, both settings return
identical trick counts and explore exactly zero nodes, for arbitrary input
caches. -/
theorem rank_skip_amended (h : Hands) (trump leader : Nat)
    (cc : CutoffCacheS) (pc : PatternCacheS)
    (h0 : (h.hand WEST).size = 1) (h1 : (h.hand NORTH).size = 1)
    (h2 : (h.hand EAST).size = 1) (h3 : (h.hand SOUTH).size = 1) :
    (Solver.solveWithCaches ⟨false, false, true⟩ (Solver.new h trump leader) cc pc).1 =
      (Solver.solveWithCaches Flags.off (Solver.new h trump leader) cc pc).1 ∧
    (Solver.solveWithCaches ⟨false, false, true⟩ (Solver.new h trump leader) cc pc).2.nodeCount =
      (Solver.solveWithCaches Flags.off (Solver.new h trump leader) cc pc).2.nodeCount ∧
    (Solver.solveWithCaches Flags.off (Solver.new h trump leader) cc pc).2.nodeCount = 0 := by
  have hrs := solve_one_trick_eq ⟨false, false, true⟩ h trump leader cc pc h0 h1 h2 h3
  have hoff := solve_one_trick_eq Flags.off h trump leader cc pc h0 h1 h2 h3
  have hclt : collectLastTrick
      (newWithPartialTrick h trump leader cc pc none ⟨false, false, true⟩ 0) 0 =
      collectLastTrick (newWithPartialTrick h trump leader cc pc none Flags.off 0) 0 :=
    collectLastTrick_fields _ _ 0 rfl rfl rfl
  rw [hrs, hoff, hclt]
  exact ⟨rfl, rfl, rfl⟩

/-- C5, witness: the amended theorem applied to the concrete one-card deal. -/
theorem rank_skip_amended_witness :
    (Solver.solveWithCaches ⟨false, false, true⟩
        (Solver.new ⟨⟨2 ^ 11⟩, ⟨1⟩, ⟨2⟩, ⟨2 ^ 12⟩⟩ NOTRUMP WEST)
        (CutoffCacheS.new 1) (PatternCacheS.new 1)).1 =
      (Solver.solveWithCaches Flags.off
        (Solver.new ⟨⟨2 ^ 11⟩, ⟨1⟩, ⟨2⟩, ⟨2 ^ 12⟩⟩ NOTRUMP WEST)
        (CutoffCacheS.new 1) (PatternCacheS.new 1)).1 ∧
    (Solver.solveWithCaches ⟨false, false, true⟩
        (Solver.new ⟨⟨2 ^ 11⟩, ⟨1⟩, ⟨2⟩, ⟨2 ^ 12⟩⟩ NOTRUMP WEST)
        (CutoffCacheS.new 1) (PatternCacheS.new 1)).2.nodeCount =
      (Solver.solveWithCaches Flags.off
        (Solver.new ⟨⟨2 ^ 11⟩, ⟨1⟩, ⟨2⟩, ⟨2 ^ 12⟩⟩ NOTRUMP WEST)
        (CutoffCacheS.new 1) (PatternCacheS.new 1)).2.nodeCount ∧
    (Solver.solveWithCaches Flags.off
        (Solver.new ⟨⟨2 ^ 11⟩, ⟨1⟩, ⟨2⟩, ⟨2 ^ 12⟩⟩ NOTRUMP WEST)
        (CutoffCacheS.new 1) (PatternCacheS.new 1)).2.nodeCount = 0 :=
  rank_skip_amended ⟨⟨2 ^ 11⟩, ⟨1⟩, ⟨2⟩, ⟨2 ^ 12⟩⟩ NOTRUMP WEST
    (CutoffCacheS.new 1) (PatternCacheS.new 1) (by decide) (by decide) (by decide) (by decide)

set_option maxRecDepth 100000 in
/-- C1: the result of `Solver::solve_with_caches` is NOT independent of prior
cache contents — the pattern-cache key hashes only the shape and the seat to
play, omitting the trump denomination, so entries stored by a solve at one
denomination are served to a solve at another.  On the two-trick deal
W ♠A ♠K, N ♥2 ♦2, E ♠4 ♠3, S ♥3 ♦3 (bits 0,1 / 25,38 / 10,11 / 24,37), the
notrump solve with fresh caches yields 0 NS tricks, but the same notrump
solve run with the caches left behind by a hearts solve of the same deal
yields 2: the spec's determinism property fails on the code. -/
theorem cache_determinism_code_bug :
    ¬ (∀ (h : Hands) (trump leader : Nat) (cc cc' : CutoffCacheS) (pc pc' : PatternCacheS),
        (Solver.solveWithCaches Flags.off (Solver.new h trump leader) cc pc).1 =
          (Solver.solveWithCaches Flags.off (Solver.new h trump leader) cc' pc').1) := by
  intro hall
  exact absurd (hall ⟨⟨3⟩, ⟨2 ^ 25 + 2 ^ 38⟩, ⟨2 ^ 10 + 2 ^ 11⟩, ⟨2 ^ 24 + 2 ^ 37⟩⟩ NOTRUMP WEST
    (CutoffCacheS.new 1)
    ((Solver.solveWithCaches Flags.off
        (Solver.new ⟨⟨3⟩, ⟨2 ^ 25 + 2 ^ 38⟩, ⟨2 ^ 10 + 2 ^ 11⟩, ⟨2 ^ 24 + 2 ^ 37⟩⟩ HEART WEST)
        (CutoffCacheS.new 1) (PatternCacheS.new 1)).2.cutoff)
    (PatternCacheS.new 1)
    ((Solver.solveWithCaches Flags.off
        (Solver.new ⟨⟨3⟩, ⟨2 ^ 25 + 2 ^ 38⟩, ⟨2 ^ 10 + 2 ^ 11⟩, ⟨2 ^ 24 + 2 ^ 37⟩⟩ HEART WEST)
        (CutoffCacheS.new 1) (PatternCacheS.new 1)).2.pattern)) (by decide)

/-! ### C3 : the search restores the hands on every return path -/

/-- The `u64` range invariant on the four hand bitboards. -/
def handsBounded (h : Hands) : Prop :=
  h.w.bits < 2 ^ 64 ∧ h.n.bits < 2 ^ 64 ∧ h.e.bits < 2 ^ 64 ∧ h.s.bits < 2 ^ 64

theorem hand_bits_lt {h : Hands} (hb : handsBounded h) (s : Nat) :
    (h.hand s).bits < 2 ^ 64 := by
  rcases s with _ | _ | _ | _ | m
  · exact hb.1
  · exact hb.2.1
  · exact hb.2.2.1
  · exact hb.2.2.2
  · show (0 : Nat) < 2 ^ 64
    norm_num

theorem setHand_bounded {h : Hands} (hb : handsBounded h) {v : Cards}
    (hv : v.bits < 2 ^ 64) (s : Nat) : handsBounded (h.setHand s v) := by
  rcases s with _ | _ | _ | _ | m
  · exact ⟨hv, hb.2.1, hb.2.2.1, hb.2.2.2⟩
  · exact ⟨hb.1, hv, hb.2.2.1, hb.2.2.2⟩
  · exact ⟨hb.1, hb.2.1, hv, hb.2.2.2⟩
  · exact ⟨hb.1, hb.2.1, hb.2.2.1, hv⟩
  · exact hb

theorem hand_setHand_eq (h : Hands) (v : Cards) (s : Nat) (hs : s < 4) :
    (h.setHand s v).hand s = v := by
  rcases s with _ | _ | _ | _ | m
  · rfl
  · rfl
  · rfl
  · rfl
  · omega

theorem setHand_setHand (h : Hands) (v w : Cards) (s : Nat) :
    (h.setHand s v).setHand s w = h.setHand s w := by
  rcases s with _ | _ | _ | _ | m <;> rfl

theorem setHand_self (h : Hands) (s : Nat) : h.setHand s (h.hand s) = h := by
  rcases s with _ | _ | _ | _ | m <;> rfl

theorem setHand_ge (h : Hands) (v : Cards) (s : Nat) (hs : 4 ≤ s) : h.setHand s v = h := by
  rcases s with _ | _ | _ | _ | m
  · omega
  · omega
  · omega
  · omega
  · rfl

theorem hand_ge (h : Hands) (s : Nat) (hs : 4 ≤ s) : h.hand s = ⟨0⟩ := by
  rcases s with _ | _ | _ | _ | m
  · omega
  · omega
  · omega
  · omega
  · rfl

theorem hasCard_mk_and {a m k : Nat} (h : Cards.hasCard ⟨a &&& m⟩ k = true) :
    Cards.hasCard ⟨a⟩ k = true := by
  rw [hasCard_eq_testBit] at h ⊢
  rw [show Cards.bits ⟨a &&& m⟩ = a &&& m from rfl, Nat.testBit_and, Bool.and_eq_true] at h
  exact h.1

theorem hasCard_mk_or {a b k : Nat} (h : Cards.hasCard ⟨a ||| b⟩ k = true) :
    Cards.hasCard ⟨a⟩ k = true ∨ Cards.hasCard ⟨b⟩ k = true := by
  rw [hasCard_eq_testBit] at h
  rw [hasCard_eq_testBit, hasCard_eq_testBit]
  rw [show Cards.bits ⟨a ||| b⟩ = a ||| b from rfl, Nat.testBit_or, Bool.or_eq_true] at h
  exact h

theorem hasCard_shift {c k : Nat} (h : Cards.hasCard ⟨1 <<< c⟩ k = true) : k = c := by
  rw [hasCard_eq_testBit, show Cards.bits ⟨1 <<< c⟩ = 1 <<< c from rfl,
    Nat.one_shiftLeft] at h
  by_contra hne
  rw [Nat.testBit_two_pow_of_ne (fun hcc => hne hcc.symm)] at h
  exact absurd h (by simp)

theorem card_lt64 {x : Cards} {c : Nat} (hb : x.bits < 2 ^ 64) (h : x.hasCard c = true) :
    c < 64 := by
  rw [hasCard_eq_testBit] at h
  have h2 := Nat.testBit_implies_ge h
  by_contra hge
  have h3 : (2 : Nat) ^ 64 ≤ 2 ^ c := Nat.pow_le_pow_right (by norm_num) (by omega)
  omega

theorem sub_suit (x : Cards) (s : Nat) {k : Nat} (h : (x.suit s).hasCard k = true) :
    x.hasCard k = true := hasCard_mk_and h

theorem sub_slice (x : Cards) (b e : Nat) {k : Nat} (h : (x.slice b e).hasCard k = true) :
    x.hasCard k = true := hasCard_mk_and h

theorem sub_different (x y : Cards) {k : Nat} (h : (x.different y).hasCard k = true) :
    x.hasCard k = true := hasCard_mk_and h

theorem sub_removeCards (x y : Cards) {k : Nat} (h : (x.removeCards y).hasCard k = true) :
    x.hasCard k = true := hasCard_mk_and h

theorem sub_remove (x : Cards) (c : Nat) {k : Nat} (h : (x.remove c).hasCard k = true) :
    x.hasCard k = true := hasCard_mk_and h

theorem sub_intersect (x y : Cards) {k : Nat} (h : (x.intersect y).hasCard k = true) :
    x.hasCard k = true := hasCard_mk_and h

theorem add_cases (x : Cards) (c : Nat) {k : Nat} (h : (x.add c).hasCard k = true) :
    x.hasCard k = true ∨ k = c := by
  rcases hasCard_mk_or h with h2 | h2
  · exact Or.inl h2
  · exact Or.inr (hasCard_shift h2)

theorem union_cases (x y : Cards) {k : Nat} (h : (x.union y).hasCard k = true) :
    x.hasCard k = true ∨ y.hasCard k = true := hasCard_mk_or h

theorem addCards_cases (x y : Cards) {k : Nat} (h : (x.addCards y).hasCard k = true) :
    x.hasCard k = true ∨ y.hasCard k = true := hasCard_mk_or h

theorem suit_bits_le (x : Cards) (s : Nat) : (x.suit s).bits ≤ x.bits := Nat.and_le_left

theorem remove_bits_le (x : Cards) (c : Nat) : (x.remove c).bits ≤ x.bits := Nat.and_le_left

theorem different_bits_le (x y : Cards) : (x.different y).bits ≤ x.bits := Nat.and_le_left

theorem removeCards_bits_le (x y : Cards) : (x.removeCards y).bits ≤ x.bits := Nat.and_le_left

theorem slice_bits_le (x : Cards) (b e : Nat) : (x.slice b e).bits ≤ x.bits := Nat.and_le_left

theorem add_bits_lt {x : Cards} {c : Nat} (hb : x.bits < 2 ^ 64) (hc : c < 64) :
    (x.add c).bits < 2 ^ 64 := by
  show x.bits ||| 1 <<< c < 2 ^ 64
  apply Nat.or_lt_two_pow hb
  rw [Nat.one_shiftLeft]
  exact Nat.pow_lt_pow_right (by norm_num) hc

theorem remove_add_cancel {x : Cards} {c : Nat} (hb : x.bits < 2 ^ 64)
    (h : x.hasCard c = true) : (x.remove c).add c = x := by
  have hc : c < 64 := card_lt64 hb h
  rw [hasCard_eq_testBit] at h
  show (⟨(x.bits &&& (mask64 ^^^ 1 <<< c)) ||| 1 <<< c⟩ : Cards) = x
  obtain ⟨bits⟩ := x
  congr 1
  apply Nat.eq_of_testBit_eq
  intro j
  rw [Nat.testBit_or, Nat.testBit_and, Nat.testBit_xor, Nat.one_shiftLeft]
  have hm : mask64 = 2 ^ 64 - 1 := rfl
  by_cases hj : j < 64
  · rw [hm, Nat.testBit_two_pow_sub_one]
    rw [decide_eq_true hj]
    simp only [Bool.true_and]
    by_cases hjc : j = c
    · subst hjc
      rw [Nat.testBit_two_pow_self]
      simpa using h
    · rw [Nat.testBit_two_pow_of_ne (fun hcc => hjc hcc.symm)]
      simp
  · have h1 : bits.testBit j = false :=
      Nat.testBit_lt_two_pow (lt_of_lt_of_le hb (Nat.pow_le_pow_right (by norm_num) (by omega)))
    have h2 : ((2 : Nat) ^ c).testBit j = false :=
      Nat.testBit_two_pow_of_ne (by omega)
    rw [h1, h2]
    simp

theorem top_mem (x : Cards) (hne : x.isEmpty = false) (hb : x.bits < 2 ^ 64) :
    x.hasCard x.top = true := by
  have hne' : x.bits ≠ 0 := by
    have := hne
    unfold Cards.isEmpty at this
    simpa using this
  rw [hasCard_eq_testBit]
  exact (ctzAux_spec 64 x.bits hne' hb).1

theorem bottom_mem (x : Cards) (hne : x.isEmpty = false) (hb : x.bits < 2 ^ 64) :
    x.hasCard x.bottom = true := by
  have hne' : x.bits ≠ 0 := by
    have := hne
    unfold Cards.isEmpty at this
    simpa using this
  obtain ⟨h1, h2, h3, -⟩ := bitlenAux_spec 64 x.bits hne' hb
  rw [hasCard_eq_testBit]
  have hbtm : x.bottom = bitlenAux 64 x.bits - 1 := by
    show 63 - leadingZeros64 x.bits = _
    unfold leadingZeros64
    omega
  rw [hbtm]
  exact h3

theorem toListAux_mem : ∀ (fuel bits k : Nat), k ∈ Cards.toListAux fuel bits →
    bits < 2 ^ 64 → Cards.hasCard ⟨bits⟩ k = true := by
  intro fuel
  induction fuel with
  | zero =>
    intro bits k hk hb
    simp [Cards.toListAux] at hk
  | succ f ih =>
    intro bits k hk hb
    simp only [Cards.toListAux] at hk
    by_cases h0 : bits = 0
    · rw [if_pos h0] at hk
      simp at hk
    · rw [if_neg h0] at hk
      rcases List.mem_cons.mp hk with h2 | h2
      · subst h2
        exact top_mem ⟨bits⟩ (by simpa [Cards.isEmpty] using h0) hb
      · have h3 := ih (bits &&& (bits - 1)) k h2
          (lt_of_le_of_lt Nat.and_le_left hb)
        exact hasCard_mk_and h3

theorem toList_mem (x : Cards) {k : Nat} (hk : k ∈ x.toList) (hb : x.bits < 2 ^ 64) :
    x.hasCard k = true := by
  have := toListAux_mem 64 x.bits k hk hb
  obtain ⟨bits⟩ := x
  exact this

theorem toListRevAux_mem : ∀ (fuel bits k : Nat), k ∈ toListRevAux fuel bits →
    bits < 2 ^ 64 → Cards.hasCard ⟨bits⟩ k = true := by
  intro fuel
  induction fuel with
  | zero =>
    intro bits k hk hb
    simp [toListRevAux] at hk
  | succ f ih =>
    intro bits k hk hb
    simp only [toListRevAux] at hk
    by_cases h0 : bits = 0
    · rw [if_pos h0] at hk
      simp at hk
    · rw [if_neg h0] at hk
      rcases List.mem_cons.mp hk with h2 | h2
      · subst h2
        exact bottom_mem ⟨bits⟩ (by simpa [Cards.isEmpty] using h0) hb
      · have h3 := ih (Cards.remove ⟨bits⟩ (Cards.bottom ⟨bits⟩)).bits k h2
          (lt_of_le_of_lt (remove_bits_le _ _) hb)
        exact hasCard_mk_and h3

theorem toListRev_mem (x : Cards) {k : Nat} (hk : k ∈ x.toListRev) (hb : x.bits < 2 ^ 64) :
    x.hasCard k = true := by
  have := toListRevAux_mem 64 x.bits k hk hb
  obtain ⟨bits⟩ := x
  exact this

theorem zero_hasCard (k : Nat) : Cards.hasCard ⟨0⟩ k = false := by
  rw [hasCard_eq_testBit]
  exact Nat.zero_testBit k

theorem insertDesc_mem (x : Nat × Nat) : ∀ (l : List (Nat × Nat)) (y : Nat × Nat),
    y ∈ insertDesc x l → y = x ∨ y ∈ l := by
  intro l
  induction l with
  | nil =>
    intro y hy
    simp [insertDesc] at hy
    exact Or.inl hy
  | cons z rest ih =>
    intro y hy
    simp only [insertDesc] at hy
    by_cases hc : x.2 ≤ z.2
    · rw [if_pos hc] at hy
      rcases List.mem_cons.mp hy with h2 | h2
      · exact Or.inr (by simp [h2])
      · rcases ih y h2 with h3 | h3
        · exact Or.inl h3
        · exact Or.inr (by simp [h3])
    · rw [if_neg hc] at hy
      rcases List.mem_cons.mp hy with h2 | h2
      · exact Or.inl h2
      · exact Or.inr h2

theorem sortDesc_fold_mem : ∀ (l acc : List (Nat × Nat)) (y : Nat × Nat),
    y ∈ l.foldl (fun acc x => insertDesc x acc) acc → y ∈ l ∨ y ∈ acc := by
  intro l
  induction l with
  | nil =>
    intro acc y hy
    exact Or.inr hy
  | cons z rest ih =>
    intro acc y hy
    simp only [List.foldl_cons] at hy
    rcases ih (insertDesc z acc) y hy with h2 | h2
    · exact Or.inl (by simp [h2])
    · rcases insertDesc_mem z acc y h2 with h3 | h3
      · exact Or.inl (by simp [h3])
      · exact Or.inr h3

theorem sortDesc_mem {l : List (Nat × Nat)} {y : Nat × Nat} (hy : y ∈ sortDesc l) :
    y ∈ l := by
  rcases sortDesc_fold_mem l [] y hy with h | h
  · exact h
  · simp at h

theorem addDiscards_fold (playable : Cards) (trump : Nat) :
    ∀ (suits : List Nat) (acc : List (Nat × Nat) × Cards),
      (∀ p ∈ acc.1, playable.hasCard p.1 = true) →
      (∀ k, acc.2.hasCard k = true → playable.hasCard k = true) →
      acc.2.bits < 2 ^ 64 →
      (let r := suits.foldl (fun (acc : List (Nat × Nat) × Cards) suit =>
        if suit = trump then acc
        else
          let suitCards := acc.2.suit suit
          if suitCards.isEmpty then acc
          else
            let bottom := suitCards.bottom
            let remainingInSuit := (acc.2.suit suit).size
            (acc.1 ++ [(bottom, remainingInSuit)], acc.2.remove bottom)) acc
       (∀ p ∈ r.1, playable.hasCard p.1 = true) ∧
       (∀ k, r.2.hasCard k = true → playable.hasCard k = true) ∧
       r.2.bits < 2 ^ 64) := by
  intro suits
  induction suits with
  | nil =>
    intro acc h1 h2 h3
    exact ⟨h1, h2, h3⟩
  | cons suit rest ih =>
    intro acc h1 h2 h3
    simp only [List.foldl_cons]
    by_cases hc : suit = trump
    · rw [if_pos hc]
      exact ih acc h1 h2 h3
    · rw [if_neg hc]
      by_cases he : (acc.2.suit suit).isEmpty = true
      · rw [if_pos he]
        exact ih acc h1 h2 h3
      · rw [if_neg he]
        apply ih
        · intro p hp
          rcases List.mem_append.mp hp with hl | hl
          · exact h1 p hl
          · rw [List.mem_singleton.mp hl]
            have hmem := bottom_mem (acc.2.suit suit)
              (by simpa using he) (lt_of_le_of_lt (suit_bits_le _ _) h3)
            exact h2 _ (sub_suit _ _ hmem)
        · intro k hk
          exact h2 k (sub_remove _ _ hk)
        · exact lt_of_le_of_lt (remove_bits_le _ _) h3

theorem addDiscards_mem (ordered : List Nat) (playable : Cards) (trump : Nat)
    (hb : playable.bits < 2 ^ 64) :
    ∀ k ∈ addDiscards ordered playable trump, k ∈ ordered ∨ playable.hasCard k = true := by
  intro k hk
  unfold addDiscards at hk
  have hfold := addDiscards_fold playable trump (List.range 4) ([], playable)
    (by simp) (fun k h => h) hb
  obtain ⟨hf1, hf2, hf3⟩ := hfold
  rcases List.mem_append.mp hk with h2 | h2
  · rcases List.mem_append.mp h2 with h3 | h3
    · exact Or.inl h3
    · rcases List.mem_map.mp h3 with ⟨p, hp, hpe⟩
      right
      rw [← hpe]
      exact hf1 p (sortDesc_mem hp)
  · exact Or.inr (hf2 k (toList_mem _ h2 hf3))

theorem playable_sub (h : Hands) (s : Nat) (ls : Option Nat) {k : Nat}
    (hk : (get_playable_cards h s ls).hasCard k = true) : (h.hand s).hasCard k = true := by
  unfold get_playable_cards at hk
  rcases ls with _ | suit
  · exact hk
  · dsimp only at hk
    by_cases hc : (!((h.hand s).suit suit).isEmpty) = true
    · rw [if_pos hc] at hk
      exact sub_suit _ _ hk
    · rw [if_neg hc] at hk
      exact hk

theorem playable_bits_lt (h : Hands) (s : Nat) (ls : Option Nat)
    (hb : (h.hand s).bits < 2 ^ 64) :
    (get_playable_cards h s ls).bits < 2 ^ 64 := by
  unfold get_playable_cards
  rcases ls with _ | suit
  · exact hb
  · dsimp only
    by_cases hc : (!((h.hand s).suit suit).isEmpty) = true
    · rw [if_pos hc]
      exact lt_of_le_of_lt (suit_bits_le _ _) hb
    · rw [if_neg hc]
      exact hb

/-- A card class accumulated by `order_leads` stays inside the playable set
and inside the `u64` range. -/
def fieldOk (playable f : Cards) : Prop :=
  f.bits < 2 ^ 64 ∧ ∀ k, f.hasCard k = true → playable.hasCard k = true

def accOk (playable : Cards) (acc : LeadAcc) : Prop :=
  fieldOk playable acc.ruff ∧ fieldOk playable acc.good ∧ fieldOk playable acc.high ∧
  fieldOk playable acc.normal ∧ fieldOk playable acc.bad ∧ fieldOk playable acc.trumpLeads

theorem fieldOk_add {playable f : Cards} {c : Nat} (hf : fieldOk playable f)
    (hc : playable.hasCard c = true) (hps : playable.bits < 2 ^ 64) :
    fieldOk playable (f.add c) := by
  refine ⟨add_bits_lt hf.1 (card_lt64 hps hc), ?_⟩
  intro k hk
  rcases add_cases f c hk with h2 | h2
  · exact hf.2 k h2
  · rw [h2]
    exact hc

theorem orderLeadsSuit_ok (playable : Cards) (hands : Hands) (seat trump : Nat)
    (allCards : Cards) (acc : LeadAcc) (suit : Nat)
    (hps : playable.bits < 2 ^ 64) (hacc : accOk playable acc) :
    accOk playable (orderLeadsSuit playable hands seat trump allCards acc suit) := by
  obtain ⟨hr, hg, hh, hn2, hbd, ht⟩ := hacc
  unfold orderLeadsSuit
  lift_lets
  extract_lets a1 a2 a3 a4 a5 mySuit a7 a8 a9 a10 a11 a12 a13 a14 a15 a16 a17 a18
    a19 a20 a21 a22 a23 a24 a25 a26 a27 a28
  have hms : mySuit = playable.suit suit := rfl
  by_cases h1 : mySuit.isEmpty = true
  · rw [if_pos h1]
    exact ⟨hr, hg, hh, hn2, hbd, ht⟩
  · rw [if_neg h1]
    have hne : mySuit.isEmpty = false := by simpa using h1
    have hsb : mySuit.bits < 2 ^ 64 := by
      rw [hms]
      exact lt_of_le_of_lt (suit_bits_le _ _) hps
    have htop : playable.hasCard mySuit.top = true := by
      have h2 := top_mem mySuit hne hsb
      rw [hms] at h2 ⊢
      exact sub_suit _ _ h2
    have hbot : playable.hasCard mySuit.bottom = true := by
      have h2 := bottom_mem mySuit hne hsb
      rw [hms] at h2 ⊢
      exact sub_suit _ _ h2
    split
    · refine ⟨hr, hg, hh, hn2, hbd, ?_⟩
      split
      · exact fieldOk_add (fieldOk_add ht htop hps) hbot hps
      · exact fieldOk_add ht htop hps
    · split
      · exact ⟨hr, hg, hh, hn2, hbd, ht⟩
      · split
        · exact ⟨hr, hg, hh, hn2, hbd, ht⟩
        · split
          · refine ⟨hr, ?_, hh, hn2, hbd, ht⟩
            split
            · exact fieldOk_add (fieldOk_add hg htop hps) hbot hps
            · exact fieldOk_add hg htop hps
          · split
            · split
              · refine ⟨hr, hg, hh, hn2, ?_, ht⟩
                split
                · exact fieldOk_add (fieldOk_add hbd htop hps) hbot hps
                · exact fieldOk_add hbd htop hps
              · exact ⟨hr, hg, hh, hn2, hbd, ht⟩
            · split
              · refine ⟨hr, hg, ?_, hn2, hbd, ht⟩
                split
                · exact fieldOk_add (fieldOk_add hh htop hps) hbot hps
                · exact fieldOk_add hh htop hps
              · split
                · exact ⟨fieldOk_add hr hbot hps, hg, hh, hn2, hbd, ht⟩
                · refine ⟨hr, hg, hh, ?_, hbd, ht⟩
                  split
                  · exact fieldOk_add (fieldOk_add hn2 htop hps) hbot hps
                  · exact fieldOk_add hn2 htop hps

theorem order_leads_fold_ok (playable : Cards) (hands : Hands) (seat trump : Nat)
    (allCards : Cards) (hps : playable.bits < 2 ^ 64) :
    ∀ (suits : List Nat) (acc : LeadAcc), accOk playable acc →
      accOk playable (suits.foldl
        (orderLeadsSuit playable hands seat trump allCards) acc) := by
  intro suits
  induction suits with
  | nil =>
    intro acc hacc
    exact hacc
  | cons s0 rest ih =>
    intro acc hacc
    simp only [List.foldl_cons]
    exact ih _ (orderLeadsSuit_ok playable hands seat trump allCards acc s0 hps hacc)

theorem fieldOk_toList_mem {playable f : Cards} (hf : fieldOk playable f) {k : Nat}
    (hk : k ∈ f.toList) : playable.hasCard k = true := hf.2 k (toList_mem f hk hf.1)

theorem fieldOk_toListRev_mem {playable f : Cards} (hf : fieldOk playable f) {k : Nat}
    (hk : k ∈ f.toListRev) : playable.hasCard k = true :=
  hf.2 k (toListRev_mem f hk hf.1)

theorem order_leads_mem (playable : Cards) (hands : Hands) (seat trump : Nat)
    (allCards : Cards) (hps : playable.bits < 2 ^ 64) :
    ∀ k ∈ order_leads playable hands seat trump allCards,
      playable.hasCard k = true := by
  intro k hk
  unfold order_leads at hk
  have hacc := order_leads_fold_ok playable hands seat trump allCards hps
    (List.range NUM_SUITS) ⟨⟨0⟩, ⟨0⟩, ⟨0⟩, ⟨0⟩, ⟨0⟩, ⟨0⟩⟩
    (by
      refine ⟨?_, ?_, ?_, ?_, ?_, ?_⟩ <;>
        exact ⟨by norm_num, fun k hk => by rw [zero_hasCard] at hk; cases hk⟩)
  set accv : LeadAcc := List.foldl (orderLeadsSuit playable hands seat trump allCards)
    ⟨⟨0⟩, ⟨0⟩, ⟨0⟩, ⟨0⟩, ⟨0⟩, ⟨0⟩⟩ (List.range NUM_SUITS) with haccv
  obtain ⟨hr, hg, hh, hn2, hbd, ht⟩ := hacc
  by_cases hsc : trump < NOTRUMP
  · simp only [if_pos hsc] at hk
    rcases List.mem_append.mp hk with h5 | h5
    · rcases List.mem_append.mp h5 with h6 | h6
      · rcases List.mem_append.mp h6 with h7 | h7
        · rcases List.mem_append.mp h7 with h8 | h8
          · rcases List.mem_append.mp h8 with h9 | h9
            · rcases List.mem_append.mp h9 with h10 | h10
              · rcases List.mem_append.mp h10 with h11 | h11
                · simp at h11
                · exact fieldOk_toList_mem hr h11
              · exact fieldOk_toList_mem hg h10
            · exact fieldOk_toList_mem hh h9
          · exact fieldOk_toList_mem hn2 h8
        · exact fieldOk_toList_mem hbd h7
      · exact fieldOk_toList_mem ht h6
    · have h6 := toList_mem _ h5 (lt_of_le_of_lt (le_trans (removeCards_bits_le _ _)
        (le_trans (removeCards_bits_le _ _) (le_trans (removeCards_bits_le _ _)
          (le_trans (removeCards_bits_le _ _) (le_trans (removeCards_bits_le _ _)
            (removeCards_bits_le _ _)))))) hps)
      exact sub_removeCards _ _ (sub_removeCards _ _ (sub_removeCards _ _
        (sub_removeCards _ _ (sub_removeCards _ _ (sub_removeCards _ _ h6)))))
  · simp only [if_neg hsc] at hk
    rcases List.mem_append.mp hk with h5 | h5
    · rcases List.mem_append.mp h5 with h6 | h6
      · rcases List.mem_append.mp h6 with h7 | h7
        · rcases List.mem_append.mp h7 with h8 | h8
          · simp at h8
          · exact fieldOk_toList_mem hg h8
        · exact fieldOk_toList_mem hh h7
      · exact fieldOk_toList_mem hn2 h6
    · have h6 := toList_mem _ h5 (lt_of_le_of_lt (le_trans (removeCards_bits_le _ _)
        (le_trans (removeCards_bits_le _ _) (removeCards_bits_le _ _))) hps)
      exact sub_removeCards _ _ (sub_removeCards _ _ (sub_removeCards _ _ h6))

theorem order_follows_mem (playable : Cards) (hands : Hands)
    (seat trump leadSuit winningSeat winningCard cardInTrick : Nat)
    (winsOver : Nat → Nat → Bool) (hps : playable.bits < 2 ^ 64) :
    ∀ k ∈ order_follows playable hands seat trump leadSuit winningSeat winningCard
      cardInTrick winsOver, playable.hasCard k = true := by
  unfold order_follows
  lift_lets
  extract_lets b1 b2 b3 b4 mySuit combined higherCards lowerCards part1 isc myTrumps
    b12 b13 higherTrumps
  have hms : mySuit = playable.suit leadSuit := rfl
  have hhc : higherCards = mySuit.slice 0 winningCard := rfl
  have hlc : lowerCards = mySuit.different higherCards := rfl
  have hpart1 : part1 = if (b3 || b2.isEmpty || higher_rank higherCards.bottom b2.top) = true
      then higherCards.toListRev else higherCards.toList := rfl
  have hmt : myTrumps = if isc then playable.suit trump else ⟨0⟩ := rfl
  have hht : higherTrumps = myTrumps.slice myTrumps.top winningCard := rfl
  have hsub : ∀ k, mySuit.hasCard k = true → playable.hasCard k = true := by
    rw [hms]
    exact fun k hk => sub_suit _ _ hk
  have hmsb : mySuit.bits < 2 ^ 64 := by
    rw [hms]
    exact lt_of_le_of_lt (suit_bits_le _ _) hps
  have hhcsub : ∀ k, higherCards.hasCard k = true → mySuit.hasCard k = true := by
    rw [hhc]
    exact fun k hk => sub_slice _ _ _ hk
  have hhcb : higherCards.bits < 2 ^ 64 := by
    rw [hhc]
    exact lt_of_le_of_lt (slice_bits_le _ _ _) hmsb
  have hmtsub : ∀ k, myTrumps.hasCard k = true → playable.hasCard k = true := by
    rw [hmt]
    split
    · exact fun k hk => sub_suit _ _ hk
    · intro k hk
      rw [zero_hasCard] at hk
      cases hk
  have hmtb : myTrumps.bits < 2 ^ 64 := by
    rw [hmt]
    split
    · exact lt_of_le_of_lt (suit_bits_le _ _) hps
    · norm_num
  by_cases h1 : (!mySuit.isEmpty) = true
  · rw [if_pos h1]
    split
    · intro k hk
      exact toListRev_mem _ hk hps
    · split
      · intro k hk
        exact toListRev_mem _ hk hps
      · split
        · intro k hk
          exact toListRev_mem _ hk hps
        · intro k hk
          rcases List.mem_append.mp hk with h2 | h2
          · have hp : higherCards.hasCard k = true := by
              revert h2
              rw [hpart1]
              split
              · intro h2
                exact toListRev_mem _ h2 hhcb
              · intro h2
                exact toList_mem _ h2 hhcb
            exact hsub _ (hhcsub _ hp)
          · have h3 := toListRev_mem _ h2
              (by
                rw [hlc]
                exact lt_of_le_of_lt (different_bits_le _ _) hmsb)
            rw [hlc] at h3
            exact hsub _ (sub_different _ _ h3)
  · rw [if_neg h1]
    by_cases h2 : (!myTrumps.isEmpty) = true
    · rw [if_pos h2]
      have hmtne : myTrumps.isEmpty = false := by simpa using h2
      split
      · intro k hk
        rcases addDiscards_mem [] playable trump hps k hk with h3 | h3
        · simp at h3
        · exact h3
      · split
        · split
          · intro k hk
            rcases addDiscards_mem higherTrumps.toListRev (playable.different higherTrumps)
              trump (lt_of_le_of_lt (different_bits_le _ _) hps) k hk with h3 | h3
            · have h4 := toListRev_mem _ h3
                (by
                  rw [hht]
                  exact lt_of_le_of_lt (slice_bits_le _ _ _) hmtb)
              rw [hht] at h4
              exact hmtsub _ (sub_slice _ _ _ h4)
            · exact sub_different _ _ h3
          · intro k hk
            rcases addDiscards_mem [] playable trump hps k hk with h3 | h3
            · simp at h3
            · exact h3
        · split
          · intro k hk
            rcases addDiscards_mem [myTrumps.bottom]
              (playable.different ⟨1 <<< myTrumps.bottom⟩) trump
              (lt_of_le_of_lt (different_bits_le _ _) hps) k hk with h3 | h3
            · rw [List.mem_singleton] at h3
              subst h3
              exact hmtsub _ (bottom_mem _ hmtne hmtb)
            · exact sub_different _ _ h3
          · intro k hk
            rcases addDiscards_mem myTrumps.toListRev (playable.different myTrumps) trump
              (lt_of_le_of_lt (different_bits_le _ _) hps) k hk with h3 | h3
            · exact hmtsub _ (toListRev_mem _ h3 hmtb)
            · exact sub_different _ _ h3
    · rw [if_neg h2]
      intro k hk
      rcases addDiscards_mem [] playable trump hps k hk with h3 | h3
      · simp at h3
      · exact h3

theorem orderCardsStatic_mem (st : SearchState) (depth : Nat) (playable : Cards)
    (hps : playable.bits < 2 ^ 64) :
    ∀ k ∈ orderCardsStatic st depth playable, playable.hasCard k = true := by
  unfold orderCardsStatic
  lift_lets
  extract_lets c1 c2 c3 c4 c5 c6 c7 c8 c9
  split
  · exact order_leads_mem playable st.hands c3 st.trump c4 hps
  · exact order_follows_mem playable st.hands c3 st.trump c5 c7 c8 c2 c9 hps

theorem getD_set_other {α : Type} (l : List α) (d i : Nat) (a dflt : α) (hne : i ≠ d) :
    (l.set d a).getD i dflt = l.getD i dflt := by
  rw [List.getD_eq_getElem?_getD, List.getD_eq_getElem?_getD,
    List.getElem?_set_ne (fun h => hne h.symm)]

theorem getD_set_seat (l : List PlayState) (d : Nat) (f : PlayState → PlayState)
    (hf : ∀ p, (f p).seatToPlay = p.seatToPlay) :
    ((l.set d (f (l.getD d PlayState.init))).getD d PlayState.init).seatToPlay =
      (l.getD d PlayState.init).seatToPlay := by
  by_cases hd : d < l.length
  · rw [List.getD_eq_getElem?_getD, List.getElem?_set_self hd, Option.getD_some, hf]
  · rw [List.set_eq_of_length_le (by omega)]

theorem getD_set_same_of_seat (l : List PlayState) (d : Nat) (p : PlayState)
    (hp : p.seatToPlay = (l.getD d PlayState.init).seatToPlay) :
    ((l.set d p).getD d PlayState.init).seatToPlay =
      (l.getD d PlayState.init).seatToPlay := by
  by_cases hd : d < l.length
  · rw [List.getD_eq_getElem?_getD, List.getElem?_set_self hd, Option.getD_some, hp]
  · rw [List.set_eq_of_length_le (by omega)]

theorem playCardAndSearch_frame
    (recurse : Nat → Int → SearchState → SearchResultS × SearchState)
    (hrec : ∀ (d : Nat) (b : Int) (s : SearchState), handsBounded s.hands →
      (recurse d b s).2.hands = s.hands ∧
      ∀ i, i < d → (recurse d b s).2.play i = s.play i)
    (depth card : Nat) (beta : Int) (st : SearchState)
    (hb : handsBounded st.hands)
    (hcard : (st.hands.hand ((st.play depth).seatToPlay)).hasCard card = true) :
    (playCardAndSearch recurse depth card beta st).2.hands = st.hands ∧
    (∀ i, i < depth → (playCardAndSearch recurse depth card beta st).2.play i = st.play i) ∧
    ((playCardAndSearch recurse depth card beta st).2.play depth).seatToPlay =
      (st.play depth).seatToPlay := by
  unfold playCardAndSearch
  lift_lets
  extract_lets trickIdx cardInTrick seatToPlay src0 st1 st2 src1 src2 cwi cwc plays2
    st3 rec0 result st4 wpi wc ws ts hss result2 st5
  have hseat : seatToPlay = (st.play depth).seatToPlay := rfl
  have hst3 : st3 = if cardInTrick = 0 then
      { st2 with
        tricks := st2.tricks.set trickIdx ({ st2.trick trickIdx with leadSuit := suit_of card })
        plays := st2.plays.set depth ({ st2.play depth with winningPlay := depth }) }
    else if winsOverT st2.trump card cwc = true then
      { st2 with plays := st2.plays.set depth ({ st2.play depth with winningPlay := depth }) }
    else { st2 with plays := plays2 } := rfl
  have hplays2 : plays2 = st2.plays.set depth ({ st2.play depth with winningPlay := cwi }) := rfl
  have h3hands : st3.hands =
      st.hands.setHand seatToPlay ((st.hands.hand seatToPlay).remove card) := by
    rw [hst3]
    split
    · rfl
    · split
      · rfl
      · rfl
  have h2plays : st2.plays = st.plays.set depth ({ st.play depth with cardPlayed := card }) := rfl
  have h3play_lt : ∀ i, i < depth → st3.play i = st.play i := by
    intro i hi
    have hne : i ≠ depth := by omega
    rw [hst3]
    split
    · show (st2.plays.set depth _).getD i PlayState.init = _
      rw [getD_set_other _ _ _ _ _ hne, h2plays, getD_set_other _ _ _ _ _ hne]
      rfl
    · split
      · show (st2.plays.set depth _).getD i PlayState.init = _
        rw [getD_set_other _ _ _ _ _ hne, h2plays, getD_set_other _ _ _ _ _ hne]
        rfl
      · show plays2.getD i PlayState.init = _
        rw [hplays2, getD_set_other _ _ _ _ _ hne, h2plays, getD_set_other _ _ _ _ _ hne]
        rfl
  have h2playd : (st2.play depth).seatToPlay = (st.play depth).seatToPlay := by
    show ((st.plays.set depth ({ st.play depth with cardPlayed := card })).getD depth
      PlayState.init).seatToPlay = _
    exact getD_set_same_of_seat st.plays depth _ rfl
  have h3seat : (st3.play depth).seatToPlay = (st.play depth).seatToPlay := by
    rw [hst3]
    split
    · show ((st2.plays.set depth ({ st2.play depth with winningPlay := depth })).getD depth
        PlayState.init).seatToPlay = _
      rw [getD_set_same_of_seat st2.plays depth ({ st2.play depth with winningPlay := depth }) rfl]
      exact h2playd
    · split
      · show ((st2.plays.set depth ({ st2.play depth with winningPlay := depth })).getD depth
          PlayState.init).seatToPlay = _
        rw [getD_set_same_of_seat st2.plays depth ({ st2.play depth with winningPlay := depth }) rfl]
        exact h2playd
      · show (plays2.getD depth PlayState.init).seatToPlay = _
        rw [hplays2, getD_set_same_of_seat st2.plays depth ({ st2.play depth with winningPlay := cwi }) rfl]
        exact h2playd
  have h3b : handsBounded st3.hands := by
    rw [h3hands]
    exact setHand_bounded hb
      (lt_of_le_of_lt (remove_bits_le _ _) (hand_bits_lt hb _)) _
  obtain ⟨h4hands, h4play⟩ := hrec (depth + 1) beta st3 h3b
  have h5hands : st5.hands = st.hands := by
    show (st4.hands.setHand seatToPlay ((st4.hands.hand seatToPlay).add card)) = st.hands
    rw [h4hands, h3hands]
    by_cases hs4 : seatToPlay < 4
    · rw [hand_setHand_eq _ _ _ hs4, setHand_setHand,
        remove_add_cancel (hand_bits_lt hb seatToPlay) (hseat ▸ hcard), setHand_self]
    · rw [setHand_ge _ _ _ (by omega), setHand_ge _ _ _ (by omega)]
  have h5play : ∀ i, st5.play i = st4.play i := fun i => rfl
  refine ⟨h5hands, ?_, ?_⟩
  · intro i hi
    rw [h5play i, h4play i (by omega), h3play_lt i hi]
  · rw [h5play depth, h4play depth (by omega), h3seat]

theorem op_props (st' : SearchState) (depth : Nat) (ordered : List Nat) (rp : Cards)
    (P : Nat → Prop)
    (hord : ∀ k ∈ ordered, P k) (hrem : ∀ k, rp.hasCard k = true → P k)
    (hrpb : rp.bits < 2 ^ 64) :
    (∀ k ∈ (if (!rp.isEmpty) = true
        then (ordered ++ orderCardsStatic st' depth rp, (⟨0⟩ : Cards))
        else (ordered, rp)).1, P k) ∧
    (∀ k, (if (!rp.isEmpty) = true
        then (ordered ++ orderCardsStatic st' depth rp, (⟨0⟩ : Cards))
        else (ordered, rp)).2.hasCard k = true → P k) ∧
    (if (!rp.isEmpty) = true
        then (ordered ++ orderCardsStatic st' depth rp, (⟨0⟩ : Cards))
        else (ordered, rp)).2.bits < 2 ^ 64 := by
  split
  · refine ⟨?_, ?_, by norm_num⟩
    · intro k hk
      rcases List.mem_append.mp hk with h | h
      · exact hord k h
      · exact hrem k (orderCardsStatic_mem st' depth rp hrpb k h)
    · intro k hk
      rw [zero_hasCard] at hk
      cases hk
  · exact ⟨hord, hrem, hrpb⟩

theorem triple_ite_pair {p : Prop} [Decidable p] (depth : Nat) (st : SearchState)
    (x y : SearchResultS × SearchState)
    (hx : x.2.hands = st.hands ∧ (∀ j, j < depth → x.2.play j = st.play j) ∧
      (x.2.play depth).seatToPlay = (st.play depth).seatToPlay)
    (hy : y.2.hands = st.hands ∧ (∀ j, j < depth → y.2.play j = st.play j) ∧
      (y.2.play depth).seatToPlay = (st.play depth).seatToPlay) :
    (if p then x else y).2.hands = st.hands ∧
    (∀ j, j < depth → (if p then x else y).2.play j = st.play j) ∧
    ((if p then x else y).2.play depth).seatToPlay = (st.play depth).seatToPlay := by
  split
  · exact hx
  · exact hy

theorem triple_ite_state {p : Prop} [Decidable p] (depth : Nat) (st : SearchState)
    (x y : SearchState)
    (hx : x.hands = st.hands ∧ (∀ j, j < depth → x.play j = st.play j) ∧
      (x.play depth).seatToPlay = (st.play depth).seatToPlay)
    (hy : y.hands = st.hands ∧ (∀ j, j < depth → y.play j = st.play j) ∧
      (y.play depth).seatToPlay = (st.play depth).seatToPlay) :
    (if p then x else y).hands = st.hands ∧
    (∀ j, j < depth → (if p then x else y).play j = st.play j) ∧
    ((if p then x else y).play depth).seatToPlay = (st.play depth).seatToPlay := by
  split
  · exact hx
  · exact hy

theorem evalLoop_frame
    (recurse : Nat → Int → SearchState → SearchResultS × SearchState)
    (hrec : ∀ (d : Nat) (b : Int) (s : SearchState), handsBounded s.hands →
      (recurse d b s).2.hands = s.hands ∧
      ∀ i, i < d → (recurse d b s).2.play i = s.play i)
    (depth : Nat) (beta : Int) (maximizing : Bool) (cutoffHash : Nat)
    (cutoffCard : Option Nat) (myHand allCards : Cards) :
    ∀ (fuel : Nat) (ordered : List Nat) (rp : Cards) (i best : Nat) (tried rkw : Cards)
      (minRel : List Nat) (st : SearchState),
      handsBounded st.hands →
      (∀ k ∈ ordered, (st.hands.hand ((st.play depth).seatToPlay)).hasCard k = true) →
      (∀ k, rp.hasCard k = true →
        (st.hands.hand ((st.play depth).seatToPlay)).hasCard k = true) →
      rp.bits < 2 ^ 64 →
      (evalLoop recurse depth beta maximizing cutoffHash cutoffCard myHand allCards
        fuel ordered rp i best tried rkw minRel st).2.hands = st.hands ∧
      (∀ j, j < depth → (evalLoop recurse depth beta maximizing cutoffHash cutoffCard
        myHand allCards fuel ordered rp i best tried rkw minRel st).2.play j = st.play j) ∧
      ((evalLoop recurse depth beta maximizing cutoffHash cutoffCard myHand allCards
        fuel ordered rp i best tried rkw minRel st).2.play depth).seatToPlay =
        (st.play depth).seatToPlay := by
  intro fuel
  induction fuel with
  | zero =>
    intro ordered rp i best tried rkw minRel st hb hord hrem hrpb
    exact ⟨rfl, fun j hj => rfl, rfl⟩
  | succ f ih =>
    intro ordered rp i best tried rkw minRel st hb hord hrem hrpb
    simp only [evalLoop]
    by_cases hi : i < ordered.length
    · rw [if_pos hi]
      have hcard : (st.hands.hand ((st.play depth).seatToPlay)).hasCard
          (ordered.getD i 0) = true := hord _ (getD_mem ordered i 0 hi)
      split
      · obtain ⟨ho2, hr2, hb2⟩ := op_props st depth ordered rp _ hord hrem hrpb
        exact ih _ _ (i + 1) best _ rkw minRel st hb ho2 hr2 hb2
      · split
        · obtain ⟨ho2, hr2, hb2⟩ := op_props st depth ordered rp _ hord hrem hrpb
          exact ih _ _ (i + 1) best _ rkw minRel st hb ho2 hr2 hb2
        · have hpcs := playCardAndSearch_frame recurse hrec depth (ordered.getD i 0)
            beta st hb hcard
          have hb2 : handsBounded (playCardAndSearch recurse depth
              (ordered.getD i 0) beta st).2.hands := by
            rw [hpcs.1]
            exact hb
          have hseatEq : (playCardAndSearch recurse depth (ordered.getD i 0)
              beta st).2.hands.hand (((playCardAndSearch recurse depth (ordered.getD i 0)
              beta st).2.play depth).seatToPlay) =
              st.hands.hand ((st.play depth).seatToPlay) := by
            rw [hpcs.1, hpcs.2.2]
          have heval : ∀ (b2 : Nat) (rkw2 : Cards) (minRel2 : List Nat),
              (evalLoop recurse depth beta maximizing cutoffHash cutoffCard myHand allCards f
                (if (!rp.isEmpty) = true
                  then (ordered ++ orderCardsStatic (playCardAndSearch recurse depth
                    (ordered.getD i 0) beta st).2 depth rp, (⟨0⟩ : Cards))
                  else (ordered, rp)).1
                (if (!rp.isEmpty) = true
                  then (ordered ++ orderCardsStatic (playCardAndSearch recurse depth
                    (ordered.getD i 0) beta st).2 depth rp, (⟨0⟩ : Cards))
                  else (ordered, rp)).2
                (i + 1) b2 (tried.add (ordered.getD i 0)) rkw2 minRel2
                (playCardAndSearch recurse depth (ordered.getD i 0) beta st).2).2.hands =
                st.hands ∧
              (∀ j, j < depth → (evalLoop recurse depth beta maximizing cutoffHash
                cutoffCard myHand allCards f
                (if (!rp.isEmpty) = true
                  then (ordered ++ orderCardsStatic (playCardAndSearch recurse depth
                    (ordered.getD i 0) beta st).2 depth rp, (⟨0⟩ : Cards))
                  else (ordered, rp)).1
                (if (!rp.isEmpty) = true
                  then (ordered ++ orderCardsStatic (playCardAndSearch recurse depth
                    (ordered.getD i 0) beta st).2 depth rp, (⟨0⟩ : Cards))
                  else (ordered, rp)).2
                (i + 1) b2 (tried.add (ordered.getD i 0)) rkw2 minRel2
                (playCardAndSearch recurse depth (ordered.getD i 0) beta st).2).2.play j =
                st.play j) ∧
              ((evalLoop recurse depth beta maximizing cutoffHash cutoffCard myHand
                allCards f
                (if (!rp.isEmpty) = true
                  then (ordered ++ orderCardsStatic (playCardAndSearch recurse depth
                    (ordered.getD i 0) beta st).2 depth rp, (⟨0⟩ : Cards))
                  else (ordered, rp)).1
                (if (!rp.isEmpty) = true
                  then (ordered ++ orderCardsStatic (playCardAndSearch recurse depth
                    (ordered.getD i 0) beta st).2 depth rp, (⟨0⟩ : Cards))
                  else (ordered, rp)).2
                (i + 1) b2 (tried.add (ordered.getD i 0)) rkw2 minRel2
                (playCardAndSearch recurse depth (ordered.getD i 0)
                  beta st).2).2.play depth).seatToPlay = (st.play depth).seatToPlay := by
            intro b2 rkw2 minRel2
            obtain ⟨ho2, hr2, hb2x⟩ := op_props (playCardAndSearch recurse depth
              (ordered.getD i 0) beta st).2 depth ordered rp
              (fun k => ((playCardAndSearch recurse depth (ordered.getD i 0)
                beta st).2.hands.hand (((playCardAndSearch recurse depth (ordered.getD i 0)
                beta st).2.play depth).seatToPlay)).hasCard k = true)
              (by
                intro k hk
                rw [hseatEq]
                exact hord k hk)
              (by
                intro k hk
                rw [hseatEq]
                exact hrem k hk)
              hrpb
            have hres := ih
              (if (!rp.isEmpty) = true
                then (ordered ++ orderCardsStatic (playCardAndSearch recurse depth
                  (ordered.getD i 0) beta st).2 depth rp, (⟨0⟩ : Cards))
                else (ordered, rp)).1
              (if (!rp.isEmpty) = true
                then (ordered ++ orderCardsStatic (playCardAndSearch recurse depth
                  (ordered.getD i 0) beta st).2 depth rp, (⟨0⟩ : Cards))
                else (ordered, rp)).2
              (i + 1) b2 (tried.add (ordered.getD i 0)) rkw2 minRel2
              (playCardAndSearch recurse depth (ordered.getD i 0) beta st).2
              hb2 ho2 hr2 hb2x
            refine ⟨?_, ?_, ?_⟩
            · rw [hres.1, hpcs.1]
            · intro j hj
              rw [hres.2.1 j hj, hpcs.2.1 j hj]
            · rw [hres.2.2, hpcs.2.2]
          exact triple_ite_pair depth st _ _
            (triple_ite_state depth st _ _ ⟨hpcs.1, hpcs.2.1, hpcs.2.2⟩
              ⟨hpcs.1, hpcs.2.1, hpcs.2.2⟩)
            (heval _ _ _)
    · rw [if_neg hi]
      exact ⟨rfl, fun j hj => rfl, rfl⟩

theorem evaluatePlayableCards_frame
    (recurse : Nat → Int → SearchState → SearchResultS × SearchState)
    (hrec : ∀ (d : Nat) (b : Int) (s : SearchState), handsBounded s.hands →
      (recurse d b s).2.hands = s.hands ∧
      ∀ i, i < d → (recurse d b s).2.play i = s.play i)
    (depth : Nat) (beta : Int) (st0 : SearchState) (hb : handsBounded st0.hands) :
    (evaluatePlayableCards recurse depth beta st0).2.hands = st0.hands ∧
    (∀ j, j < depth → (evaluatePlayableCards recurse depth beta st0).2.play j =
      st0.play j) ∧
    ((evaluatePlayableCards recurse depth beta st0).2.play depth).seatToPlay =
      (st0.play depth).seatToPlay := by
  unfold evaluatePlayableCards
  lift_lets
  extract_lets st trickIdx cardInTrick nsTricksWon seatToPlay maximizing leadSuit
    playable wpi ws allCards bci cutoffHash cutoffCard orc myHand best0
  have hplayable : playable = get_playable_cards st.hands seatToPlay leadSuit := rfl
  have hb' : handsBounded st.hands := hb
  have hpb : playable.bits < 2 ^ 64 := by
    rw [hplayable]
    exact playable_bits_lt _ _ _ (hand_bits_lt hb' seatToPlay)
  have hpsub : ∀ k, playable.hasCard k = true →
      (st.hands.hand seatToPlay).hasCard k = true := by
    rw [hplayable]
    exact fun k hk => playable_sub _ _ _ hk
  have horcp : ∀ (occ : Option Nat),
      (∀ k ∈ (match occ with
        | some cc => if playable.hasCard cc then ([cc], playable.remove cc)
          else (orderCardsStatic st depth playable, (⟨0⟩ : Cards))
        | none => (orderCardsStatic st depth playable, (⟨0⟩ : Cards)) :
          List Nat × Cards).1, (st.hands.hand seatToPlay).hasCard k = true) ∧
      (∀ k, (match occ with
        | some cc => if playable.hasCard cc then ([cc], playable.remove cc)
          else (orderCardsStatic st depth playable, (⟨0⟩ : Cards))
        | none => (orderCardsStatic st depth playable, (⟨0⟩ : Cards)) :
          List Nat × Cards).2.hasCard k = true →
        (st.hands.hand seatToPlay).hasCard k = true) ∧
      (match occ with
        | some cc => if playable.hasCard cc then ([cc], playable.remove cc)
          else (orderCardsStatic st depth playable, (⟨0⟩ : Cards))
        | none => (orderCardsStatic st depth playable, (⟨0⟩ : Cards)) :
          List Nat × Cards).2.bits < 2 ^ 64 := by
    intro occ
    rcases occ with _ | cc
    · dsimp only
      refine ⟨?_, ?_, by norm_num⟩
      · intro k hk
        exact hpsub k (orderCardsStatic_mem st depth playable hpb k hk)
      · intro k hk
        rw [zero_hasCard] at hk
        cases hk
    · dsimp only
      split
      · rename_i hcc
        refine ⟨?_, ?_, lt_of_le_of_lt (remove_bits_le _ _) hpb⟩
        · intro k hk
          rw [List.mem_singleton] at hk
          subst hk
          exact hpsub _ hcc
        · intro k hk
          exact hpsub k (sub_remove _ _ hk)
      · refine ⟨?_, ?_, by norm_num⟩
        · intro k hk
          exact hpsub k (orderCardsStatic_mem st depth playable hpb k hk)
        · intro k hk
          rw [zero_hasCard] at hk
          cases hk
  split
  · exact ⟨rfl, fun j hj => rfl, rfl⟩
  · exact evalLoop_frame recurse hrec depth beta maximizing cutoffHash cutoffCard
      myHand allCards 64 orc.1 orc.2 0 best0 ⟨0⟩ ⟨0⟩ [0, 0, 0, 0] st hb'
      (horcp cutoffCard).1 (horcp cutoffCard).2.1 (horcp cutoffCard).2.2

theorem searchAtTrickStart_frame
    (recurse : Nat → Int → SearchState → SearchResultS × SearchState)
    (hrec : ∀ (d : Nat) (b : Int) (s : SearchState), handsBounded s.hands →
      (recurse d b s).2.hands = s.hands ∧
      ∀ i, i < d → (recurse d b s).2.play i = s.play i)
    (depth : Nat) (beta : Int) (st : SearchState) (hb : handsBounded st.hands) :
    (searchAtTrickStart recurse depth beta st).2.hands = st.hands ∧
    (∀ j, j < depth → (searchAtTrickStart recurse depth beta st).2.play j = st.play j) ∧
    ((searchAtTrickStart recurse depth beta st).2.play depth).seatToPlay =
      (st.play depth).seatToPlay := by
  unfold searchAtTrickStart
  lift_lets
  extract_lets
  repeat' split
  all_goals
    first
      | exact ⟨rfl, fun j hj => rfl, rfl⟩
      | exact evaluatePlayableCards_frame recurse hrec depth beta st hb

theorem searchWithCache_frame_aux : ∀ (fuel depth : Nat) (beta : Int) (st : SearchState),
    handsBounded st.hands →
    (fun (p : SearchResultS × SearchState) =>
      p.2.hands = st.hands ∧ ∀ i, i < depth → p.2.play i = st.play i)
      (searchWithCache fuel depth beta st) := by
  intro fuel
  induction fuel with
  | zero =>
    intro depth beta st hb
    exact ⟨rfl, fun i hi => rfl⟩
  | succ f ih =>
    intro depth beta st0 hb
    have hrec : ∀ (d : Nat) (b : Int) (s : SearchState), handsBounded s.hands →
        (searchWithCache f d b s).2.hands = s.hands ∧
        ∀ i, i < d → (searchWithCache f d b s).2.play i = s.play i :=
      fun d b s hbs => ih d b s hbs
    rw [searchWithCache]
    lift_lets
    extract_lets prev src2 psA stA pws nsWon psB st1 ntw stp rem ac src1 st2 src0 tk1
      pti pac pstart c1 c2 c3 c4 plead shp rel tk st3 shv rb np hit r result st4 rt
      bnds ph np2 gc entry entry2 st5
    have hstAeq : stA = { st0 with plays := st0.plays.set depth psA } := rfl
    have hstAh : stA.hands = st0.hands := rfl
    have hstAp : ∀ j, j < depth → stA.play j = st0.play j := by
      intro j hj
      show (st0.plays.set depth psA).getD j PlayState.init = st0.plays.getD j PlayState.init
      exact getD_set_other st0.plays depth j psA PlayState.init (by omega)
    have hst1eq : st1 = if 0 < depth then { st0 with plays := st0.plays.set depth psB }
        else st0 := rfl
    have hst1h : st1.hands = st0.hands := by
      rw [hst1eq]
      split
      · rfl
      · rfl
    have hst1p : ∀ j, j < depth → st1.play j = st0.play j := by
      intro j hj
      rw [hst1eq]
      split
      · show (st0.plays.set depth psB).getD j PlayState.init =
          st0.plays.getD j PlayState.init
        exact getD_set_other st0.plays depth j psB PlayState.init (by omega)
      · rfl
    have hb1 : handsBounded st1.hands := by
      rw [hst1h]
      exact hb
    have hst3eq : st3 = if depth = 0 then
        { st2 with tricks := st2.tricks.set (depth / 4) tk1 }
        else { st2 with tricks := st2.tricks.set (depth / 4) tk } := rfl
    have hst3h : st3.hands = st1.hands := by
      rw [hst3eq]
      split
      · rfl
      · rfl
    have hst3p : ∀ j, st3.play j = st1.play j := by
      intro j
      rw [hst3eq]
      split
      · rfl
      · rfl
    have hb3 : handsBounded st3.hands := by
      rw [hst3h]
      exact hb1
    have hsats := searchAtTrickStart_frame (searchWithCache f) hrec depth beta st3 hb3
    have hst4h : st4.hands = st0.hands := by
      show (searchAtTrickStart (searchWithCache f) depth beta st3).2.hands = st0.hands
      rw [hsats.1, hst3h, hst1h]
    have hst4p : ∀ j, j < depth → st4.play j = st0.play j := by
      intro j hj
      show (searchAtTrickStart (searchWithCache f) depth beta st3).2.play j = st0.play j
      rw [hsats.2.1 j hj, hst3p j, hst1p j hj]
    have hmatch : ∀ (ho : Option (Hands × Bounds)),
        (fun (p : SearchResultS × SearchState) =>
          p.2.hands = st0.hands ∧ ∀ i, i < depth → p.2.play i = st0.play i)
          (match ho with
            | some mb =>
              let rankWinners := (Pattern.new mb.1 mb.2).getRankWinners ac
              let adjLower := mb.2.lower + (ntw : Int)
              let adjUpper := mb.2.upper + (ntw : Int)
              if adjLower ≥ beta then
                ((⟨adjLower.toNat, rankWinners⟩ : SearchResultS), st3)
              else if adjUpper < beta then
                ((⟨adjUpper.toNat, rankWinners⟩ : SearchResultS), st3)
              else searchAtTrickStart (searchWithCache f) depth beta st3
            | none =>
              if (!st4.noTT) = true then
                ((⟨result.nsTricks, ph.2⟩ : SearchResultS), st5)
              else (result, st4)) := by
      intro ho
      rcases ho with _ | mb
      · dsimp only
        split
        · exact ⟨hst4h, fun i hi => hst4p i hi⟩
        · exact ⟨hst4h, fun i hi => hst4p i hi⟩
      · dsimp only
        split
        · exact ⟨by rw [hst3h, hst1h], fun i hi => by rw [hst3p i, hst1p i hi]⟩
        · split
          · exact ⟨by rw [hst3h, hst1h], fun i hi => by rw [hst3p i, hst1p i hi]⟩
          · refine ⟨?_, ?_⟩
            · rw [hsats.1, hst3h, hst1h]
            · intro i hi
              rw [hsats.2.1 i hi, hst3p i, hst1p i hi]
    by_cases hct : depth % 4 ≠ 0
    · rw [if_pos hct]
      have hepc := evaluatePlayableCards_frame (searchWithCache f) hrec depth beta stA
        (show handsBounded stA.hands from hb)
      refine ⟨?_, ?_⟩
      · rw [hepc.1, hstAh]
      · intro i hi
        rw [hepc.2.1 i hi, hstAp i hi]
    · rw [if_neg hct]
      split
      · exact ⟨hst1h, fun i hi => hst1p i hi⟩
      · split
        · exact ⟨hst1h, fun i hi => hst1p i hi⟩
        · split
          · exact ⟨hst1h, fun i hi => hst1p i hi⟩
          · exact hmatch hit

/-- C3: every search invocation restores the four hand bitboards to their
entry value on every return path: for any fuel, depth, beta, and search
state whose hand bitboards are in `u64` range, the state returned by
`search_with_cache` carries exactly the entry hands (each card played during
recursion is removed before the recursive call and added back after it,
including on early cutoff returns). -/
theorem search_restores_hands (fuel depth : Nat) (beta : Int) (st : SearchState)
    (hb : handsBounded st.hands) :
    (searchWithCache fuel depth beta st).2.hands = st.hands :=
  (searchWithCache_frame_aux fuel depth beta st hb).1

/-- C3, witness: a full search over a concrete one-trick deal returns the
entry hands unchanged. -/
theorem search_restores_hands_witness :
    (searchWithCache 8 0 1 (newWithPartialTrick ⟨⟨2 ^ 11⟩, ⟨1⟩, ⟨2⟩, ⟨2 ^ 12⟩⟩ NOTRUMP WEST
      (CutoffCacheS.new 1) (PatternCacheS.new 1) none Flags.off 0)).2.hands =
    (newWithPartialTrick ⟨⟨2 ^ 11⟩, ⟨1⟩, ⟨2⟩, ⟨2 ^ 12⟩⟩ NOTRUMP WEST
      (CutoffCacheS.new 1) (PatternCacheS.new 1) none Flags.off 0).hands :=
  search_restores_hands 8 0 1 _ (by unfold handsBounded; exact ⟨by decide, by decide, by decide, by decide⟩)

end Bridge
